import Mathlib

/-!
# WaykiChain ABI serializer: a shallow embedding

Embedding of `src/vm/wasm/abi_serializer.cpp` (the schema-driven transcoder
between the binary wire format and the JSON value tree) and the theorems
settling the claims of the specification about it.

Conventions of the embedding

* C++ exceptions are the `error` results of `Except Err`.
* `std::string` is a Lean `String` read as a sequence of 8-bit characters.
* `std::map` is an association list kept in increasing key order (`map_set`,
  `map_find`), so that iteration order is the one of the C++ container.
* A byte is a `Fin 256`; the read stream is the list of bytes not yet read;
  the write stream is the list of bytes written together with the capacity
  of the buffer.
* `system_clock::now()` is an input: the traversal context carries the
  sequence of readings the clock returns (`clock`) and the number of
  readings already taken (`reads`).
* Recursive walks take a `fuel` argument bounding the recursion depth; running
  out of fuel is the result `Err.fuel_exhausted`, which is not an exception of
  the program.
-/

namespace wasm

/-! ## Exceptions, bytes and values -/

/-- The exception kinds raised by the serializer, the two low-level failures
of the collaborators (`stream_overflow` of the datastream, `runtime_error` of
the JSON value accessors) and the out-of-fuel result of the embedding. -/
inductive Err where
  | unsupport_abi_version_exception
  | duplicate_abi_def_exception
  | invalid_type_inside_abi
  | abi_circular_def_exception
  | circular_reference_in_struct
  | unpack_exception
  | array_size_exceeds_exception
  | abi_serialization_deadline_exception
  | stream_overflow
  | runtime_error
  | fuel_exhausted
deriving DecidableEq, Repr

abbrev Byte := Fin 256

abbrev type_name := String

abbrev field_name := String

/-- Modelled from the spec: the JSON value tree (`json_spirit::Value`, declared in
the JSON headers): null, boolean, integer, string, array, and object as an ordered
sequence of name/value pairs. -/
inductive Value where
  | null : Value
  | bool : Bool → Value
  | int : Int → Value
  | str : String → Value
  | array : List Value → Value
  | obj : List (String × Value) → Value
deriving Repr

/- Equality of values is decidable; the three functions follow the nesting of
the type. -/
mutual
def Value.decEq : (a b : Value) → Decidable (a = b)
  | .null, .null => isTrue rfl
  | .bool x, .bool y => if h : x = y then isTrue (by rw [h]) else isFalse (by intro e; cases e; exact h rfl)
  | .int x, .int y => if h : x = y then isTrue (by rw [h]) else isFalse (by intro e; cases e; exact h rfl)
  | .str x, .str y => if h : x = y then isTrue (by rw [h]) else isFalse (by intro e; cases e; exact h rfl)
  | .array x, .array y =>
    match Value.decEqList x y with
    | isTrue h => isTrue (by rw [h])
    | isFalse h => isFalse (by intro e; cases e; exact h rfl)
  | .obj x, .obj y =>
    match Value.decEqPairs x y with
    | isTrue h => isTrue (by rw [h])
    | isFalse h => isFalse (by intro e; cases e; exact h rfl)
  | .null, .bool _ => isFalse (by intro e; cases e)
  | .null, .int _ => isFalse (by intro e; cases e)
  | .null, .str _ => isFalse (by intro e; cases e)
  | .null, .array _ => isFalse (by intro e; cases e)
  | .null, .obj _ => isFalse (by intro e; cases e)
  | .bool _, .null => isFalse (by intro e; cases e)
  | .bool _, .int _ => isFalse (by intro e; cases e)
  | .bool _, .str _ => isFalse (by intro e; cases e)
  | .bool _, .array _ => isFalse (by intro e; cases e)
  | .bool _, .obj _ => isFalse (by intro e; cases e)
  | .int _, .null => isFalse (by intro e; cases e)
  | .int _, .bool _ => isFalse (by intro e; cases e)
  | .int _, .str _ => isFalse (by intro e; cases e)
  | .int _, .array _ => isFalse (by intro e; cases e)
  | .int _, .obj _ => isFalse (by intro e; cases e)
  | .str _, .null => isFalse (by intro e; cases e)
  | .str _, .bool _ => isFalse (by intro e; cases e)
  | .str _, .int _ => isFalse (by intro e; cases e)
  | .str _, .array _ => isFalse (by intro e; cases e)
  | .str _, .obj _ => isFalse (by intro e; cases e)
  | .array _, .null => isFalse (by intro e; cases e)
  | .array _, .bool _ => isFalse (by intro e; cases e)
  | .array _, .int _ => isFalse (by intro e; cases e)
  | .array _, .str _ => isFalse (by intro e; cases e)
  | .array _, .obj _ => isFalse (by intro e; cases e)
  | .obj _, .null => isFalse (by intro e; cases e)
  | .obj _, .bool _ => isFalse (by intro e; cases e)
  | .obj _, .int _ => isFalse (by intro e; cases e)
  | .obj _, .str _ => isFalse (by intro e; cases e)
  | .obj _, .array _ => isFalse (by intro e; cases e)
def Value.decEqList : (a b : List Value) → Decidable (a = b)
  | [], [] => isTrue rfl
  | [], _ :: _ => isFalse (by intro e; cases e)
  | _ :: _, [] => isFalse (by intro e; cases e)
  | x :: xs, y :: ys =>
    match Value.decEq x y, Value.decEqList xs ys with
    | isTrue h1, isTrue h2 => isTrue (by rw [h1, h2])
    | isFalse h, _ => isFalse (by intro e; cases e; exact h rfl)
    | _, isFalse h => isFalse (by intro e; cases e; exact h rfl)
def Value.decEqPairs : (a b : List (String × Value)) → Decidable (a = b)
  | [], [] => isTrue rfl
  | [], _ :: _ => isFalse (by intro e; cases e)
  | _ :: _, [] => isFalse (by intro e; cases e)
  | (k1, x) :: xs, (k2, y) :: ys =>
    if hk : k1 = k2 then
      match Value.decEq x y, Value.decEqPairs xs ys with
      | isTrue h1, isTrue h2 => isTrue (by rw [hk, h1, h2])
      | isFalse h, _ => isFalse (by intro e; cases e; exact h rfl)
      | _, isFalse h => isFalse (by intro e; cases e; exact h rfl)
    else isFalse (by intro e; cases e; exact hk rfl)
end

instance : DecidableEq Value := Value.decEq

instance instDecEqExcept {ε α : Type} [DecidableEq ε] [DecidableEq α] : DecidableEq (Except ε α)
  | .ok a, .ok b => if h : a = b then isTrue (by rw [h]) else isFalse (by intro e; cases e; exact h rfl)
  | .error a, .error b => if h : a = b then isTrue (by rw [h]) else isFalse (by intro e; cases e; exact h rfl)
  | .ok _, .error _ => isFalse (by intro e; cases e)
  | .error _, .ok _ => isFalse (by intro e; cases e)

/-- The test `is_null` of a value. -/
def Value.is_null : Value → Bool
  | .null => true
  | _ => false

/-- Modelled from the spec: the accessor `get_array`, declared in the JSON headers:
the elements of an array value, a run-time error on any other value. -/
def Value.get_array : Value → Except Err (List Value)
  | .array l => .ok l
  | _ => .error .runtime_error

/-! ## The ABI document -/

/-- Modelled from the spec: a field of a struct, declared in the ABI header: a name and
a type name. -/
structure field_def where
  name : field_name
  type : type_name
deriving DecidableEq, Repr

/-- Modelled from the spec: a struct of the document, declared in the ABI header: its
name, the name of its base (empty when it has none) and its fields in declaration
order. -/
structure struct_def where
  name : type_name
  base : type_name
  fields : List field_def
deriving DecidableEq, Repr

/-- Modelled from the spec: a typedef of the document, declared in the ABI header: the
new name and the aliased type. -/
structure type_def where
  new_type_name : type_name
  type : type_name
deriving DecidableEq, Repr

/-- Modelled from the spec: an action of the document, declared in the ABI header. -/
structure action_def where
  name : String
  type : type_name
deriving DecidableEq, Repr

/-- Modelled from the spec: a table of the document, declared in the ABI header. -/
structure table_def where
  name : String
  type : type_name
deriving DecidableEq, Repr

/-- Modelled from the spec: an error message of the document, declared in the ABI
header. -/
structure error_message where
  error_code : Nat
  error_msg : String
deriving DecidableEq, Repr

/-- Modelled from the spec: the ABI document, declared in the ABI header: the version
string and the sequences of typedefs, structs, actions, tables and error messages. -/
structure abi_def where
  version : String
  types : List type_def
  structs : List struct_def
  actions : List action_def
  tables : List table_def
  error_messages : List error_message
deriving DecidableEq, Repr

/-! ## std::map -/

/-- The lookup `m.find(k)`: the value stored under `k`, if any. -/
def map_find {K V : Type} [DecidableEq K] : List (K × V) → K → Option V
  | [], _ => none
  | (k1, v1) :: rest, k => if k1 = k then some v1 else map_find rest k

/-- The strict order of the keys of a `std::map`. -/
class map_key (K : Type) where
  lt : K → K → Bool

/-- The order of `std::string`: lexicographic on the characters. -/
instance : map_key String := ⟨fun a b => decide (a.data < b.data)⟩

instance : map_key Nat := ⟨fun a b => decide (a < b)⟩

/-- The assignment `m[k] = v`: replaces the value of an existing key, inserts a
new key at its place in increasing key order. -/
def map_set {K V : Type} [DecidableEq K] [map_key K] : List (K × V) → K → V → List (K × V)
  | [], k, v => [(k, v)]
  | (k1, v1) :: rest, k, v =>
    if k = k1 then (k, v) :: rest
    else if map_key.lt k k1 then (k, v) :: (k1, v1) :: rest
    else (k1, v1) :: map_set rest k v

/-! ## The traversal context and the clock -/

/-- Modelled from the spec: the traversal context, declared in the header: the deadline,
the budget it was derived from and the recursion depth. `clock` is the sequence of
readings of `system_clock::now()` and `reads` the number of readings taken so far. -/
structure abi_traverse_context where
  clock : Nat → Nat
  reads : Nat
  max_serialization_time_us : Nat
  deadline : Nat
  recursion_depth : Nat

/-- Modelled from the spec: the constructor of `abi_traverse_context`, declared
in the header. It reads the clock once and sets `deadline` to that reading plus
the budget; the recursion depth starts at zero. -/
def abi_traverse_context.create (clock : Nat → Nat) (reads : Nat) (max_serialization_time : Nat) :
    abi_traverse_context :=
  { clock := clock
    reads := reads + 1
    max_serialization_time_us := max_serialization_time
    deadline := clock reads + max_serialization_time
    recursion_depth := 0 }

/-- The check `check_deadline`: reads the clock and fails when the reading is not before
the deadline. -/
def abi_traverse_context.check_deadline (ctx : abi_traverse_context) : Except Err abi_traverse_context :=
  if ctx.clock ctx.reads < ctx.deadline then .ok { ctx with reads := ctx.reads + 1 }
  else .error .abi_serialization_deadline_exception

/-- The increment `ctx.recursion_depth++`. -/
def abi_traverse_context.enter (ctx : abi_traverse_context) : abi_traverse_context :=
  { ctx with recursion_depth := ctx.recursion_depth + 1 }

/-! ## Exception macros -/

/-- Whether an error is a low-level failure of the datastream or of a JSON accessor
(and not one of the serializer's own exception kinds). -/
def Err.is_low_level : Err → Bool
  | .stream_overflow => true
  | .runtime_error => true
  | _ => false

/-- Modelled from the spec: the macro `WASM_RETHROW_EXCEPTIONS(kind, ...)`, declared in
the exceptions header. A failure of the datastream or of a primitive decoder
surfaces as `kind` with the type context attached; the serializer's own
exception kinds pass through. -/
def WASM_RETHROW_EXCEPTIONS {α : Type} (kind : Err) (r : Except Err α) : Except Err α :=
  match r with
  | .ok a => .ok a
  | .error e => if e.is_low_level then .error kind else .error e

/-- Modelled from the spec: the macro `WASM_CAPTURE_AND_RETHROW(...)`, declared in the
exceptions header. It appends a context message and rethrows; the kind of the
exception is unchanged. -/
def WASM_CAPTURE_AND_RETHROW {α : Type} (r : Except Err α) : Except Err α := r

/-! ## The datastream and the varint codec -/

/-- Modelled from the spec: the write stream `datastream<char*>`, declared in the
datastream header: the bytes written so far (`tellp` is their number) and the capacity
of the underlying buffer. -/
structure datastream where
  written : List Byte
  capacity : Nat
deriving DecidableEq, Repr

/-- The write position of the stream. -/
def datastream.tellp (ds : datastream) : Nat := ds.written.length

/-- Modelled from the spec: a raw write of the datastream, declared in the datastream
header. Writing past the capacity fails with stream-overflow. -/
def datastream.write (ds : datastream) (bs : List Byte) : Except Err datastream :=
  if ds.written.length + bs.length ≤ ds.capacity then .ok { ds with written := ds.written ++ bs }
  else .error .stream_overflow

/-- Modelled from the spec: reading one byte of the read stream (`ds >> flag`
for a `char`); reading past the end fails with stream-overflow. -/
def read_char : List Byte → Except Err (Byte × List Byte)
  | [] => .error .stream_overflow
  | b :: rest => .ok (b, rest)

/-- Modelled from the spec: reading `n` raw bytes of the read stream. -/
def read_bytes : Nat → List Byte → Except Err (List Byte × List Byte)
  | 0, ds => .ok ([], ds)
  | _ + 1, [] => .error .stream_overflow
  | n + 1, b :: rest =>
    match read_bytes n rest with
    | .error e => .error e
    | .ok (bs, ds) => .ok (b :: bs, ds)

/-- The groups of an `unsigned_varint`: 7 bits per byte, least significant group
first, the top bit set on every byte but the last. The first argument bounds
the number of groups. -/
def varuint_groups : Nat → Nat → List Byte
  | 0, _ => []
  | g + 1, n =>
    if n < 128 then [Fin.ofNat n]
    else Fin.ofNat (n % 128 + 128) :: varuint_groups g (n / 128)

/-- Modelled from the spec: the wire form of `wasm::unsigned_int` (a 32-bit
value, so at most five groups), declared in the varint header. -/
def pack_varuint32 (n : Nat) : List Byte := varuint_groups 5 (n % 2 ^ 32)

/-- The loop of the `unsigned_varint` reader: `shift` is the bit position of
the next group and `acc` the value accumulated so far. -/
def read_varuint32_loop : List Byte → Nat → Nat → Except Err (Nat × List Byte)
  | [], _, _ => .error .stream_overflow
  | b :: rest, shift, acc =>
    if b.val < 128 then .ok ((acc + b.val * 2 ^ shift) % 2 ^ 32, rest)
    else read_varuint32_loop rest (shift + 7) (acc + (b.val % 128) * 2 ^ shift)

/-- Modelled from the spec: reading a `wasm::unsigned_int` (`ds >> size`),
declared in the varint header: groups are read until one has its top bit
clear; the value is truncated to 32 bits. -/
def read_varuint32 (ds : List Byte) : Except Err (Nat × List Byte) :=
  read_varuint32_loop ds 0 0

/-- Modelled from the spec: the bound `max_array_size_for_abi`, declared in the
header; the reference value is `1 << 20`. -/
def max_array_size_for_abi : Nat := 1048576

/-! ## Primitive wire types and the built-in registry -/

/-- The collaborators of a C++ type `T` that `pack_unpack<T>` uses: the stream
operators `ds << t` (the bytes it appends) and `ds >> t`, and the conversions
`to_variant` and `from_variant`. -/
structure WireType (T : Type) where
  write : T → List Byte
  read : List Byte → Except Err (T × List Byte)
  to_variant : T → Value
  from_variant : Value → Except Err T

/-- Reads `n` consecutive elements with the reader `rd`. -/
def read_elems {T : Type} (rd : List Byte → Except Err (T × List Byte)) :
    Nat → List Byte → Except Err (List T × List Byte)
  | 0, ds => .ok ([], ds)
  | n + 1, ds =>
    match rd ds with
    | .error e => .error e
    | .ok (t, ds1) =>
      match read_elems rd n ds1 with
      | .error e => .error e
      | .ok (ts, ds2) => .ok (t :: ts, ds2)

/-- Converts the elements of a JSON array one by one. -/
def from_variant_list {T : Type} (f : Value → Except Err T) : List Value → Except Err (List T)
  | [] => .ok []
  | v :: vs =>
    match f v with
    | .error e => .error e
    | .ok t =>
      match from_variant_list f vs with
      | .error e => .error e
      | .ok ts => .ok (t :: ts)

/-- Modelled from the spec: the stream operators and variant conversions of
`vector<T>`, declared in the datastream and variant headers: an
`unsigned_varint` length followed by the elements; the variant is a JSON array. -/
def WireType.vector {T : Type} (w : WireType T) : WireType (List T) :=
  { write := fun ts => pack_varuint32 ts.length ++ (ts.map w.write).flatten
    read := fun ds =>
      match read_varuint32 ds with
      | .error e => .error e
      | .ok (n, ds1) => read_elems w.read n ds1
    to_variant := fun ts => Value.array (ts.map w.to_variant)
    from_variant := fun v =>
      match v with
      | .array l => from_variant_list w.from_variant l
      | _ => .error .runtime_error }

/-- Modelled from the spec: the stream operators and variant conversions of
`optional<T>`, declared in the datastream and variant headers: a presence byte,
`0x00` when absent and `0x01` followed by the payload when present; any nonzero
presence byte is read as present; the variant of an absent value is null. -/
def WireType.optional {T : Type} (w : WireType T) : WireType (Option T) :=
  { write := fun o =>
      match o with
      | none => [0]
      | some t => 1 :: w.write t
    read := fun ds =>
      match read_char ds with
      | .error e => .error e
      | .ok (flag, ds1) =>
        if flag = 0 then .ok (none, ds1)
        else
          match w.read ds1 with
          | .error e => .error e
          | .ok (t, ds2) => .ok (some t, ds2)
    to_variant := fun o =>
      match o with
      | none => Value.null
      | some t => w.to_variant t
    from_variant := fun v =>
      match v with
      | .null => .ok none
      | _ =>
        match w.from_variant v with
        | .error e => .error e
        | .ok t => .ok (some t) }

/-- The `count` little-endian bytes of `n`. -/
def le_bytes : Nat → Nat → List Byte
  | 0, _ => []
  | count + 1, n => Fin.ofNat n :: le_bytes count (n / 256)

/-- The value of a little-endian byte sequence. -/
def le_value : List Byte → Nat
  | [] => 0
  | b :: rest => b.val + 256 * le_value rest

/-- Modelled from the spec: an unsigned fixed-width integer of `width` bytes
(`uint8_t` to `uint64_t`): little-endian on the wire, a JSON integer as a
variant; `from_variant` narrows like the C++ conversion. -/
def uint_wire (width : Nat) : WireType Nat :=
  { write := fun n => le_bytes width n
    read := fun ds =>
      match read_bytes width ds with
      | .error e => .error e
      | .ok (bs, ds1) => .ok (le_value bs, ds1)
    to_variant := fun n => Value.int n
    from_variant := fun v =>
      match v with
      | .int i => .ok (i % (2 ^ (8 * width) : Nat)).toNat
      | _ => .error .runtime_error }

/-- The signed reading of a `width`-byte two's complement pattern. -/
def to_signed (width : Nat) (n : Nat) : Int :=
  if n < 2 ^ (8 * width - 1) then (n : Int) else (n : Int) - (2 ^ (8 * width) : Nat)

/-- Modelled from the spec: a signed fixed-width integer of `width` bytes
(`int8_t` to `int64_t`): two's complement, little-endian on the wire. -/
def int_wire (width : Nat) : WireType Int :=
  { write := fun i => le_bytes width (i % (2 ^ (8 * width) : Nat)).toNat
    read := fun ds =>
      match read_bytes width ds with
      | .error e => .error e
      | .ok (bs, ds1) => .ok (to_signed width (le_value bs), ds1)
    to_variant := fun i => Value.int i
    from_variant := fun v =>
      match v with
      | .int i => .ok (to_signed width (i % (2 ^ (8 * width) : Nat)).toNat)
      | _ => .error .runtime_error }

/-- Modelled from the spec: `wasm::unsigned_int` (the type `varuint32`). -/
def varuint32_wire : WireType Nat :=
  { write := fun n => pack_varuint32 n
    read := read_varuint32
    to_variant := fun n => Value.int n
    from_variant := fun v =>
      match v with
      | .int i => .ok (i % (2 ^ 32 : Nat)).toNat
      | _ => .error .runtime_error }

/-- The zig-zag image of a 32-bit signed value. -/
def zigzag32 (i : Int) : Nat :=
  if 0 ≤ i then (2 * i).toNat % 2 ^ 32 else (-2 * i - 1).toNat % 2 ^ 32

/-- The inverse of the zig-zag map. -/
def unzigzag32 (n : Nat) : Int :=
  if n % 2 = 0 then (n / 2 : Nat) else -((n / 2 : Nat) : Int) - 1

/-- Modelled from the spec: `wasm::signed_int` (the type `varint32`): zig-zag
encoded, then written as an `unsigned_varint`. -/
def varint32_wire : WireType Int :=
  { write := fun i => pack_varuint32 (zigzag32 i)
    read := fun ds =>
      match read_varuint32 ds with
      | .error e => .error e
      | .ok (n, ds1) => .ok (unzigzag32 n, ds1)
    to_variant := fun i => Value.int i
    from_variant := fun v =>
      match v with
      | .int i => .ok (to_signed 4 (i % (2 ^ 32 : Nat)).toNat)
      | _ => .error .runtime_error }

/-- The 8-bit characters of a string as bytes. -/
def string_bytes (s : String) : List Byte := s.data.map (fun c => Fin.ofNat c.toNat)

/-- The string made of the given bytes, one character per byte. -/
def bytes_string (bs : List Byte) : String := String.mk (bs.map (fun b => Char.ofNat b.val))

/-- Modelled from the spec: `std::string` (the type `string`): an
`unsigned_varint` length followed by the characters; a JSON string as a
variant. -/
def string_wire : WireType String :=
  { write := fun s => pack_varuint32 s.length ++ string_bytes s
    read := fun ds =>
      match read_varuint32 ds with
      | .error e => .error e
      | .ok (n, ds1) =>
        match read_bytes n ds1 with
        | .error e => .error e
        | .ok (bs, ds2) => .ok (bytes_string bs, ds2)
    to_variant := fun s => Value.str s
    from_variant := fun v =>
      match v with
      | .str s => .ok s
      | _ => .error .runtime_error }

/-- The types of the registry whose headers are not part of the sources at
hand (floating point, `name`, `bytes`, `symbol`, `symbol_code`, `asset`): each
is taken as a parameter, a carrier with its stream operators and variant
conversions. -/
structure external_types where
  Float32 : Type
  Float64 : Type
  Name : Type
  Bytes : Type
  Symbol : Type
  SymbolCode : Type
  Asset : Type
  float32 : WireType Float32
  float64 : WireType Float64
  name : WireType Name
  bytes : WireType Bytes
  symbol : WireType Symbol
  symbol_code : WireType SymbolCode
  asset : WireType Asset

/-- A stand-in for the external types, used to state closed examples about
ABIs that do not mention them: each is read and written as a raw little-endian
block of its wire width, `bytes` as a vector of `uint8`. -/
def raw_external_types : external_types :=
  { Float32 := Nat
    Float64 := Nat
    Name := Nat
    Bytes := List Nat
    Symbol := Nat
    SymbolCode := Nat
    Asset := Nat
    float32 := uint_wire 4
    float64 := uint_wire 8
    name := uint_wire 8
    bytes := (uint_wire 1).vector
    symbol := uint_wire 8
    symbol_code := uint_wire 8
    asset := uint_wire 16 }

/-- An entry of the registry: the pair (`unpack_function`, `pack_function`), of the
signatures of the two functions that `pack_unpack` returns. -/
structure Codec where
  unpack : List Byte → Bool → Bool → Except Err (Value × List Byte)
  pack : Value → datastream → Bool → Bool → Except Err datastream

/-- The template `variant_from_stream<T>`: `ds >> temp` followed by `to_variant`. -/
def variant_from_stream {T : Type} (w : WireType T) (ds : List Byte) : Except Err (Value × List Byte) :=
  match w.read ds with
  | .error e => .error e
  | .ok (temp, ds1) => .ok (w.to_variant temp, ds1)

/-- The body shared by the three branches of the pack function of
`pack_unpack<T>`: `from_variant` followed by `ds << t`. -/
def variant_to_stream {T : Type} (w : WireType T) (var : Value) (ds : datastream) : Except Err datastream :=
  match w.from_variant var with
  | .error e => .error e
  | .ok t => ds.write (w.write t)

/-- The template `pack_unpack<T>`: the array form goes through `vector<T>`, the
optional form through `optional<T>`, the plain form through `T`. -/
def pack_unpack {T : Type} (w : WireType T) : Codec :=
  { unpack := fun ds is_array is_optional =>
      if is_array then variant_from_stream w.vector ds
      else if is_optional then variant_from_stream w.optional ds
      else variant_from_stream w ds
    pack := fun var ds is_array is_optional =>
      if is_array then variant_to_stream w.vector var ds
      else if is_optional then variant_to_stream w.optional var ds
      else variant_to_stream w var ds }

/-- The registry built by `configure_built_in_types`. -/
def configure_built_in_types (ext : external_types) : List (type_name × Codec) :=
  [ ("bool", pack_unpack (uint_wire 1)),
    ("int8", pack_unpack (int_wire 1)),
    ("uint8", pack_unpack (uint_wire 1)),
    ("int16", pack_unpack (int_wire 2)),
    ("uint16", pack_unpack (uint_wire 2)),
    ("int32", pack_unpack (int_wire 4)),
    ("uint32", pack_unpack (uint_wire 4)),
    ("int64", pack_unpack (int_wire 8)),
    ("uint64", pack_unpack (uint_wire 8)),
    ("varint32", pack_unpack varint32_wire),
    ("varuint32", pack_unpack varuint32_wire),
    ("float32", pack_unpack ext.float32),
    ("float64", pack_unpack ext.float64),
    ("table_name", pack_unpack ext.name),
    ("action_name", pack_unpack ext.name),
    ("name", pack_unpack ext.name),
    ("bytes", pack_unpack ext.bytes),
    ("string", pack_unpack string_wire),
    ("symbol", pack_unpack ext.symbol),
    ("symbol_code", pack_unpack ext.symbol_code),
    ("asset", pack_unpack ext.asset) ]

/-! ## The serializer -/

/-- The state of an `abi_serializer`: the members that `set_abi` and
`configure_built_in_types` assign. `max_serialization_time` is the member that
`validate` uses for the contexts of the field-graph check; it is declared in the header
and taken as a parameter. -/
structure abi_serializer where
  typedefs : List (type_name × type_name)
  structs : List (type_name × struct_def)
  actions : List (String × type_name)
  tables : List (String × type_name)
  error_messages : List (Nat × String)
  built_in_types : List (type_name × Codec)
  max_serialization_time : Nat

/-- The test `boost::ends_with`. -/
def ends_with (s suffix : String) : Bool := suffix.data.isSuffixOf s.data

/-- The test `boost::starts_with`. -/
def starts_with (s pre : String) : Bool := pre.data.isPrefixOf s.data

/-- The string `s.substr(0, s.size() - n)`. -/
def drop_last (s : String) (n : Nat) : String := String.mk (s.data.take (s.data.length - n))

/-- The test `is_builtin_type`: the name is a key of the registry. -/
def is_builtin_type (self : abi_serializer) (type : type_name) : Bool :=
  (map_find self.built_in_types type).isSome

/-- The test `is_array`: the name ends in `[]`. -/
def is_array (type : type_name) : Bool := ends_with type "[]"

/-- The test `is_optional`: the name ends in `?`. -/
def is_optional (type : type_name) : Bool := ends_with type "?"

/-- The function `fundamental_type`: one trailing `[]`, or else one trailing `?`, is
removed. -/
def fundamental_type (type : type_name) : type_name :=
  if is_array type then drop_last type 2
  else if is_optional type then drop_last type 1
  else type

/-- The function `_remove_bin_extension`: one trailing `$` is removed. -/
def _remove_bin_extension (type : type_name) : type_name :=
  if ends_with type "$" then drop_last type 1 else type

/-- The loop of `resolve_type`: `t` is the target of the typedef the iterator
points at, `i` the number of iterations left. -/
def resolve_type_loop (typedefs : List (type_name × type_name)) : Nat → type_name → Option type_name
  | 0, _ => none
  | i + 1, t =>
    match map_find typedefs t with
    | none => some t
    | some t1 => resolve_type_loop typedefs i t1

/-- The function `resolve_type`: the typedef chain of the name is followed for at most
`typedefs.size()` steps; the name itself is returned when it is no typedef or when the
steps run out. -/
def resolve_type (self : abi_serializer) (type : type_name) : type_name :=
  match map_find self.typedefs type with
  | none => type
  | some t =>
    match resolve_type_loop self.typedefs self.typedefs.length t with
    | some r => r
    | none => type

/-- The test `is_struct`: the resolved name is a key of the struct map. -/
def is_struct (self : abi_serializer) (type : type_name) : Bool :=
  (map_find self.structs (resolve_type self type)).isSome

/-- The function `_is_type`. The recursion through a typedef has no bound in the source;
`fuel` bounds it here and `fuel_exhausted` is returned when it runs out. -/
def _is_type (self : abi_serializer) :
    Nat → type_name → abi_traverse_context → Except Err (Bool × abi_traverse_context)
  | 0, _, _ => .error .fuel_exhausted
  | fuel + 1, rtype, ctx =>
    match ctx.check_deadline with
    | .error e => .error e
    | .ok ctx1 =>
      let type := fundamental_type rtype
      if (map_find self.built_in_types type).isSome then .ok (true, ctx1)
      else
        match map_find self.typedefs type with
        | some t => _is_type self fuel t ctx1
        | none =>
          if (map_find self.structs type).isSome then .ok (true, ctx1)
          else .ok (false, ctx1)

/-- The function `is_type`: `_is_type` in a fresh context. -/
def is_type (self : abi_serializer) (fuel : Nat) (type : type_name) (max_serialization_time : Nat)
    (clock : Nat → Nat) : Except Err Bool :=
  match _is_type self fuel type (abi_traverse_context.create clock 0 max_serialization_time) with
  | .error e => .error e
  | .ok (b, _) => .ok b

/-- The function `get_struct`: the struct of the resolved name, `invalid_type_inside_abi`
when there is none. -/
def get_struct (self : abi_serializer) (type : type_name) : Except Err struct_def :=
  match map_find self.structs (resolve_type self type) with
  | none => .error .invalid_type_inside_abi
  | some st => .ok st

/-! ## Binary to value -/

/-- The element loop of the array branch of `_binary_to_variant`: decodes `n`
elements with `step`, rejecting a null element. -/
def unpack_array_elems
    (step : List Byte → abi_traverse_context → Except Err (Value × List Byte × abi_traverse_context)) :
    Nat → List Byte → abi_traverse_context → Except Err (List Value × List Byte × abi_traverse_context)
  | 0, ds, ctx => .ok ([], ds, ctx)
  | n + 1, ds, ctx =>
    match step ds ctx with
    | .error e => .error e
    | .ok (v, ds1, ctx1) =>
      if v.is_null then .error .unpack_exception
      else
        match unpack_array_elems step n ds1 ctx1 with
        | .error e => .error e
        | .ok (vs, ds2, ctx2) => .ok (v :: vs, ds2, ctx2)

/-- The field loop of the struct branch of `_binary_to_variant`: decodes each
field as `_remove_bin_extension(field.type)` and returns the pairs added to the
object, in declaration order. -/
def unpack_fields
    (step : type_name → List Byte → abi_traverse_context →
      Except Err (Value × List Byte × abi_traverse_context)) :
    List field_def → List Byte → abi_traverse_context →
      Except Err (List (String × Value) × List Byte × abi_traverse_context)
  | [], ds, ctx => .ok ([], ds, ctx)
  | field :: rest, ds, ctx =>
    match step (_remove_bin_extension field.type) ds ctx with
    | .error e => .error e
    | .ok (v, ds1, ctx1) =>
      match unpack_fields step rest ds1 ctx1 with
      | .error e => .error e
      | .ok (kvs, ds2, ctx2) => .ok ((field.name, v) :: kvs, ds2, ctx2)

/-- The pairs an object starts from after its base has been decoded: the pairs of
the base when it is an object, the base under the key `st.base` otherwise. -/
def base_pairs (base_name : type_name) (base : Value) : List (String × Value) :=
  match base with
  | .obj o => o
  | _ => [(base_name, base)]

/-- The function `_binary_to_variant`: the decoder. In order: the deadline check and the
depth increment, a built-in of the fundamental type (array, optional or single value
through the registry), an array with its count and cap, an optional with its flag byte,
a struct with its base first; any other name is `unpack_exception`. The recursion has no
bound in the source; `fuel` bounds it here and `fuel_exhausted` is returned when it runs
out. -/
def _binary_to_variant (self : abi_serializer) :
    Nat → type_name → List Byte → abi_traverse_context →
      Except Err (Value × List Byte × abi_traverse_context)
  | 0, _, _, _ => .error .fuel_exhausted
  | fuel + 1, type, ds, ctx =>
    match ctx.check_deadline with
    | .error e => .error e
    | .ok ctx0 =>
      let ctx1 := ctx0.enter
      let rtype := resolve_type self type
      let ftype := fundamental_type rtype
      match map_find self.built_in_types ftype with
      | some btype =>
        match WASM_RETHROW_EXCEPTIONS .unpack_exception
            (btype.unpack ds (is_array rtype) (is_optional rtype)) with
        | .error e => .error e
        | .ok (v, ds1) => .ok (v, ds1, ctx1)
      | none =>
        if is_array rtype then
          match WASM_RETHROW_EXCEPTIONS .unpack_exception (read_varuint32 ds) with
          | .error e => .error e
          | .ok (size, ds1) =>
            if size < max_array_size_for_abi then
              match unpack_array_elems (_binary_to_variant self fuel ftype) size ds1 ctx1 with
              | .error e => .error e
              | .ok (vars, ds2, ctx2) => .ok (Value.array vars, ds2, ctx2)
            else .error .array_size_exceeds_exception
        else if is_optional rtype then
          match WASM_RETHROW_EXCEPTIONS .unpack_exception (read_char ds) with
          | .error e => .error e
          | .ok (flag, ds1) =>
            if flag ≠ 0 then _binary_to_variant self fuel ftype ds1 ctx1
            else .ok (Value.null, ds1, ctx1)
        else
          match map_find self.structs rtype with
          | some st =>
            if st.base ≠ "" then
              match _binary_to_variant self fuel (resolve_type self st.base) ds ctx1 with
              | .error e => .error e
              | .ok (base, ds1, ctx2) =>
                match unpack_fields (_binary_to_variant self fuel) st.fields ds1 ctx2 with
                | .error e => .error e
                | .ok (kvs, ds2, ctx3) => .ok (Value.obj (base_pairs st.base base ++ kvs), ds2, ctx3)
            else
              match unpack_fields (_binary_to_variant self fuel) st.fields ds ctx1 with
              | .error e => .error e
              | .ok (kvs, ds2, ctx3) => .ok (Value.obj kvs, ds2, ctx3)
          | none => .error .unpack_exception

/-- The entry point `binary_to_variant`. The result is the decoded value together
with the bytes of `binary` left unread (the C++ function returns the value only). -/
def binary_to_variant (self : abi_serializer) (fuel : Nat) (type : type_name) (binary : List Byte)
    (max_serialization_time : Nat) (clock : Nat → Nat) : Except Err (Value × List Byte) :=
  match _binary_to_variant self fuel type binary
      (abi_traverse_context.create clock 0 max_serialization_time) with
  | .error e => .error e
  | .ok (v, ds, _) => .ok (v, ds)

/-! ## Value to binary -/

/-- The scan of `GetFieldVariant` over the pairs of an object: the value of the
first pair named `field`. -/
def find_field : List (String × Value) → field_name → Option Value
  | [], _ => none
  | (name, v) :: rest, field => if name = field then some v else find_field rest field

/-- The function `GetFieldVariant`: the value of the first pair of the object with the
name of the field; `invalid_type_inside_abi` when there is none or when the value is no
object. -/
def GetFieldVariant (v : Value) (field : field_name) : Except Err Value :=
  match v with
  | .obj o =>
    match find_field o field with
    | some x => .ok x
    | none => .error .invalid_type_inside_abi
  | _ => .error .invalid_type_inside_abi

/-- The element loop of the array branch of `_variant_to_binary`. -/
def pack_array_elems
    (step : Value → datastream → abi_traverse_context → Except Err (datastream × abi_traverse_context)) :
    List Value → datastream → abi_traverse_context → Except Err (datastream × abi_traverse_context)
  | [], ds, ctx => .ok (ds, ctx)
  | v :: vs, ds, ctx =>
    match step v ds ctx with
    | .error e => .error e
    | .ok (ds1, ctx1) => pack_array_elems step vs ds1 ctx1

/-- The field loop of the struct branch of `_variant_to_binary`: each field is
looked up in the object `vo` and encoded as `_remove_bin_extension(field.type)`. -/
def pack_fields
    (step : type_name → Value → datastream → abi_traverse_context →
      Except Err (datastream × abi_traverse_context))
    (vo : List (String × Value)) :
    List field_def → datastream → abi_traverse_context → Except Err (datastream × abi_traverse_context)
  | [], ds, ctx => .ok (ds, ctx)
  | field :: rest, ds, ctx =>
    match GetFieldVariant (Value.obj vo) field.name with
    | .error e => .error e
    | .ok v =>
      match step (_remove_bin_extension field.type) v ds ctx with
      | .error e => .error e
      | .ok (ds1, ctx1) => pack_fields step vo rest ds1 ctx1

/-- The function `_variant_to_binary`: the encoder. In order: the deadline check and the
depth increment, a built-in of the fundamental type (array or single value through the
registry), an array with its count, a struct with its base first; any other name is
`invalid_type_inside_abi`. There is no branch for an optional of a type that is not
built in. -/
def _variant_to_binary (self : abi_serializer) :
    Nat → type_name → Value → datastream → abi_traverse_context →
      Except Err (datastream × abi_traverse_context)
  | 0, _, _, _, _ => .error .fuel_exhausted
  | fuel + 1, type, var, ds, ctx =>
    match ctx.check_deadline with
    | .error e => .error e
    | .ok ctx0 =>
      let ctx1 := ctx0.enter
      WASM_CAPTURE_AND_RETHROW
        (let rtype := resolve_type self type
         match map_find self.built_in_types (fundamental_type rtype) with
         | some btype =>
           match btype.pack var ds (is_array rtype) (is_optional rtype) with
           | .error e => .error e
           | .ok ds1 => .ok (ds1, ctx1)
         | none =>
           if is_array rtype then
             match var.get_array with
             | .error e => .error e
             | .ok t =>
               match ds.write (pack_varuint32 t.length) with
               | .error e => .error e
               | .ok ds1 =>
                 pack_array_elems (_variant_to_binary self fuel (fundamental_type rtype)) t ds1 ctx1
           else
             match map_find self.structs rtype with
             | some st =>
               match var with
               | .obj vo =>
                 if st.base ≠ "" then
                   match _variant_to_binary self fuel (resolve_type self st.base) var ds ctx1 with
                   | .error e => .error e
                   | .ok (ds1, ctx2) => pack_fields (_variant_to_binary self fuel) vo st.fields ds1 ctx2
                 else pack_fields (_variant_to_binary self fuel) vo st.fields ds ctx1
               | _ => .error .invalid_type_inside_abi
             | none => .error .invalid_type_inside_abi)

/-- The overload of `_variant_to_binary` that returns the bytes: an unknown type
gives the empty byte string; otherwise the value is written into a fresh buffer
of 1 MiB, truncated to the write position. -/
def _variant_to_binary_bytes (self : abi_serializer) (fuel : Nat) (type : type_name) (var : Value)
    (ctx : abi_traverse_context) : Except Err (List Byte × abi_traverse_context) :=
  match ctx.check_deadline with
  | .error e => .error e
  | .ok ctx1 =>
    match _is_type self fuel type ctx1 with
    | .error e => .error e
    | .ok (known, ctx2) =>
      if known then
        match _variant_to_binary self fuel type var { written := [], capacity := 1024 * 1024 } ctx2 with
        | .error e => .error e
        | .ok (ds, ctx3) => .ok (ds.written, ctx3)
      else .ok ([], ctx2)

/-- The entry point `variant_to_binary` returning the bytes. -/
def variant_to_binary (self : abi_serializer) (fuel : Nat) (type : type_name) (var : Value)
    (max_serialization_time : Nat) (clock : Nat → Nat) : Except Err (List Byte) :=
  match _variant_to_binary_bytes self fuel type var
      (abi_traverse_context.create clock 0 max_serialization_time) with
  | .error e => .error e
  | .ok (b, _) => .ok b

/-- The entry point `variant_to_binary` writing into the caller's stream. -/
def variant_to_binary_stream (self : abi_serializer) (fuel : Nat) (type : type_name) (var : Value)
    (ds : datastream) (max_serialization_time : Nat) (clock : Nat → Nat) : Except Err datastream :=
  match _variant_to_binary self fuel type var ds
      (abi_traverse_context.create clock 0 max_serialization_time) with
  | .error e => .error e
  | .ok (ds1, _) => .ok ds1

/-- The function `get_action_type`: the type of the action, the empty name when the
action is unknown. -/
def get_action_type (self : abi_serializer) (action : type_name) : type_name :=
  match map_find self.actions action with
  | some t => t
  | none => ""

/-- The function `get_table_type`: the type of the table, the empty name when the table
is unknown. -/
def get_table_type (self : abi_serializer) (table : type_name) : type_name :=
  match map_find self.tables table with
  | some t => t
  | none => ""

/-! ## Validation -/

/-- Modelled from the spec: `dag::add(parent, name, ctx)`, declared in the header. A node
of the DAG is represented by the chain of names from itself up to the root (the root is
the chain holding the name `root` alone) and the DAG by the names of all the nodes
added so far. The function receives the traversal context; the spec has the deadline
"checked at every entry to" `check_struct_in_recursion`, whose first statement is this
call, so the deadline is checked first. Then adding a name that appears in the chain of
`parent` fails with circular-reference-in-struct; a name already added elsewhere is
skipped (no node is added, the flag is false); otherwise a node is added below
`parent`. -/
def dag_add (parent : List String) (name : String) (added : List String)
    (ctx : abi_traverse_context) :
    Except Err (Bool × List String × List String × abi_traverse_context) :=
  match ctx.check_deadline with
  | .error e => .error e
  | .ok ctx1 =>
    if name ∈ parent then .error .circular_reference_in_struct
    else if name ∈ added then .ok (false, parent, added, ctx1)
    else .ok (true, name :: parent, name :: added, ctx1)

/-- The root of the DAG built by `validate`. -/
def dag_root : List String := ["root"]

/-- The field loop of `check_struct_in_recursion`. `step` is the recursive call
on a field that is a struct, below the node `d`; `fields_seen` holds the
resolved types of the fields examined so far; the loop is left (`break`) at
the first field whose resolved type has been seen. -/
def check_struct_fields (self : abi_serializer)
    (step : struct_def → List String → List String → abi_traverse_context →
      Except Err (List String × abi_traverse_context))
    (d : List String) :
    List field_def → List type_name → List String → abi_traverse_context →
      Except Err (List String × abi_traverse_context)
  | [], _, added, ctx => .ok (added, ctx)
  | field :: rest, fields_seen, added, ctx =>
    match ctx.check_deadline with
    | .error e => .error e
    | .ok ctx1 =>
      let f := resolve_type self (fundamental_type field.type)
      if f ∈ fields_seen then .ok (added, ctx1)
      else
        match map_find self.structs f with
        | some st =>
          match step st d added ctx1 with
          | .error e => .error e
          | .ok (added1, ctx2) =>
            check_struct_fields self step d rest (fields_seen ++ [f]) added1 ctx2
        | none => check_struct_fields self step d rest (fields_seen ++ [f]) added ctx1

/-- The walk `check_struct_in_recursion`, with the function `dag::add` of the header as the
parameter `add`: `parent` is the node below which `s` is added and `added` the names of
the nodes of the DAG; the result is the names of the nodes of the DAG after the call.
The call of `dag::add` with the context is the first statement; the walk returns when
the struct is in the DAG already, and checks the deadline itself after that. -/
def check_struct_in_recursion_with
    (add : List String → String → List String → abi_traverse_context →
      Except Err (Bool × List String × List String × abi_traverse_context))
    (self : abi_serializer) :
    Nat → struct_def → List String → List String → abi_traverse_context →
      Except Err (List String × abi_traverse_context)
  | 0, _, _, _, _ => .error .fuel_exhausted
  | fuel + 1, s, parent, added, ctx =>
    match add parent s.name added ctx with
    | .error e => .error e
    | .ok (false, _, added1, ctx0) => .ok (added1, ctx0)
    | .ok (true, d, added1, ctx0) =>
      match ctx0.check_deadline with
      | .error e => .error e
      | .ok ctx1 =>
        check_struct_fields self (check_struct_in_recursion_with add self fuel) d s.fields []
          added1 ctx1

/-- The walk `check_struct_in_recursion` with the modelled `dag::add`. -/
def check_struct_in_recursion (self : abi_serializer) (fuel : Nat) (s : struct_def)
    (parent added : List String) (ctx : abi_traverse_context) :
    Except Err (List String × abi_traverse_context) :=
  check_struct_in_recursion_with dag_add self fuel s parent added ctx

/-- The inner loop of the first loop of `validate`: `itr` is the target of the
typedef the iterator points at (`none` at the end of the map). -/
def validate_typedef_walk (typedefs : List (type_name × type_name)) :
    Nat → Option type_name → List type_name → abi_traverse_context → Except Err abi_traverse_context
  | _, none, _, ctx => .ok ctx
  | 0, some _, _, _ => .error .fuel_exhausted
  | fuel + 1, some t, types_seen, ctx =>
    match ctx.check_deadline with
    | .error e => .error e
    | .ok ctx1 =>
      if t ∈ types_seen then .error .abi_circular_def_exception
      else validate_typedef_walk typedefs fuel (map_find typedefs t) (types_seen ++ [t]) ctx1

/-- The first loop of `validate`, over the typedef map. -/
def validate_typedef_chains (self : abi_serializer) (fuel : Nat) :
    List (type_name × type_name) → abi_traverse_context → Except Err abi_traverse_context
  | [], ctx => .ok ctx
  | t :: rest, ctx =>
    match WASM_CAPTURE_AND_RETHROW
        (validate_typedef_walk self.typedefs fuel (map_find self.typedefs t.2) [t.1, t.2] ctx) with
    | .error e => .error e
    | .ok ctx1 => validate_typedef_chains self fuel rest ctx1

/-- The assertion `WASM_ASSERT(_is_type(type, ctx), invalid_type_inside_abi, ...)`. -/
def assert_is_type (self : abi_serializer) (fuel : Nat) (type : type_name) (ctx : abi_traverse_context) :
    Except Err abi_traverse_context :=
  match _is_type self fuel type ctx with
  | .error e => .error e
  | .ok (known, ctx1) => if known then .ok ctx1 else .error .invalid_type_inside_abi

/-- The second loop of `validate`: every typedef aliases a known type. -/
def validate_typedef_targets (self : abi_serializer) (fuel : Nat) :
    List (type_name × type_name) → abi_traverse_context → Except Err abi_traverse_context
  | [], ctx => .ok ctx
  | t :: rest, ctx =>
    match WASM_CAPTURE_AND_RETHROW (assert_is_type self fuel t.2 ctx) with
    | .error e => .error e
    | .ok ctx1 => validate_typedef_targets self fuel rest ctx1

/-- The walk along the `base` names of a struct, in the third loop of `validate`. -/
def validate_base_walk (self : abi_serializer) :
    Nat → struct_def → List type_name → abi_traverse_context → Except Err abi_traverse_context
  | 0, current, _, ctx => if current.base ≠ "" then .error .fuel_exhausted else .ok ctx
  | fuel + 1, current, types_seen, ctx =>
    if current.base ≠ "" then
      match ctx.check_deadline with
      | .error e => .error e
      | .ok ctx1 =>
        match get_struct self current.base with
        | .error e => .error e
        | .ok base =>
          if base.name ∈ types_seen then .error .abi_circular_def_exception
          else validate_base_walk self fuel base (types_seen ++ [base.name]) ctx1
    else .ok ctx

/-- The loop over the fields of a struct, in the third loop of `validate`. -/
def validate_fields (self : abi_serializer) (fuel : Nat) :
    List field_def → abi_traverse_context → Except Err abi_traverse_context
  | [], ctx => .ok ctx
  | field :: rest, ctx =>
    match WASM_CAPTURE_AND_RETHROW
        (match ctx.check_deadline with
         | .error e => .error e
         | .ok ctx1 => assert_is_type self fuel (_remove_bin_extension field.type) ctx1) with
    | .error e => .error e
    | .ok ctx2 => validate_fields self fuel rest ctx2

/-- The body of the third loop of `validate` for one struct. -/
def validate_struct (self : abi_serializer) (fuel : Nat) (s : struct_def) (ctx : abi_traverse_context) :
    Except Err abi_traverse_context :=
  WASM_CAPTURE_AND_RETHROW
    (match (if s.base ≠ "" then validate_base_walk self fuel s [s.name] ctx else .ok ctx) with
     | .error e => .error e
     | .ok ctx1 => validate_fields self fuel s.fields ctx1)

/-- The third loop of `validate`, over the struct map. -/
def validate_structs (self : abi_serializer) (fuel : Nat) :
    List (type_name × struct_def) → abi_traverse_context → Except Err abi_traverse_context
  | [], ctx => .ok ctx
  | s :: rest, ctx =>
    match validate_struct self fuel s.2 ctx with
    | .error e => .error e
    | .ok ctx1 => validate_structs self fuel rest ctx1

/-- The fourth loop of `validate`: the field-graph check of every struct, each
under a fresh context `ctx2`, all below the same root. The clock readings taken
under `ctx2` are readings of the one clock, so the number of readings is
carried over. -/
def validate_recursion (self : abi_serializer) (fuel : Nat) :
    List (type_name × struct_def) → List String → abi_traverse_context →
      Except Err (List String × abi_traverse_context)
  | [], added, ctx => .ok (added, ctx)
  | s :: rest, added, ctx =>
    let ctx2 := abi_traverse_context.create ctx.clock ctx.reads self.max_serialization_time
    match WASM_CAPTURE_AND_RETHROW (check_struct_in_recursion self fuel s.2 dag_root added ctx2) with
    | .error e => .error e
    | .ok (added1, ctx3) => validate_recursion self fuel rest added1 { ctx with reads := ctx3.reads }

/-- The last two loops of `validate`, over the action map and the table map. -/
def validate_targets (self : abi_serializer) (fuel : Nat) :
    List (String × type_name) → abi_traverse_context → Except Err abi_traverse_context
  | [], ctx => .ok ctx
  | a :: rest, ctx =>
    match WASM_CAPTURE_AND_RETHROW
        (match ctx.check_deadline with
         | .error e => .error e
         | .ok ctx1 => assert_is_type self fuel a.2 ctx1) with
    | .error e => .error e
    | .ok ctx2 => validate_targets self fuel rest ctx2

/-- The function `validate`: the typedef chains, the typedef targets, the structs (base
chain, then fields) in key order, the field graph of every struct, the action types and
the table types, in this order. -/
def validate (self : abi_serializer) (fuel : Nat) (ctx : abi_traverse_context) :
    Except Err abi_traverse_context :=
  match validate_typedef_chains self fuel self.typedefs ctx with
  | .error e => .error e
  | .ok ctx1 =>
    match validate_typedef_targets self fuel self.typedefs ctx1 with
    | .error e => .error e
    | .ok ctx2 =>
      match validate_structs self fuel self.structs ctx2 with
      | .error e => .error e
      | .ok ctx3 =>
        match validate_recursion self fuel self.structs [] ctx3 with
        | .error e => .error e
        | .ok (_, ctx4) =>
          match validate_targets self fuel self.actions ctx4 with
          | .error e => .error e
          | .ok ctx5 => validate_targets self fuel self.tables ctx5

/-! ## Loading an ABI -/

/-- The serializer after the first loop of `set_abi`: `structs[st.name] = st`. -/
def set_abi_structs (self : abi_serializer) : List struct_def → abi_serializer
  | [] => self
  | st :: rest => set_abi_structs { self with structs := map_set self.structs st.name st } rest

/-- The second loop of `set_abi`, over the typedefs of the document in sequence
order. The serializer is returned also when an assertion fails, as the object
is left in that state. -/
def set_abi_typedefs (fuel : Nat) :
    abi_serializer → List type_def → abi_traverse_context →
      abi_serializer × Except Err abi_traverse_context
  | self, [], ctx => (self, .ok ctx)
  | self, td :: rest, ctx =>
    match _is_type self fuel td.type ctx with
    | .error e => (self, .error e)
    | .ok (known, ctx1) =>
      if known then
        match _is_type self fuel td.new_type_name ctx1 with
        | .error e => (self, .error e)
        | .ok (exists_already, ctx2) =>
          if exists_already then (self, .error .duplicate_abi_def_exception)
          else
            set_abi_typedefs fuel
              { self with typedefs := map_set self.typedefs td.new_type_name td.type } rest ctx2
      else (self, .error .invalid_type_inside_abi)

/-- The action loop of `set_abi`. -/
def set_abi_actions (self : abi_serializer) : List action_def → abi_serializer
  | [] => self
  | a :: rest => set_abi_actions { self with actions := map_set self.actions a.name a.type } rest

/-- The table loop of `set_abi`. -/
def set_abi_tables (self : abi_serializer) : List table_def → abi_serializer
  | [] => self
  | t :: rest => set_abi_tables { self with tables := map_set self.tables t.name t.type } rest

/-- The error-message loop of `set_abi`. -/
def set_abi_error_messages (self : abi_serializer) : List error_message → abi_serializer
  | [] => self
  | e :: rest =>
    set_abi_error_messages
      { self with error_messages := map_set self.error_messages e.error_code e.error_msg } rest

/-- The method `set_abi`. The first component is the serializer as the call leaves it (also
when it raises), the second the outcome. -/
def set_abi (self : abi_serializer) (fuel : Nat) (abi : abi_def) (max_serialization_time : Nat)
    (clock : Nat → Nat) : abi_serializer × Except Err Unit :=
  let ctx := abi_traverse_context.create clock 0 max_serialization_time
  if starts_with abi.version "wasm::abi/1." then
    let self1 := { self with typedefs := [], structs := [], actions := [], tables := [] }
    let self2 := set_abi_structs self1 abi.structs
    match set_abi_typedefs fuel self2 abi.types ctx with
    | (self3, .error e) => (self3, .error e)
    | (self3, .ok ctx1) =>
      let self4 := set_abi_actions self3 abi.actions
      let self5 := set_abi_tables self4 abi.tables
      let self6 := set_abi_error_messages self5 abi.error_messages
      if self6.typedefs.length ≠ abi.types.length then (self6, .error .duplicate_abi_def_exception)
      else if self6.structs.length ≠ abi.structs.length then (self6, .error .duplicate_abi_def_exception)
      else if self6.actions.length ≠ abi.actions.length then (self6, .error .duplicate_abi_def_exception)
      else if self6.tables.length ≠ abi.tables.length then (self6, .error .duplicate_abi_def_exception)
      else
        match validate self6 fuel ctx1 with
        | .error e => (self6, .error e)
        | .ok _ => (self6, .ok ())
  else (self, .error .unsupport_abi_version_exception)

/-- The constructor of `abi_serializer`: `configure_built_in_types` followed by `set_abi`;
no serializer exists when `set_abi` raises. -/
def abi_serializer.construct (ext : external_types) (member_max_serialization_time : Nat)
    (fuel : Nat) (abi : abi_def) (max_serialization_time : Nat) (clock : Nat → Nat) :
    Except Err abi_serializer :=
  let self0 : abi_serializer :=
    { typedefs := [], structs := [], actions := [], tables := [], error_messages := []
      built_in_types := configure_built_in_types ext
      max_serialization_time := member_max_serialization_time }
  match set_abi self0 fuel abi max_serialization_time clock with
  | (_, .error e) => .error e
  | (self1, .ok _) => .ok self1

/-! ## Error kinds -/

/-- The error kinds that `validate` can raise (with the out-of-fuel result of the
embedding). -/
def validation_errors : List Err :=
  [.abi_serialization_deadline_exception, .fuel_exhausted, .invalid_type_inside_abi,
   .abi_circular_def_exception, .circular_reference_in_struct]

/-! ## A loaded serializer for closed examples -/

/-- A clock that stands still: with a positive budget the deadline never expires. -/
def still_clock : Nat → Nat := fun _ => 0

/-- The serializer constructed from `abi`, with the stand-in external types, a
budget of one microsecond under the still clock and fuel 32. -/
def load (abi : abi_def) : Except Err abi_serializer :=
  abi_serializer.construct raw_external_types 1 32 abi 1 still_clock

/-- The exception raised by a computation, if any. -/
def raised {α : Type} : Except Err α → Option Err
  | .ok _ => none
  | .error e => some e

/-- The bytes `variant_to_binary` returns on the serializer constructed from `abi`. -/
def encode (abi : abi_def) (type : type_name) (var : Value) : Except Err (List Byte) :=
  match load abi with
  | .error e => .error e
  | .ok self => variant_to_binary self 32 type var 1 still_clock

/-- The value `binary_to_variant` returns on the serializer constructed from `abi`,
with the bytes left unread. -/
def decode (abi : abi_def) (type : type_name) (binary : List Byte) : Except Err (Value × List Byte) :=
  match load abi with
  | .error e => .error e
  | .ok self => binary_to_variant self 32 type binary 1 still_clock

/-- An ABI document with the given typedefs and structs and nothing else. -/
def abi_of (types : List type_def) (structs : List struct_def) : abi_def :=
  { version := "wasm::abi/1.1", types := types, structs := structs, actions := [], tables := []
    error_messages := [] }

/-- The serializer before any ABI is loaded: the registry is configured (with the
stand-in external types), the maps are empty. -/
def fresh_serializer : abi_serializer :=
  { typedefs := [], structs := [], actions := [], tables := [], error_messages := []
    built_in_types := configure_built_in_types raw_external_types
    max_serialization_time := 1 }

/-- The state in which `set_abi` leaves a fresh serializer on `abi` (under the still
clock, with fuel 32). -/
def loaded (abi : abi_def) : abi_serializer := (set_abi fresh_serializer 32 abi 1 still_clock).1

/-- A traversal context under the still clock, with a budget of one microsecond. -/
def still_ctx : abi_traverse_context := abi_traverse_context.create still_clock 0 1

/-! ## Predicates used in the statements -/

/-- The keys of a map are in strictly increasing order. -/
def map_sorted {V : Type} (m : List (String × V)) : Prop :=
  (m.map Prod.fst).Pairwise (fun a b => map_key.lt a b = true)

/-- The deadline of the context is never reached: every reading of the clock is before it. -/
def abi_traverse_context.never_expires (ctx : abi_traverse_context) : Prop :=
  ∀ n, ctx.clock n < ctx.deadline

/-- Two contexts read the same clock against the same deadline. -/
def same_clock (ctx ctx1 : abi_traverse_context) : Prop :=
  ctx1.clock = ctx.clock ∧ ctx1.deadline = ctx.deadline

/-- Two entries of the typedef, struct, action or table sequence of the document share a
name. -/
def has_duplicate_names (abi : abi_def) : Prop :=
  ¬ (abi.types.map type_def.new_type_name).Nodup ∨ ¬ (abi.structs.map struct_def.name).Nodup ∨
    ¬ (abi.actions.map action_def.name).Nodup ∨ ¬ (abi.tables.map table_def.name).Nodup

/-- The walk of `_is_type` without the clock: `none` when the fuel runs out. -/
def known_type (self : abi_serializer) : Nat → type_name → Option Bool
  | 0, _ => none
  | fuel + 1, rtype =>
    let type := fundamental_type rtype
    if (map_find self.built_in_types type).isSome then some true
    else
      match map_find self.typedefs type with
      | some t => known_type self fuel t
      | none => some (map_find self.structs type).isSome

/-- The typedef sequence of the document contains a cycle of aliases: typedefs
`td, r1, ..., rk` of the document such that each aliases the new name of the next and the
last aliases the new name of `td` (a typedef aliasing itself when `k = 0`). -/
def has_typedef_cycle (abi : abi_def) : Prop :=
  ∃ (td : type_def) (rest : List type_def),
    (∀ x ∈ td :: rest, x ∈ abi.types) ∧
    List.Chain (fun a b => a.type = b.new_type_name) td (rest ++ [td])

/-- The chain of `base` names starting at `current` returns to a name already seen:
following `get_struct(current.base)` from struct to struct, and keeping the names of the
structs met in `seen`, a struct is reached whose name is in `seen`. -/
inductive base_chain_repeats (self : abi_serializer) : struct_def → List type_name → Prop where
  | here (current base : struct_def) (seen : List type_name) :
      current.base ≠ "" → get_struct self current.base = .ok base → base.name ∈ seen →
      base_chain_repeats self current seen
  | next (current base : struct_def) (seen : List type_name) :
      current.base ≠ "" → get_struct self current.base = .ok base → base.name ∉ seen →
      base_chain_repeats self base (seen ++ [base.name]) →
      base_chain_repeats self current seen

/-- The chain of `base` names starting at `current` is finite: it reaches a struct without
a base, every base on the way naming an existing struct. -/
inductive base_chain_ends (self : abi_serializer) : struct_def → Prop where
  | root (current : struct_def) : current.base = "" → base_chain_ends self current
  | step (current base : struct_def) :
      current.base ≠ "" → get_struct self current.base = .ok base →
      base_chain_ends self base → base_chain_ends self current

/-- Every non-empty `base` of a struct of the map names an existing struct. -/
def all_bases_exist (self : abi_serializer) : Prop :=
  ∀ p ∈ self.structs, p.2.base ≠ "" → ∃ b, get_struct self p.2.base = .ok b

/-- Every field type of every struct of the map, once its binary-extension suffix is
removed, is a known type. -/
def all_fields_known (self : abi_serializer) (fuel : Nat) : Prop :=
  ∀ p ∈ self.structs, ∀ f ∈ p.2.fields,
    known_type self fuel (_remove_bin_extension f.type) = some true

/-- The number of struct names of the map that are not in `seen`. -/
def names_unseen (self : abi_serializer) (seen : List type_name) : Nat :=
  ((self.structs.map (fun p => p.2.name)).filter (fun n => decide (n ∉ seen))).length

/-- The registry of the serializer is the one `configure_built_in_types` builds (the
constructor sets it and `set_abi` does not change it). -/
def registry_configured (self : abi_serializer) : Prop :=
  ∃ ext, self.built_in_types = configure_built_in_types ext

/-- The bytes `chunk` are an encoding of `var` as `type`: some call of `_variant_to_binary`
returns normally having appended them to the stream. -/
def is_encoding (self : abi_serializer) (fuel : Nat) (type : type_name) (var : Value)
    (chunk : List Byte) : Prop :=
  ∃ ds ctx ctx1, _variant_to_binary self fuel type var ds ctx =
    .ok ({ written := ds.written ++ chunk, capacity := ds.capacity }, ctx1)

/-- The bytes `bytes` are the encodings of the fields `fields`, one after the other in
declaration order, each field encoded as `_remove_bin_extension(field.type)` from the
first pair of the object `vo` that carries its name. -/
inductive field_encodings (self : abi_serializer) (fuel : Nat) (vo : List (String × Value)) :
    List field_def → List Byte → Prop where
  | nil : field_encodings self fuel vo [] []
  | cons (field : field_def) (rest : List field_def) (v : Value) (chunk bytes : List Byte) :
      find_field vo field.name = some v →
      is_encoding self fuel (_remove_bin_extension field.type) v chunk →
      field_encodings self fuel vo rest bytes →
      field_encodings self fuel vo (field :: rest) (chunk ++ bytes)

/-! ## Canonical values -/

/-- The value `v` is canonical for the registry entry `c` in the form given by the flags,
with encoding `bs`: the pack function appends `bs` to every stream with room for it, and
the unpack function reads `v` back from `bs`, leaving what follows unread. -/
def builtin_canonical (c : Codec) (is_array is_optional : Bool) (v : Value) (bs : List Byte) : Prop :=
  (∀ ds : datastream, ds.written.length + bs.length ≤ ds.capacity →
    c.pack v ds is_array is_optional =
      .ok { written := ds.written ++ bs, capacity := ds.capacity }) ∧
  (∀ rest : List Byte, c.unpack (bs ++ rest) is_array is_optional = .ok (v, rest))

/-- The resolved name `R` is handled by the struct branches of the encoder and of the
decoder, for the struct `st`: it is not a typedef, its fundamental type is not built-in,
it has no array or optional suffix, and it is the key of `st`. -/
def struct_dispatch (self : abi_serializer) (R : type_name) (st : struct_def) : Prop :=
  resolve_type self R = R ∧
  map_find self.built_in_types (fundamental_type R) = none ∧
  is_array R = false ∧ is_optional R = false ∧
  map_find self.structs R = some st

mutual
/-- The value `v` is a canonical value of `type`, with encoding `bs`. A built-in leaf is
canonical for its registry entry; an array has fewer than `max_array_size_for_abi`
elements, each canonical and not null; an object carries exactly the fields of the
struct, base fields first, in declaration order, under pairwise distinct names.
Optional types whose underlying type is not built-in have no canonical value. -/
inductive canonical (self : abi_serializer) : type_name → Value → List Byte → Prop where
  | builtin (type : type_name) (v : Value) (bs : List Byte) (c : Codec) :
      map_find self.built_in_types (fundamental_type (resolve_type self type)) = some c →
      builtin_canonical c (is_array (resolve_type self type))
        (is_optional (resolve_type self type)) v bs →
      canonical self type v bs
  | array (type : type_name) (l : List Value) (bs : List Byte) :
      map_find self.built_in_types (fundamental_type (resolve_type self type)) = none →
      is_array (resolve_type self type) = true →
      l.length < max_array_size_for_abi →
      canonical_elems self (fundamental_type (resolve_type self type)) l bs →
      canonical self type (Value.array l) (pack_varuint32 l.length ++ bs)
  | object (type : type_name) (kvs : List (String × Value)) (bs : List Byte) :
      canonical_object self (resolve_type self type) kvs bs →
      (kvs.map Prod.fst).Nodup →
      canonical self type (Value.obj kvs) bs
/-- The values `l` are canonical elements of type `F`, with the concatenated encoding `bs`. -/
inductive canonical_elems (self : abi_serializer) : type_name → List Value → List Byte → Prop where
  | nil (F : type_name) : canonical_elems self F [] []
  | cons (F : type_name) (v : Value) (vs : List Value) (b bs : List Byte) :
      canonical self F v b → v.is_null = false → canonical_elems self F vs bs →
      canonical_elems self F (v :: vs) (b ++ bs)
/-- The pairs `kvs` are the fields of the struct of resolved name `R`, those of its base
chain first, with the concatenated encoding `bs`. -/
inductive canonical_object (self : abi_serializer) :
    type_name → List (String × Value) → List Byte → Prop where
  | root (R : type_name) (st : struct_def) (kvs : List (String × Value)) (bs : List Byte) :
      struct_dispatch self R st → st.base = "" → canonical_fields self st.fields kvs bs →
      canonical_object self R kvs bs
  | derived (R : type_name) (st : struct_def) (kb ko : List (String × Value)) (bb bo : List Byte) :
      struct_dispatch self R st → st.base ≠ "" →
      canonical_object self (resolve_type self st.base) kb bb →
      canonical_fields self st.fields ko bo →
      canonical_object self R (kb ++ ko) (bb ++ bo)
/-- The pairs `kvs` carry the names of `fields` in order, each value canonical for
`_remove_bin_extension(field.type)`, with the concatenated encoding `bs`. -/
inductive canonical_fields (self : abi_serializer) :
    List field_def → List (String × Value) → List Byte → Prop where
  | nil : canonical_fields self [] [] []
  | cons (field : field_def) (rest : List field_def) (v : Value) (kvs : List (String × Value))
      (b bs : List Byte) :
      canonical self (_remove_bin_extension field.type) v b →
      canonical_fields self rest kvs bs →
      canonical_fields self (field :: rest) ((field.name, v) :: kvs) (b ++ bs)
end

/-- With fuel `fuel`, `_variant_to_binary` encodes `var` as `type` to the bytes `bs`: on
every stream with room for them and under every context whose deadline never expires, it
returns normally having appended `bs`. -/
def encodes_to (self : abi_serializer) (fuel : Nat) (type : type_name) (var : Value)
    (bs : List Byte) : Prop :=
  ∀ (ds : datastream) (ctx : abi_traverse_context), ctx.never_expires →
    ds.written.length + bs.length ≤ ds.capacity →
    ∃ ctx1, _variant_to_binary self fuel type var ds ctx =
        .ok ({ written := ds.written ++ bs, capacity := ds.capacity }, ctx1) ∧
      same_clock ctx ctx1

/-- With fuel `fuel`, `_binary_to_variant` decodes the bytes `bs` as `type` to the value
`var`: on every stream that starts with `bs` and under every context whose deadline never
expires, it returns `var` and leaves what follows `bs` unread. -/
def decodes_to (self : abi_serializer) (fuel : Nat) (type : type_name) (bs : List Byte)
    (var : Value) : Prop :=
  ∀ (rest : List Byte) (ctx : abi_traverse_context), ctx.never_expires →
    ∃ ctx1, _binary_to_variant self fuel type (bs ++ rest) ctx = .ok (var, rest, ctx1) ∧
      same_clock ctx ctx1

/-- Enough fuel encodes `var` as `type` to `bs`. -/
def encodes_eventually (self : abi_serializer) (type : type_name) (var : Value) (bs : List Byte) :
    Prop :=
  ∃ n, ∀ fuel, n ≤ fuel → encodes_to self fuel type var bs

/-- Enough fuel makes the element loop of the encoder append `bs` for the elements `l`. -/
def elems_encode_eventually (self : abi_serializer) (F : type_name) (l : List Value)
    (bs : List Byte) : Prop :=
  ∃ n, ∀ fuel, n ≤ fuel → ∀ (ds : datastream) (ctx : abi_traverse_context),
    ctx.never_expires → ds.written.length + bs.length ≤ ds.capacity →
    ∃ ctx1, pack_array_elems (_variant_to_binary self fuel F) l ds ctx =
        .ok ({ written := ds.written ++ bs, capacity := ds.capacity }, ctx1) ∧
      same_clock ctx ctx1

/-- Enough fuel encodes to `bs` every object that starts with the pairs `kvs`, as any type
that resolves to `R`. -/
def object_encodes_eventually (self : abi_serializer) (R : type_name)
    (kvs : List (String × Value)) (bs : List Byte) : Prop :=
  ∃ n, ∀ fuel, n ≤ fuel → ∀ (type : type_name), resolve_type self type = R →
    ∀ (extra : List (String × Value)), (kvs.map Prod.fst).Nodup →
    encodes_to self fuel type (Value.obj (kvs ++ extra)) bs

/-- Enough fuel makes the field loop of the encoder append `bo` for the fields `fields`,
looked up in any object that holds the pairs `ko` after pairs of other names. -/
def fields_encode_eventually (self : abi_serializer) (fields : List field_def)
    (ko : List (String × Value)) (bo : List Byte) : Prop :=
  ∃ n, ∀ fuel, n ≤ fuel → ∀ (pre extra : List (String × Value)) (ds : datastream)
    (ctx : abi_traverse_context), ((pre ++ ko).map Prod.fst).Nodup → ctx.never_expires →
    ds.written.length + bo.length ≤ ds.capacity →
    ∃ ctx1, pack_fields (_variant_to_binary self fuel) (pre ++ ko ++ extra) fields ds ctx =
        .ok ({ written := ds.written ++ bo, capacity := ds.capacity }, ctx1) ∧
      same_clock ctx ctx1

/-- Enough fuel decodes `bs` as `type` to `var`. -/
def decodes_eventually (self : abi_serializer) (type : type_name) (bs : List Byte) (var : Value) :
    Prop :=
  ∃ n, ∀ fuel, n ≤ fuel → decodes_to self fuel type bs var

/-- Enough fuel makes the element loop of the decoder read the elements `l` from `bs`. -/
def elems_decode_eventually (self : abi_serializer) (F : type_name) (bs : List Byte)
    (l : List Value) : Prop :=
  ∃ n, ∀ fuel, n ≤ fuel → ∀ (rest : List Byte) (ctx : abi_traverse_context), ctx.never_expires →
    ∃ ctx1, unpack_array_elems (_binary_to_variant self fuel F) l.length (bs ++ rest) ctx =
        .ok (l, rest, ctx1) ∧
      same_clock ctx ctx1

/-- Enough fuel decodes `bs` to the object of pairs `kvs`, as any type that resolves to
`R`. -/
def object_decodes_eventually (self : abi_serializer) (R : type_name) (bs : List Byte)
    (kvs : List (String × Value)) : Prop :=
  ∃ n, ∀ fuel, n ≤ fuel → ∀ (type : type_name), resolve_type self type = R →
    decodes_to self fuel type bs (Value.obj kvs)

/-- Enough fuel makes the field loop of the decoder read the pairs `ko` from `bo`. -/
def fields_decode_eventually (self : abi_serializer) (fields : List field_def) (bo : List Byte)
    (ko : List (String × Value)) : Prop :=
  ∃ n, ∀ fuel, n ≤ fuel → ∀ (rest : List Byte) (ctx : abi_traverse_context), ctx.never_expires →
    ∃ ctx1, unpack_fields (_binary_to_variant self fuel) fields (bo ++ rest) ctx =
        .ok (ko, rest, ctx1) ∧
      same_clock ctx ctx1

/-- Two outcomes of a walk that threads the traversal context, started under `ctx` and
under `ctx1`, agree up to the clock: both raise the same exception, or both return
normally with the same result, each under the clock and the deadline it started with. -/
def agree_up_to_clock {α : Type} (ctx ctx1 : abi_traverse_context)
    (r r1 : Except Err (α × abi_traverse_context)) : Prop :=
  (∃ e, r = .error e ∧ r1 = .error e) ∨
  (∃ a c c1, r = .ok (a, c) ∧ r1 = .ok (a, c1) ∧ same_clock ctx c ∧ same_clock ctx1 c1)

/-- The number of keys of the typedef map that are not in `seen`. -/
def keys_unseen (typedefs : List (type_name × type_name)) (seen : List type_name) : Nat :=
  ((typedefs.map Prod.fst).filter (fun n => decide (n ∉ seen))).length

/-- The field names declared along the base chain of the struct of resolved name `R`, where
every struct of the chain is handled by the struct branches of the encoder and of the
decoder: the names of the base chain first, then the own field names, each in declaration
order. -/
inductive struct_chain (self : abi_serializer) : type_name → List field_name → Prop where
  | root (R : type_name) (st : struct_def) :
      struct_dispatch self R st → st.base = "" →
      struct_chain self R (st.fields.map field_def.name)
  | derived (R : type_name) (st : struct_def) (names : List field_name) :
      struct_dispatch self R st → st.base ≠ "" →
      struct_chain self (resolve_type self st.base) names →
      struct_chain self R (names ++ st.fields.map field_def.name)

/-- The pairs `kvs` are the decodings of the fields `fields`, read one after the other
from the stream `ds` and leaving the stream `ds2`: each field is decoded as
`_remove_bin_extension(field.type)` from the stream position left by the field before it,
and entered under its name. -/
inductive field_decodings (self : abi_serializer) (fuel : Nat) :
    List field_def → List Byte → List (String × Value) → List Byte → Prop where
  | nil (ds : List Byte) : field_decodings self fuel [] ds [] ds
  | cons (field : field_def) (rest : List field_def) (v : Value) (ds ds1 ds2 : List Byte)
      (kvs : List (String × Value)) (ctx ctx1 : abi_traverse_context) :
      _binary_to_variant self fuel (_remove_bin_extension field.type) ds ctx = .ok (v, ds1, ctx1) →
      field_decodings self fuel rest ds1 kvs ds2 →
      field_decodings self fuel (field :: rest) ds ((field.name, v) :: kvs) ds2

/-- The bytes `bytes` are the encodings of the values `l` as type `F`, one after the other
in the order of `l`. -/
inductive elem_encodings (self : abi_serializer) (fuel : Nat) (F : type_name) :
    List Value → List Byte → Prop where
  | nil : elem_encodings self fuel F [] []
  | cons (v : Value) (vs : List Value) (chunk bytes : List Byte) :
      is_encoding self fuel F v chunk → elem_encodings self fuel F vs bytes →
      elem_encodings self fuel F (v :: vs) (chunk ++ bytes)

/-- The struct `st` with the trailing `$` deleted from the type of every field. -/
def struct_def.without_bin_extension (st : struct_def) : struct_def :=
  { st with fields := st.fields.map (fun f => { f with type := _remove_bin_extension f.type }) }

/-- The document `abi` with the trailing `$` deleted from the type of every struct field
(the document called `A'` where the binary-extension suffix is said to be cosmetic). -/
def without_bin_extension (abi : abi_def) : abi_def :=
  { abi with structs := abi.structs.map struct_def.without_bin_extension }

/-- The serializer `self` with the trailing `$` deleted from the type of every field of
every struct of its map. -/
def abi_serializer.without_bin_extension (self : abi_serializer) : abi_serializer :=
  { self with structs := self.structs.map (fun p => (p.1, p.2.without_bin_extension)) }

/-- No field type of the document ends in more than one `$`: deleting the suffix twice is
deleting it once. -/
def single_bin_extension (abi : abi_def) : Prop :=
  ∀ st ∈ abi.structs, ∀ f ∈ st.fields,
    _remove_bin_extension (_remove_bin_extension f.type) = _remove_bin_extension f.type

/-- The names of the nodes of the DAG after a walk of `check_struct_in_recursion` (the last
added first), when the walk returned normally. -/
def dag_nodes (r : Except Err (List String × abi_traverse_context)) : Option (List String) :=
  match r with
  | .ok (added, _) => some added
  | .error _ => none

/-- The values `l` are the decodings of consecutive elements of type `F`, read one after the
other from the stream `ds` and leaving the stream `ds2`: each element is decoded from the
stream position left by the element before it. -/
inductive elem_decodings (self : abi_serializer) (fuel : Nat) (F : type_name) :
    List Byte → List Value → List Byte → Prop where
  | nil (ds : List Byte) : elem_decodings self fuel F ds [] ds
  | cons (v : Value) (vs : List Value) (ds ds1 ds2 : List Byte) (ctx ctx1 : abi_traverse_context) :
      _binary_to_variant self fuel F ds ctx = .ok (v, ds1, ctx1) →
      elem_decodings self fuel F ds1 vs ds2 →
      elem_decodings self fuel F ds (v :: vs) ds2

/-- Among the next `n` elements of type `F` read from the stream `ds` under the context
`ctx`, one decodes to null, those before it having decoded to values that are not null. -/
inductive elems_meet_null (self : abi_serializer) (fuel : Nat) (F : type_name) :
    Nat → List Byte → abi_traverse_context → Prop where
  | here (n : Nat) (ds ds1 : List Byte) (ctx ctx1 : abi_traverse_context) :
      _binary_to_variant self fuel F ds ctx = .ok (Value.null, ds1, ctx1) →
      elems_meet_null self fuel F (n + 1) ds ctx
  | next (n : Nat) (v : Value) (ds ds1 : List Byte) (ctx ctx1 : abi_traverse_context) :
      _binary_to_variant self fuel F ds ctx = .ok (v, ds1, ctx1) → v.is_null = false →
      elems_meet_null self fuel F n ds1 ctx1 →
      elems_meet_null self fuel F (n + 1) ds ctx

/-! ## The checkpoint store (`persistence/syncdatadb.cpp`, namespace `SyncData`) -/

/-- The order of the keys of the store: bytewise lexicographic. -/
instance : map_key (List Byte) := ⟨fun a b => decide (a < b)⟩

/-- The order of `int`, for the `std::map<int, uint256>` of `LoadCheckPoint`. -/
instance : map_key Int := ⟨fun a b => decide (a < b)⟩

/-- Modelled from the spec: the class `CLevelDBWrapper`, declared in the store header: "a
generic ordered key-value mapping", here from serialized keys to records of type `D`
(the class `CSyncData`), in increasing key order. -/
abbrev CLevelDBWrapper (D : Type) := List (List Byte × D)

/-- Modelled from the spec: `CLevelDBWrapper::Write`, the `put` of the mapping, on the
serialized key. It reports success. -/
def CLevelDBWrapper.Write {D : Type} (db : CLevelDBWrapper D) (key : List Byte) (value : D) :
    CLevelDBWrapper D × Bool :=
  (map_set db key value, true)

/-- Modelled from the spec: `CLevelDBWrapper::Read`, the `get` of the mapping, on the
serialized key: the record stored under the key, or a miss. -/
def CLevelDBWrapper.Read {D : Type} (db : CLevelDBWrapper D) (key : List Byte) : Option D :=
  map_find db key

/-- Modelled from the spec: `CLevelDBWrapper::Exists`, the `exists` of the mapping, on the
serialized key. -/
def CLevelDBWrapper.Exists {D : Type} (db : CLevelDBWrapper D) (key : List Byte) : Bool :=
  (map_find db key).isSome

/-- Modelled from the spec: the cursor of `NewIterator` after `Seek(key)`, the range scan of
the mapping: the entries from the first one whose key is not below `key`. -/
def CLevelDBWrapper.Seek {D : Type} (db : CLevelDBWrapper D) (key : List Byte) :
    List (List Byte × D) :=
  db.dropWhile (fun p => map_key.lt p.1 key)

/-- The collaborators of the store that are declared outside the sources: how
`commons/serialize.h` writes a key of type `std::pair<char, int>` and a key of type `int`
to a `CDataStream` and reads a `char` and an `int` back (`none` when the read throws), and
the hash `CSyncCheckPoint::m_hashCheckpoint` that `SetData` derives from a record. -/
structure disk_format (D H : Type) where
  pair_key : Byte → Int → List Byte
  int_key : Int → List Byte
  read_char : List Byte → Option (Byte × List Byte)
  read_int : List Byte → Option (Int × List Byte)
  hashCheckpoint : D → H

/-- The class `CSyncDataDb`: its one static member, the pointer to the store, null until
the store is initialised. -/
structure CSyncDataDb (D : Type) where
  m_dbPoint : Option (CLevelDBWrapper D)

/-- The function `CSyncDataDb::InitializeSyncDataDb`; `opened` is the store found at the
path. -/
def CSyncDataDb.InitializeSyncDataDb {D : Type} (self : CSyncDataDb D)
    (opened : CLevelDBWrapper D) : CSyncDataDb D × Bool :=
  let self1 : CSyncDataDb D :=
    match self.m_dbPoint with
    | none => { m_dbPoint := some opened }
    | some _ => self
  (self1, self1.m_dbPoint.isSome)

/-- The function `CSyncDataDb::WriteCheckpoint`: the record goes under the key
`std::make_pair('c', height)`; the character `'c'` is the byte 99. -/
def CSyncDataDb.WriteCheckpoint {D H : Type} (fmt : disk_format D H) (self : CSyncDataDb D)
    (height : Int) (data : D) : CSyncDataDb D × Bool :=
  match self.m_dbPoint with
  | some db =>
    let r := db.Write (fmt.pair_key 99 height) data
    ({ m_dbPoint := some r.1 }, r.2)
  | none => (self, false)

/-- The function `CSyncDataDb::ReadCheckpoint`: the record under the key
`std::make_pair('c', height)` is read into `data`. -/
def CSyncDataDb.ReadCheckpoint {D H : Type} (fmt : disk_format D H) (self : CSyncDataDb D)
    (height : Int) (data : D) : Bool × D :=
  match self.m_dbPoint with
  | some db =>
    match db.Read (fmt.pair_key 99 height) with
    | some d => (true, d)
    | none => (false, data)
  | none => (false, data)

/-- The function `CSyncDataDb::ExistCheckpoint`: `m_dbPoint->Exists(height)`, the key
being the `int` itself. -/
def CSyncDataDb.ExistCheckpoint {D H : Type} (fmt : disk_format D H) (self : CSyncDataDb D)
    (height : Int) : Bool :=
  match self.m_dbPoint with
  | some db => db.Exists (fmt.int_key height)
  | none => false

/-- The insertion `values.insert(std::make_pair(k, v))` of a `std::map`: an existing key
keeps its value. -/
def map_insert {K V : Type} [DecidableEq K] [map_key K] (m : List (K × V)) (k : K) (v : V) :
    List (K × V) :=
  match map_find m k with
  | some _ => m
  | none => map_set m k v

/-- The loop of `LoadCheckPoint` over the entries under the cursor: it stops at the first
key whose leading character is not `'c'`, and returns false when a key cannot be read. -/
def LoadCheckPoint_loop {D H : Type} (fmt : disk_format D H) :
    List (List Byte × D) → List (Int × H) → List (Int × H) × Bool
  | [], values => (values, true)
  | (slKey, data) :: rest, values =>
    match fmt.read_char slKey with
    | none => (values, false)
    | some (chType, ssKey) =>
      if chType = 99 then
        match fmt.read_int ssKey with
        | none => (values, false)
        | some (height, _) =>
          LoadCheckPoint_loop fmt rest (map_insert values height (fmt.hashCheckpoint data))
      else (values, true)

/-- The function `CSyncDataDb::LoadCheckPoint`: the scan from the key
`std::make_pair('c', 0)`. -/
def CSyncDataDb.LoadCheckPoint {D H : Type} (fmt : disk_format D H) (self : CSyncDataDb D)
    (values : List (Int × H)) : List (Int × H) × Bool :=
  match self.m_dbPoint with
  | some db => LoadCheckPoint_loop fmt (db.Seek (fmt.pair_key 99 0)) values
  | none => (values, false)

/-- A stand-in for the disk format, for closed examples: a `char` is one byte, an `int`
four bytes in two's complement, least significant first, a pair its two members in
order; the hash of a record is the record. -/
def raw_disk_format : disk_format (List Byte) (List Byte) :=
  { pair_key := fun c height => c :: (int_wire 4).write height
    int_key := fun height => (int_wire 4).write height
    read_char := fun ds =>
      match read_char ds with
      | .ok r => some r
      | .error _ => none
    read_int := fun ds =>
      match (int_wire 4).read ds with
      | .ok r => some r
      | .error _ => none
    hashCheckpoint := fun data => data }

/-- The store before `InitializeSyncDataDb`. -/
def uninitialised (D : Type) : CSyncDataDb D := { m_dbPoint := none }

/-- The serializer after the typedef loop of `set_abi` has assigned the typedefs `pre`. -/
def typedefs_added (self : abi_serializer) (pre : List type_def) : abi_serializer :=
  { self with
    typedefs := pre.foldl (fun m td => map_set m td.new_type_name td.type) self.typedefs }

/-- The typedefs pass the two assertions of the typedef loop of `set_abi` in sequence order:
for each typedef, with respect to the registry, the structs and the typedefs assigned before
it, its aliased type is a type and its new name is not a type. -/
def typedefs_in_order (fuel : Nat) : abi_serializer → List type_def → Prop
  | _, [] => True
  | self, td :: rest =>
    known_type self fuel td.type = some true ∧
    known_type self fuel td.new_type_name = some false ∧
    typedefs_in_order fuel
      { self with typedefs := map_set self.typedefs td.new_type_name td.type } rest

/-- Every typedef of the sequence aliases a type: for each typedef in sequence order, with
respect to the registry, the structs and the typedefs assigned before it, its aliased type
is a type, and the walk of `_is_type` on its new name does not run out of fuel. -/
def typedef_targets_known (fuel : Nat) : abi_serializer → List type_def → Prop
  | _, [] => True
  | self, td :: rest =>
    known_type self fuel td.type = some true ∧
    known_type self fuel td.new_type_name ≠ none ∧
    typedef_targets_known fuel
      { self with typedefs := map_set self.typedefs td.new_type_name td.type } rest

/-! # Theorems -/

/-! ## Error kinds of the validation functions -/

theorem check_deadline_error {ctx : abi_traverse_context} {e : Err}
    (h : ctx.check_deadline = .error e) : e = .abi_serialization_deadline_exception := by
  unfold abi_traverse_context.check_deadline at h
  split at h
  · cases h
  · cases h; rfl

theorem is_type_error (self : abi_serializer) (fuel : Nat) :
    ∀ (t : type_name) (ctx : abi_traverse_context) (e : Err), _is_type self fuel t ctx = .error e →
      e = .abi_serialization_deadline_exception ∨ e = .fuel_exhausted := by
  induction fuel with
  | zero =>
    intro t ctx e h
    simp [_is_type] at h
    exact Or.inr h.symm
  | succ n ih =>
    intro t ctx e h
    unfold _is_type at h
    split at h
    · rename_i e1 h1
      cases h
      exact Or.inl (check_deadline_error h1)
    · simp only at h
      split at h
      · cases h
      · split at h
        · exact ih _ _ _ h
        · split at h <;> cases h

theorem assert_is_type_error {self : abi_serializer} {fuel : Nat} {t : type_name}
    {ctx : abi_traverse_context} {e : Err} (h : assert_is_type self fuel t ctx = .error e) :
    e = .abi_serialization_deadline_exception ∨ e = .fuel_exhausted ∨ e = .invalid_type_inside_abi := by
  unfold assert_is_type at h
  split at h
  · rename_i e1 h1
    cases h
    rcases is_type_error _ _ _ _ _ h1 with h2 | h2
    · exact Or.inl h2
    · exact Or.inr (Or.inl h2)
  · split at h
    · cases h
    · cases h; exact Or.inr (Or.inr rfl)

theorem validate_typedef_walk_error (typedefs : List (type_name × type_name)) (fuel : Nat) :
    ∀ (itr : Option type_name) (seen : List type_name) (ctx : abi_traverse_context) (e : Err),
      validate_typedef_walk typedefs fuel itr seen ctx = .error e → e ∈ validation_errors := by
  induction fuel with
  | zero =>
    intro itr seen ctx e h
    cases itr with
    | none => simp [validate_typedef_walk] at h
    | some t => simp [validate_typedef_walk] at h; subst h; simp [validation_errors]
  | succ n ih =>
    intro itr seen ctx e h
    cases itr with
    | none => simp [validate_typedef_walk] at h
    | some t =>
      unfold validate_typedef_walk at h
      split at h
      · rename_i e1 h1
        cases h
        rw [check_deadline_error h1]; simp [validation_errors]
      · split at h
        · cases h; simp [validation_errors]
        · exact ih _ _ _ _ h

theorem validate_typedef_chains_error (self : abi_serializer) (fuel : Nat) :
    ∀ (l : List (type_name × type_name)) (ctx : abi_traverse_context) (e : Err),
      validate_typedef_chains self fuel l ctx = .error e → e ∈ validation_errors := by
  intro l
  induction l with
  | nil => intro ctx e h; simp [validate_typedef_chains] at h
  | cons t rest ih =>
    intro ctx e h
    unfold validate_typedef_chains at h
    split at h
    · rename_i e1 h1
      cases h
      exact validate_typedef_walk_error _ _ _ _ _ _ h1
    · exact ih _ _ h

theorem assert_is_type_error_mem {self : abi_serializer} {fuel : Nat} {t : type_name}
    {ctx : abi_traverse_context} {e : Err} (h : assert_is_type self fuel t ctx = .error e) :
    e ∈ validation_errors := by
  rcases assert_is_type_error h with h1 | h1 | h1 <;> subst h1 <;> simp [validation_errors]

theorem validate_typedef_targets_error (self : abi_serializer) (fuel : Nat) :
    ∀ (l : List (type_name × type_name)) (ctx : abi_traverse_context) (e : Err),
      validate_typedef_targets self fuel l ctx = .error e → e ∈ validation_errors := by
  intro l
  induction l with
  | nil => intro ctx e h; simp [validate_typedef_targets] at h
  | cons t rest ih =>
    intro ctx e h
    unfold validate_typedef_targets at h
    split at h
    · rename_i e1 h1
      cases h
      exact assert_is_type_error_mem h1
    · exact ih _ _ h

theorem get_struct_error {self : abi_serializer} {t : type_name} {e : Err}
    (h : get_struct self t = .error e) : e = .invalid_type_inside_abi := by
  unfold get_struct at h
  split at h
  · cases h; rfl
  · cases h

theorem validate_base_walk_error (self : abi_serializer) (fuel : Nat) :
    ∀ (current : struct_def) (seen : List type_name) (ctx : abi_traverse_context) (e : Err),
      validate_base_walk self fuel current seen ctx = .error e → e ∈ validation_errors := by
  induction fuel with
  | zero =>
    intro current seen ctx e h
    unfold validate_base_walk at h
    split at h
    · cases h; simp [validation_errors]
    · cases h
  | succ n ih =>
    intro current seen ctx e h
    unfold validate_base_walk at h
    split at h
    · split at h
      · rename_i e1 h1
        cases h
        rw [check_deadline_error h1]; simp [validation_errors]
      · split at h
        · rename_i e1 h1
          cases h
          rw [get_struct_error h1]; simp [validation_errors]
        · split at h
          · cases h; simp [validation_errors]
          · exact ih _ _ _ _ h
    · cases h

theorem validate_fields_error (self : abi_serializer) (fuel : Nat) :
    ∀ (l : List field_def) (ctx : abi_traverse_context) (e : Err),
      validate_fields self fuel l ctx = .error e → e ∈ validation_errors := by
  intro l
  induction l with
  | nil => intro ctx e h; simp [validate_fields] at h
  | cons t rest ih =>
    intro ctx e h
    unfold validate_fields at h
    split at h
    · rename_i e1 h1
      cases h
      simp only [WASM_CAPTURE_AND_RETHROW] at h1
      split at h1
      · rename_i e2 h2
        cases h1
        rw [check_deadline_error h2]; simp [validation_errors]
      · exact assert_is_type_error_mem h1
    · exact ih _ _ h

theorem validate_struct_error {self : abi_serializer} {fuel : Nat} {s : struct_def}
    {ctx : abi_traverse_context} {e : Err} (h : validate_struct self fuel s ctx = .error e) :
    e ∈ validation_errors := by
  unfold validate_struct WASM_CAPTURE_AND_RETHROW at h
  split at h
  · rename_i e1 h1
    cases h
    split at h1
    · exact validate_base_walk_error _ _ _ _ _ _ h1
    · cases h1
  · exact validate_fields_error _ _ _ _ _ h

theorem validate_structs_error (self : abi_serializer) (fuel : Nat) :
    ∀ (l : List (type_name × struct_def)) (ctx : abi_traverse_context) (e : Err),
      validate_structs self fuel l ctx = .error e → e ∈ validation_errors := by
  intro l
  induction l with
  | nil => intro ctx e h; simp [validate_structs] at h
  | cons t rest ih =>
    intro ctx e h
    unfold validate_structs at h
    split at h
    · rename_i e1 h1
      cases h
      exact validate_struct_error h1
    · exact ih _ _ h

theorem dag_add_error {parent : List String} {name : String} {added : List String}
    {ctx : abi_traverse_context} {e : Err}
    (h : dag_add parent name added ctx = .error e) : e ∈ validation_errors := by
  unfold dag_add at h
  split at h
  · rename_i e1 h1
    cases h
    rw [check_deadline_error h1]; simp [validation_errors]
  · split at h
    · cases h; simp [validation_errors]
    · split at h <;> cases h

theorem check_struct_fields_error (self : abi_serializer)
    (step : struct_def → List String → List String → abi_traverse_context →
      Except Err (List String × abi_traverse_context))
    (hstep : ∀ s d a c e, step s d a c = .error e → e ∈ validation_errors) (d : List String) :
    ∀ (l : List field_def) (seen : List type_name) (added : List String) (ctx : abi_traverse_context)
      (e : Err), check_struct_fields self step d l seen added ctx = .error e →
      e ∈ validation_errors := by
  intro l
  induction l with
  | nil => intro seen added ctx e h; simp [check_struct_fields] at h
  | cons f rest ih =>
    intro seen added ctx e h
    unfold check_struct_fields at h
    split at h
    · rename_i e1 h1
      cases h
      rw [check_deadline_error h1]; simp [validation_errors]
    · simp only at h
      split at h
      · cases h
      · split at h
        · split at h
          · rename_i e1 h1
            cases h
            exact hstep _ _ _ _ _ h1
          · exact ih _ _ _ _ h
        · exact ih _ _ _ _ h

theorem check_struct_in_recursion_error (self : abi_serializer) (fuel : Nat) :
    ∀ (s : struct_def) (parent added : List String) (ctx : abi_traverse_context) (e : Err),
      check_struct_in_recursion self fuel s parent added ctx = .error e →
      e ∈ validation_errors := by
  unfold check_struct_in_recursion
  induction fuel with
  | zero =>
    intro s parent added ctx e h
    simp [check_struct_in_recursion_with] at h
    subst h; simp [validation_errors]
  | succ n ih =>
    intro s parent added ctx e h
    unfold check_struct_in_recursion_with at h
    split at h
    · rename_i e1 h1
      cases h
      exact dag_add_error h1
    · cases h
    · split at h
      · rename_i e1 h1
        cases h
        rw [check_deadline_error h1]; simp [validation_errors]
      · exact check_struct_fields_error self _ ih _ _ _ _ _ _ h

theorem validate_recursion_error (self : abi_serializer) (fuel : Nat) :
    ∀ (l : List (type_name × struct_def)) (added : List String) (ctx : abi_traverse_context) (e : Err),
      validate_recursion self fuel l added ctx = .error e → e ∈ validation_errors := by
  intro l
  induction l with
  | nil => intro added ctx e h; simp [validate_recursion] at h
  | cons t rest ih =>
    intro added ctx e h
    unfold validate_recursion at h
    simp only at h
    split at h
    · rename_i e1 h1
      cases h
      exact check_struct_in_recursion_error _ _ _ _ _ _ _ h1
    · exact ih _ _ _ h

theorem validate_targets_error (self : abi_serializer) (fuel : Nat) :
    ∀ (l : List (String × type_name)) (ctx : abi_traverse_context) (e : Err),
      validate_targets self fuel l ctx = .error e → e ∈ validation_errors := by
  intro l
  induction l with
  | nil => intro ctx e h; simp [validate_targets] at h
  | cons t rest ih =>
    intro ctx e h
    unfold validate_targets at h
    split at h
    · rename_i e1 h1
      cases h
      simp only [WASM_CAPTURE_AND_RETHROW] at h1
      split at h1
      · rename_i e2 h2
        cases h1
        rw [check_deadline_error h2]; simp [validation_errors]
      · exact assert_is_type_error_mem h1
    · exact ih _ _ h

theorem validate_error {self : abi_serializer} {fuel : Nat} {ctx : abi_traverse_context} {e : Err}
    (h : validate self fuel ctx = .error e) : e ∈ validation_errors := by
  unfold validate at h
  split at h
  · rename_i e1 h1; cases h; exact validate_typedef_chains_error _ _ _ _ _ h1
  · split at h
    · rename_i e1 h1; cases h; exact validate_typedef_targets_error _ _ _ _ _ h1
    · split at h
      · rename_i e1 h1; cases h; exact validate_structs_error _ _ _ _ _ h1
      · split at h
        · rename_i e1 h1; cases h; exact validate_recursion_error _ _ _ _ _ _ h1
        · split at h
          · rename_i e1 h1; cases h; exact validate_targets_error _ _ _ _ _ h1
          · exact validate_targets_error _ _ _ _ _ h

theorem set_abi_typedefs_error (fuel : Nat) :
    ∀ (l : List type_def) (self : abi_serializer) (ctx : abi_traverse_context) (e : Err),
      (set_abi_typedefs fuel self l ctx).2 = .error e →
      e = .abi_serialization_deadline_exception ∨ e = .fuel_exhausted ∨
        e = .invalid_type_inside_abi ∨ e = .duplicate_abi_def_exception := by
  intro l
  induction l with
  | nil => intro self ctx e h; simp [set_abi_typedefs] at h
  | cons td rest ih =>
    intro self ctx e h
    unfold set_abi_typedefs at h
    split at h
    · rename_i e1 h1
      cases h
      rcases is_type_error _ _ _ _ _ h1 with h2 | h2
      · exact Or.inl h2
      · exact Or.inr (Or.inl h2)
    · split at h
      · split at h
        · rename_i e1 h1
          cases h
          rcases is_type_error _ _ _ _ _ h1 with h2 | h2
          · exact Or.inl h2
          · exact Or.inr (Or.inl h2)
        · split at h
          · cases h; exact Or.inr (Or.inr (Or.inr rfl))
          · exact ih _ _ _ h
      · cases h; exact Or.inr (Or.inr (Or.inl rfl))

theorem set_abi_not_version_error (self : abi_serializer) (fuel : Nat) (abi : abi_def)
    (max_serialization_time : Nat) (clock : Nat → Nat)
    (hv : starts_with abi.version "wasm::abi/1." = true) :
    (set_abi self fuel abi max_serialization_time clock).2 ≠
      .error .unsupport_abi_version_exception := by
  intro h
  unfold set_abi at h
  simp only [hv, if_true] at h
  split at h
  · rename_i s3 e1 h1
    simp only at h
    have h2 := set_abi_typedefs_error fuel _ _ _ e1 (by rw [h1])
    cases h
    simp at h2
  · split at h
    · simp at h
    · split at h
      · simp at h
      · split at h
        · simp at h
        · split at h
          · simp at h
          · split at h
            · rename_i e1 h1
              simp only at h
              cases h
              have := validate_error h1
              simp [validation_errors] at this
            · simp at h

/-- C10. Version gate: `set_abi` raises unsupport-abi-version exactly when `abi.version` does not
begin with the literal prefix `wasm::abi/1.`; in that case the serializer is left as it
was (typedefs, structs, actions and tables included). -/
theorem C10_version_gate (self : abi_serializer) (fuel : Nat) (abi : abi_def)
    (max_serialization_time : Nat) (clock : Nat → Nat) :
    ((set_abi self fuel abi max_serialization_time clock).2 =
        .error .unsupport_abi_version_exception ↔
      starts_with abi.version "wasm::abi/1." = false) ∧
    (starts_with abi.version "wasm::abi/1." = false →
      (set_abi self fuel abi max_serialization_time clock).1 = self) := by
  constructor
  · constructor
    · intro h
      cases hv : starts_with abi.version "wasm::abi/1."
      · rfl
      · exact absurd h (set_abi_not_version_error self fuel abi max_serialization_time clock hv)
    · intro hv
      unfold set_abi
      simp [hv]
  · intro hv
    unfold set_abi
    simp [hv]

/-- C9 (code bug). The encoder has no branch for an optional type whose underlying
type is not built-in: on the accepted ABI with the single struct `s` (no fields) the
decoder reads `00` as null and `01` as the empty object for the type `s?`, but
`variant_to_binary` raises invalid-type-inside-abi on both values; likewise for `u?`
with the typedef `u = uint32`, while the built-in form `uint32?` encodes null as the
single byte `00`. -/
theorem C9_optional_of_struct_not_encoded :
    raised (load (abi_of [] [⟨"s", "", []⟩])) = none ∧
    decode (abi_of [] [⟨"s", "", []⟩]) "s?" [0] = .ok (Value.null, []) ∧
    encode (abi_of [] [⟨"s", "", []⟩]) "s?" Value.null = .error .invalid_type_inside_abi ∧
    decode (abi_of [] [⟨"s", "", []⟩]) "s?" [1] = .ok (Value.obj [], []) ∧
    encode (abi_of [] [⟨"s", "", []⟩]) "s?" (Value.obj []) = .error .invalid_type_inside_abi ∧
    decode (abi_of [⟨"u", "uint32"⟩] []) "u?" [0] = .ok (Value.null, []) ∧
    encode (abi_of [⟨"u", "uint32"⟩] []) "u?" Value.null = .error .invalid_type_inside_abi ∧
    encode (abi_of [] []) "uint32?" Value.null = .ok [0] ∧
    encode (abi_of [] []) "string?" (Value.str "hi") = .ok [1, 2, 104, 105] := by
  decide

/-- C3 (code bug). The field loop of `check_struct_in_recursion` is left at the first field
whose resolved type repeats an earlier one, so the fields after it are not examined: the
ABI with the single struct `s` of fields `a : uint8`, `b : uint8`, `f : s` is accepted
although `s` nests itself; so is the struct `s` with the single field `f : s$`, whose
binary-extension suffix is not stripped by the walk. The struct `s` with the single field
`f : s` is rejected with circular-reference-in-struct. -/
theorem C3_self_nesting_struct_accepted :
    raised (load (abi_of [] [⟨"s", "", [⟨"a", "uint8"⟩, ⟨"b", "uint8"⟩, ⟨"f", "s"⟩]⟩])) = none ∧
    raised (load (abi_of [] [⟨"s", "", [⟨"f", "s$"⟩]⟩])) = none ∧
    raised (load (abi_of [] [⟨"s", "", [⟨"f", "s"⟩]⟩])) = some .circular_reference_in_struct := by
  decide

/-- C7 (counterexample). With the struct `b` of one `uint8` field: the stream `01 80 80 40`
read as `b[][]` has the leading length 1, below the cap, and yet fails with
array-size-exceeds (raised for the nested array, of length `1 << 20`); and the stream
`80 80 40` read as `uint8[]` declares the length `1 << 20` and fails with
unpack-exception, not array-size-exceeds, as a built-in element type is read by the
registry. -/
theorem C7_counterexample :
    is_array (resolve_type (loaded (abi_of [] [⟨"b", "", [⟨"a", "uint8"⟩]⟩])) "b[][]") = true ∧
    read_varuint32 [1, 128, 128, 64] = .ok (1, [128, 128, 64]) ∧
    1 < max_array_size_for_abi ∧
    decode (abi_of [] [⟨"b", "", [⟨"a", "uint8"⟩]⟩]) "b[][]" [1, 128, 128, 64] =
      .error .array_size_exceeds_exception ∧
    read_varuint32 [128, 128, 64] = .ok (max_array_size_for_abi, []) ∧
    decode (abi_of [] [⟨"b", "", [⟨"a", "uint8"⟩]⟩]) "uint8[]" [128, 128, 64] =
      .error .unpack_exception := by
  decide

/-- C7 (amended). Array cap. Let the resolved name of `type` be an array type and the
deadline not be reached on entry. If the element type is built-in, the result is the one
of the registry's unpack function (the length check of `_binary_to_variant` is not
reached). Otherwise, with `n` the leading `unsigned_varint`: when `n` is at least
`max_array_size_for_abi` the call fails with array-size-exceeds, whatever the fuel and the
rest of the stream (no element is decoded); when `n` is below it, the call fails with
array-size-exceeds exactly when the decoding of one of the `n` elements does. -/
theorem C7_array_cap (self : abi_serializer) (fuel : Nat) (type : type_name) (ds : List Byte)
    (ctx ctx0 : abi_traverse_context)
    (hctx : ctx.check_deadline = .ok ctx0)
    (ha : is_array (resolve_type self type) = true) :
    (∀ btype, map_find self.built_in_types (fundamental_type (resolve_type self type)) = some btype →
      _binary_to_variant self (fuel + 1) type ds ctx =
        match WASM_RETHROW_EXCEPTIONS .unpack_exception (btype.unpack ds true
            (is_optional (resolve_type self type))) with
        | .error e => .error e
        | .ok (v, ds1) => .ok (v, ds1, ctx0.enter)) ∧
    (map_find self.built_in_types (fundamental_type (resolve_type self type)) = none →
      ∀ n ds1, read_varuint32 ds = .ok (n, ds1) →
        (max_array_size_for_abi ≤ n →
          _binary_to_variant self (fuel + 1) type ds ctx = .error .array_size_exceeds_exception) ∧
        (n < max_array_size_for_abi →
          (_binary_to_variant self (fuel + 1) type ds ctx = .error .array_size_exceeds_exception ↔
            unpack_array_elems
              (_binary_to_variant self fuel (fundamental_type (resolve_type self type)))
              n ds1 ctx0.enter = .error .array_size_exceeds_exception))) := by
  constructor
  · intro btype hb
    simp only [_binary_to_variant, hctx, hb, ha]
  · intro hb n ds1 hn
    constructor
    · intro hge
      have hlt : ¬ n < max_array_size_for_abi := Nat.not_lt.mpr hge
      simp [_binary_to_variant, hctx, hb, ha, hn, WASM_RETHROW_EXCEPTIONS, hlt]
    · intro hlt
      simp only [_binary_to_variant, hctx, hb, ha, hn, WASM_RETHROW_EXCEPTIONS, hlt, if_true]
      split <;> simp_all

/-- C7 (witness). The amended claim at the type `b[]` of the ABI with the struct `b`,
on the stream `80 80 40`. -/
theorem C7_array_cap_witness :
    _binary_to_variant (loaded (abi_of [] [⟨"b", "", [⟨"a", "uint8"⟩]⟩])) 1 "b[]" [128, 128, 64]
      still_ctx = .error .array_size_exceeds_exception :=
  ((C7_array_cap (loaded (abi_of [] [⟨"b", "", [⟨"a", "uint8"⟩]⟩])) 0 "b[]" [128, 128, 64]
    still_ctx _ rfl (by decide)).2 rfl max_array_size_for_abi [] (by decide)).1
    (Nat.le_refl _)

/-! ## Lemmas on std::map -/

theorem string_lt_trans {a b c : String} (h1 : map_key.lt a b = true) (h2 : map_key.lt b c = true) :
    map_key.lt a c = true := by
  simp only [map_key.lt, decide_eq_true_eq] at *
  exact lt_trans h1 h2

theorem string_lt_irrefl (a : String) : map_key.lt a a = false := by
  simp [map_key.lt]

theorem string_lt_total {a b : String} (h1 : a ≠ b) (h2 : map_key.lt a b = false) :
    map_key.lt b a = true := by
  simp only [map_key.lt, decide_eq_true_eq, decide_eq_false_iff_not] at *
  rcases lt_trichotomy a.data b.data with h | h | h
  · exact absurd h h2
  · exact absurd (String.ext h) h1
  · exact h

theorem map_find_none_iff {V : Type} (m : List (String × V)) (k : String) :
    map_find m k = none ↔ k ∉ m.map Prod.fst := by
  induction m with
  | nil => simp [map_find]
  | cons p rest ih =>
    obtain ⟨k1, v1⟩ := p
    unfold map_find
    by_cases h : k1 = k
    · simp [h]
    · simp only [h, if_false, List.map_cons, List.mem_cons, not_or]
      rw [ih]
      constructor
      · intro h2; exact ⟨fun h3 => h h3.symm, h2⟩
      · intro h2; exact h2.2

theorem map_find_set {V : Type} (m : List (String × V)) (k : String) (v : V) (k2 : String) :
    map_find (map_set m k v) k2 = if k = k2 then some v else map_find m k2 := by
  induction m with
  | nil => simp [map_set, map_find]
  | cons p rest ih =>
    obtain ⟨k1, v1⟩ := p
    unfold map_set
    by_cases h1 : k = k1
    · subst h1
      simp only [if_true, map_find]
      by_cases h3 : k = k2 <;> simp [h3]
    · simp only [h1, if_false]
      cases h2 : map_key.lt k k1
      · simp only [Bool.false_eq_true, if_false, map_find, ih]
        by_cases h3 : k1 = k2
        · subst h3
          simp [h1]
        · simp [h3]
      · simp only [if_true, map_find]

theorem map_set_keys {V : Type} (m : List (String × V)) (k : String) (v : V) (k2 : String) :
    k2 ∈ (map_set m k v).map Prod.fst ↔ k2 = k ∨ k2 ∈ m.map Prod.fst := by
  induction m with
  | nil => simp [map_set]
  | cons p rest ih =>
    obtain ⟨k1, v1⟩ := p
    unfold map_set
    by_cases h1 : k = k1
    · subst h1
      simp
    · simp only [h1, if_false]
      cases h2 : map_key.lt k k1
      swap
      · simp
      · simp only [Bool.false_eq_true, if_false, List.map_cons, List.mem_cons, ih]
        constructor
        · rintro (h | h | h)
          · exact Or.inr (Or.inl h)
          · exact Or.inl h
          · exact Or.inr (Or.inr h)
        · rintro (h | h | h)
          · exact Or.inr (Or.inl h)
          · exact Or.inl h
          · exact Or.inr (Or.inr h)

theorem map_set_sorted {V : Type} (m : List (String × V)) (k : String) (v : V)
    (hs : map_sorted m) : map_sorted (map_set m k v) := by
  induction m with
  | nil => simp [map_set, map_sorted]
  | cons p rest ih =>
    obtain ⟨k1, v1⟩ := p
    unfold map_sorted at hs
    simp only [List.map_cons, List.pairwise_cons] at hs
    unfold map_set
    by_cases h1 : k = k1
    · subst h1
      simp only [if_true, map_sorted, List.map_cons, List.pairwise_cons]
      exact hs
    · simp only [h1, if_false]
      cases h2 : map_key.lt k k1
      · simp only [Bool.false_eq_true, if_false, map_sorted, List.map_cons, List.pairwise_cons]
        refine ⟨?_, ih hs.2⟩
        intro a ha
        rcases (map_set_keys rest k v a).mp ha with ha | ha
        · subst ha
          exact string_lt_total h1 h2
        · exact hs.1 a ha
      · simp only [if_true, map_sorted, List.map_cons, List.pairwise_cons, List.mem_cons]
        refine ⟨?_, hs⟩
        intro a ha
        rcases ha with ha | ha
        · subst ha; exact h2
        · exact string_lt_trans h2 (hs.1 a ha)

theorem map_set_length_le {V : Type} (m : List (String × V)) (k : String) (v : V) :
    (map_set m k v).length ≤ m.length + 1 := by
  induction m with
  | nil => simp [map_set]
  | cons p rest ih =>
    obtain ⟨k1, v1⟩ := p
    unfold map_set
    split
    · simp
    · split
      · simp
      · simp only [List.length_cons]; omega

theorem map_set_length_mem {V : Type} (m : List (String × V)) (k : String) (v : V)
    (hs : map_sorted m) (hk : k ∈ m.map Prod.fst) : (map_set m k v).length = m.length := by
  induction m with
  | nil => simp at hk
  | cons p rest ih =>
    obtain ⟨k1, v1⟩ := p
    unfold map_sorted at hs
    simp only [List.map_cons, List.pairwise_cons] at hs
    unfold map_set
    by_cases h1 : k = k1
    · simp [h1]
    · simp only [h1, if_false]
      simp only [List.map_cons, List.mem_cons, h1, false_or] at hk
      have h3 : map_key.lt k1 k = true := hs.1 k hk
      have h4 : map_key.lt k k1 = false := by
        cases h5 : map_key.lt k k1
        · rfl
        · have := string_lt_trans h5 h3
          rw [string_lt_irrefl] at this
          cases this
      simp only [h4, Bool.false_eq_true, if_false, List.length_cons]
      rw [ih hs.2 hk]

theorem foldl_map_set_sorted {α V : Type} (key : α → String) (val : α → V) :
    ∀ (l : List α) (m : List (String × V)), map_sorted m →
      map_sorted (l.foldl (fun m x => map_set m (key x) (val x)) m) := by
  intro l
  induction l with
  | nil => intro m hs; exact hs
  | cons x rest ih => intro m hs; exact ih _ (map_set_sorted m _ _ hs)

theorem foldl_map_set_length_le {α V : Type} (key : α → String) (val : α → V) :
    ∀ (l : List α) (m : List (String × V)),
      (l.foldl (fun m x => map_set m (key x) (val x)) m).length ≤ m.length + l.length := by
  intro l
  induction l with
  | nil => intro m; simp
  | cons x rest ih =>
    intro m
    have h1 := ih (map_set m (key x) (val x))
    have h2 := map_set_length_le m (key x) (val x)
    simp only [List.foldl_cons, List.length_cons]
    omega

theorem foldl_map_set_nodup {α V : Type} (key : α → String) (val : α → V) :
    ∀ (l : List α) (m : List (String × V)), map_sorted m →
      (l.foldl (fun m x => map_set m (key x) (val x)) m).length = m.length + l.length →
      (l.map key).Nodup ∧ ∀ x ∈ l, key x ∉ m.map Prod.fst := by
  intro l
  induction l with
  | nil => intro m _ _; simp
  | cons x rest ih =>
    intro m hs hlen
    simp only [List.foldl_cons, List.length_cons] at hlen
    have h1 := foldl_map_set_length_le key val rest (map_set m (key x) (val x))
    have h2 := map_set_length_le m (key x) (val x)
    have h3 : (map_set m (key x) (val x)).length = m.length + 1 := by omega
    have hx : key x ∉ m.map Prod.fst := by
      intro hmem
      have := map_set_length_mem m (key x) (val x) hs hmem
      omega
    have h4 := ih (map_set m (key x) (val x)) (map_set_sorted m _ _ hs) (by omega)
    constructor
    · simp only [List.map_cons, List.nodup_cons]
      refine ⟨?_, h4.1⟩
      intro hmem
      obtain ⟨y, hy, hyx⟩ := List.mem_map.mp hmem
      have := h4.2 y hy
      rw [map_set_keys] at this
      exact this (Or.inl hyx)
    · intro y hy
      rcases List.mem_cons.mp hy with hy | hy
      · subst hy; exact hx
      · have := h4.2 y hy
        rw [map_set_keys] at this
        exact fun h => this (Or.inr h)

/-! ## The clock -/

theorem same_clock_refl (ctx : abi_traverse_context) : same_clock ctx ctx := ⟨rfl, rfl⟩

theorem same_clock_trans {a b c : abi_traverse_context} (h1 : same_clock a b) (h2 : same_clock b c) :
    same_clock a c := ⟨h2.1.trans h1.1, h2.2.trans h1.2⟩

theorem never_expires_of_same_clock {a b : abi_traverse_context} (h : same_clock a b)
    (ha : a.never_expires) : b.never_expires := by
  intro n
  rw [h.1, h.2]
  exact ha n

theorem check_deadline_same_clock {ctx ctx1 : abi_traverse_context}
    (h : ctx.check_deadline = .ok ctx1) : same_clock ctx ctx1 := by
  unfold abi_traverse_context.check_deadline at h
  split at h
  · cases h; exact ⟨rfl, rfl⟩
  · cases h

theorem check_deadline_never {ctx : abi_traverse_context} (h : ctx.never_expires) :
    ctx.check_deadline = .ok { ctx with reads := ctx.reads + 1 } := by
  unfold abi_traverse_context.check_deadline
  rw [if_pos (h _)]

theorem check_deadline_never_error {ctx : abi_traverse_context} (h : ctx.never_expires) (e : Err) :
    ctx.check_deadline ≠ .error e := by
  rw [check_deadline_never h]
  intro h1
  cases h1

theorem enter_same_clock (ctx : abi_traverse_context) : same_clock ctx ctx.enter := ⟨rfl, rfl⟩

theorem create_never_expires (clock : Nat → Nat) (reads budget : Nat)
    (h : ∀ n, clock n < clock reads + budget) :
    (abi_traverse_context.create clock reads budget).never_expires := h

theorem is_type_same_clock (self : abi_serializer) (fuel : Nat) :
    ∀ (t : type_name) (ctx ctx1 : abi_traverse_context) (b : Bool),
      _is_type self fuel t ctx = .ok (b, ctx1) → same_clock ctx ctx1 := by
  induction fuel with
  | zero => intro t ctx ctx1 b h; simp [_is_type] at h
  | succ n ih =>
    intro t ctx ctx1 b h
    unfold _is_type at h
    split at h
    · cases h
    · rename_i ctx0 h0
      have h1 := check_deadline_same_clock h0
      simp only at h
      split at h
      · cases h; exact h1
      · split at h
        · exact same_clock_trans h1 (ih _ _ _ _ h)
        · split at h <;> cases h <;> exact h1

theorem is_type_never_error (self : abi_serializer) (fuel : Nat) :
    ∀ (t : type_name) (ctx : abi_traverse_context) (e : Err), ctx.never_expires →
      _is_type self fuel t ctx = .error e → e = .fuel_exhausted := by
  induction fuel with
  | zero => intro t ctx e _ h; simp [_is_type] at h; exact h.symm
  | succ n ih =>
    intro t ctx e hn h
    unfold _is_type at h
    rw [check_deadline_never hn] at h
    simp only at h
    split at h
    · cases h
    · split at h
      · exact ih _ { ctx with reads := ctx.reads + 1 } _ (fun n => hn n) h
      · split at h <;> cases h

/-! ## The loops of `set_abi` -/

theorem set_abi_structs_eq : ∀ (l : List struct_def) (self : abi_serializer),
    set_abi_structs self l =
      { self with structs := l.foldl (fun m st => map_set m st.name st) self.structs } := by
  intro l
  induction l with
  | nil => intro self; rfl
  | cons st rest ih => intro self; simp only [set_abi_structs, ih, List.foldl_cons]

theorem set_abi_actions_eq : ∀ (l : List action_def) (self : abi_serializer),
    set_abi_actions self l =
      { self with actions := l.foldl (fun m a => map_set m a.name a.type) self.actions } := by
  intro l
  induction l with
  | nil => intro self; rfl
  | cons st rest ih => intro self; simp only [set_abi_actions, ih, List.foldl_cons]

theorem set_abi_tables_eq : ∀ (l : List table_def) (self : abi_serializer),
    set_abi_tables self l =
      { self with tables := l.foldl (fun m a => map_set m a.name a.type) self.tables } := by
  intro l
  induction l with
  | nil => intro self; rfl
  | cons st rest ih => intro self; simp only [set_abi_tables, ih, List.foldl_cons]

theorem set_abi_error_messages_eq : ∀ (l : List error_message) (self : abi_serializer),
    set_abi_error_messages self l =
      { self with
        error_messages := l.foldl (fun m e => map_set m e.error_code e.error_msg) self.error_messages } := by
  intro l
  induction l with
  | nil => intro self; rfl
  | cons st rest ih => intro self; simp only [set_abi_error_messages, ih, List.foldl_cons]

/-- The typedef loop of `set_abi` changes the typedef map only; when it completes, the map
holds every typedef of the sequence. -/
theorem set_abi_typedefs_state (fuel : Nat) : ∀ (l : List type_def) (self : abi_serializer)
    (ctx : abi_traverse_context),
    ∃ tds, (set_abi_typedefs fuel self l ctx).1 = { self with typedefs := tds } ∧
      (∀ ctx1, (set_abi_typedefs fuel self l ctx).2 = .ok ctx1 →
        tds = l.foldl (fun m td => map_set m td.new_type_name td.type) self.typedefs) := by
  intro l
  induction l with
  | nil => intro self ctx; exact ⟨self.typedefs, rfl, fun _ _ => rfl⟩
  | cons td rest ih =>
    intro self ctx
    unfold set_abi_typedefs
    split
    · exact ⟨self.typedefs, rfl, fun _ h => by cases h⟩
    · split
      · split
        · exact ⟨self.typedefs, rfl, fun _ h => by cases h⟩
        · split
          · exact ⟨self.typedefs, rfl, fun _ h => by cases h⟩
          · rename_i ctx2 _ _
            obtain ⟨tds, h1, h2⟩ :=
              ih { self with typedefs := map_set self.typedefs td.new_type_name td.type } ctx2
            exact ⟨tds, h1, fun c h => h2 c h⟩
      · exact ⟨self.typedefs, rfl, fun _ h => by cases h⟩

theorem set_abi_typedefs_never_error (fuel : Nat) : ∀ (l : List type_def) (self : abi_serializer)
    (ctx : abi_traverse_context) (e : Err), ctx.never_expires →
    (set_abi_typedefs fuel self l ctx).2 = .error e →
    e = .fuel_exhausted ∨ e = .invalid_type_inside_abi ∨ e = .duplicate_abi_def_exception := by
  intro l
  induction l with
  | nil => intro self ctx e _ h; simp [set_abi_typedefs] at h
  | cons td rest ih =>
    intro self ctx e hn h
    unfold set_abi_typedefs at h
    split at h
    · rename_i e1 h1
      cases h
      exact Or.inl (is_type_never_error _ _ _ _ _ hn h1)
    · rename_i known ctx1 h1
      have hn1 := never_expires_of_same_clock (is_type_same_clock _ _ _ _ _ _ h1) hn
      split at h
      · split at h
        · rename_i e1 h2
          cases h
          exact Or.inl (is_type_never_error _ _ _ _ _ hn1 h2)
        · rename_i ex ctx2 h2
          have hn2 := never_expires_of_same_clock (is_type_same_clock _ _ _ _ _ _ h2) hn1
          split at h
          · cases h; exact Or.inr (Or.inr rfl)
          · exact ih _ _ _ hn2 h
      · cases h; exact Or.inr (Or.inl rfl)

/-- When `set_abi` returns normally, no two entries of a sequence of the document share a
name. -/
theorem set_abi_ok_no_duplicates (self : abi_serializer) (fuel : Nat) (abi : abi_def)
    (max_serialization_time : Nat) (clock : Nat → Nat)
    (h : (set_abi self fuel abi max_serialization_time clock).2 = .ok ()) :
    ¬ has_duplicate_names abi := by
  unfold set_abi at h
  split at h
  swap
  · cases h
  · simp only at h
    split at h
    · cases h
    · rename_i self3 ctx1 h3
      obtain ⟨tds, hst, hok⟩ := set_abi_typedefs_state fuel abi.types
        (set_abi_structs { self with typedefs := [], structs := [], actions := [], tables := [] }
          abi.structs) (abi_traverse_context.create clock 0 max_serialization_time)
      rw [h3] at hst hok
      simp only at hst
      have htds := hok ctx1 rfl
      subst hst
      simp only [set_abi_structs_eq, set_abi_actions_eq, set_abi_tables_eq,
        set_abi_error_messages_eq] at h htds
      split at h
      · cases h
      · rename_i hl1
        split at h
        · cases h
        · rename_i hl2
          split at h
          · cases h
          · rename_i hl3
            split at h
            · cases h
            · rename_i hl4
              simp only [ne_eq, Decidable.not_not] at hl1 hl2 hl3 hl4
              rw [htds] at hl1
              have n1 := (foldl_map_set_nodup type_def.new_type_name type_def.type abi.types []
                (by simp [map_sorted]) (by simpa using hl1)).1
              have n2 := (foldl_map_set_nodup struct_def.name id abi.structs []
                (by simp [map_sorted]) (by simpa using hl2)).1
              have n3 := (foldl_map_set_nodup action_def.name action_def.type abi.actions []
                (by simp [map_sorted]) (by simpa using hl3)).1
              have n4 := (foldl_map_set_nodup table_def.name table_def.type abi.tables []
                (by simp [map_sorted]) (by simpa using hl4)).1
              intro hd
              rcases hd with hd | hd | hd | hd
              · exact hd n1
              · exact hd n2
              · exact hd n3
              · exact hd n4

/-- When a sequence of the document holds two entries with the same name, `set_abi`
raises; with a supported version the kind is one of four, and it is not the deadline
kind when every reading of the clock is before the deadline. -/
theorem set_abi_duplicates_rejected (self : abi_serializer) (fuel : Nat) (abi : abi_def)
    (max_serialization_time : Nat) (clock : Nat → Nat) (hdup : has_duplicate_names abi) :
    ∃ e, (set_abi self fuel abi max_serialization_time clock).2 = .error e ∧
      (starts_with abi.version "wasm::abi/1." = true →
        (e = .duplicate_abi_def_exception ∨ e = .invalid_type_inside_abi ∨
          e = .abi_serialization_deadline_exception ∨ e = .fuel_exhausted) ∧
        ((∀ n, clock n < clock 0 + max_serialization_time) →
          e ≠ .abi_serialization_deadline_exception)) := by
  cases hres : (set_abi self fuel abi max_serialization_time clock).2 with
  | ok u =>
    cases u
    exact absurd hdup (set_abi_ok_no_duplicates self fuel abi max_serialization_time clock hres)
  | error e =>
    refine ⟨e, rfl, ?_⟩
    intro hv
    unfold set_abi at hres
    simp only [hv, if_true] at hres
    split at hres
    · rename_i self3 e1 h3
      simp only at hres
      cases hres
      have h4 := set_abi_typedefs_error fuel _ _ _ e (by rw [h3])
      refine ⟨?_, ?_⟩
      · rcases h4 with h4 | h4 | h4 | h4
        · exact Or.inr (Or.inr (Or.inl h4))
        · exact Or.inr (Or.inr (Or.inr h4))
        · exact Or.inr (Or.inl h4)
        · exact Or.inl h4
      · intro hclock
        have h5 := set_abi_typedefs_never_error fuel _ _ _ e
          (create_never_expires clock 0 max_serialization_time hclock) (by rw [h3])
        rcases h5 with h5 | h5 | h5 <;> subst h5 <;> simp
    · rename_i self3 ctx1 h3
      split at hres
      · simp only at hres; cases hres; simp
      · split at hres
        · simp only at hres; cases hres; simp
        · split at hres
          · simp only at hres; cases hres; simp
          · split at hres
            · simp only at hres; cases hres; simp
            · rename_i hl1 hl2 hl3 hl4
              exfalso
              -- every size check passed, so the names are pairwise distinct
              have hok : ¬ has_duplicate_names abi := by
                obtain ⟨tds, hst, hok⟩ := set_abi_typedefs_state fuel abi.types
                  (set_abi_structs
                    { self with typedefs := [], structs := [], actions := [], tables := [] }
                    abi.structs) (abi_traverse_context.create clock 0 max_serialization_time)
                rw [h3] at hst hok
                simp only at hst
                have htds := hok ctx1 rfl
                subst hst
                simp only [set_abi_structs_eq, set_abi_actions_eq, set_abi_tables_eq,
                  set_abi_error_messages_eq, ne_eq, Decidable.not_not] at hl1 hl2 hl3 hl4 htds
                rw [htds] at hl1
                have n1 := (foldl_map_set_nodup type_def.new_type_name type_def.type abi.types []
                  (by simp [map_sorted]) (by simpa using hl1)).1
                have n2 := (foldl_map_set_nodup struct_def.name id abi.structs []
                  (by simp [map_sorted]) (by simpa using hl2)).1
                have n3 := (foldl_map_set_nodup action_def.name action_def.type abi.actions []
                  (by simp [map_sorted]) (by simpa using hl3)).1
                have n4 := (foldl_map_set_nodup table_def.name table_def.type abi.tables []
                  (by simp [map_sorted]) (by simpa using hl4)).1
                intro hd
                rcases hd with hd | hd | hd | hd
                · exact hd n1
                · exact hd n2
                · exact hd n3
                · exact hd n4
              exact hok hdup

/-- On a document with a duplicate name and a supported version, `set_abi` fails with
duplicate-abi-def, or with the error of its typedef loop. -/
theorem set_abi_duplicates_kind (self : abi_serializer) (fuel : Nat) (abi : abi_def)
    (max_serialization_time : Nat) (clock : Nat → Nat) (hdup : has_duplicate_names abi)
    (hv : starts_with abi.version "wasm::abi/1." = true) :
    (set_abi self fuel abi max_serialization_time clock).2 =
      .error .duplicate_abi_def_exception ∨
    ∃ e, (set_abi_typedefs fuel
        (set_abi_structs { self with typedefs := [], structs := [], actions := [], tables := [] }
          abi.structs)
        abi.types (abi_traverse_context.create clock 0 max_serialization_time)).2 = .error e ∧
      (set_abi self fuel abi max_serialization_time clock).2 = .error e := by
  cases hres : (set_abi self fuel abi max_serialization_time clock).2 with
  | ok u =>
    cases u
    exact absurd hdup (set_abi_ok_no_duplicates self fuel abi max_serialization_time clock hres)
  | error e =>
    unfold set_abi at hres
    simp only [hv, if_true] at hres
    split at hres
    · rename_i self3 e1 h3
      simp only at hres
      cases hres
      exact Or.inr ⟨e, by rw [h3], rfl⟩
    · rename_i self3 ctx1 h3
      left
      split at hres
      · simp only at hres; cases hres; rfl
      · split at hres
        · simp only at hres; cases hres; rfl
        · split at hres
          · simp only at hres; cases hres; rfl
          · split at hres
            · simp only at hres; cases hres; rfl
            · rename_i hl1 hl2 hl3 hl4
              exfalso
              have hok : ¬ has_duplicate_names abi := by
                obtain ⟨tds, hst, hok⟩ := set_abi_typedefs_state fuel abi.types
                  (set_abi_structs
                    { self with typedefs := [], structs := [], actions := [], tables := [] }
                    abi.structs) (abi_traverse_context.create clock 0 max_serialization_time)
                rw [h3] at hst hok
                simp only at hst
                have htds := hok ctx1 rfl
                subst hst
                simp only [set_abi_structs_eq, set_abi_actions_eq, set_abi_tables_eq,
                  set_abi_error_messages_eq, ne_eq, Decidable.not_not] at hl1 hl2 hl3 hl4 htds
                rw [htds] at hl1
                have n1 := (foldl_map_set_nodup type_def.new_type_name type_def.type abi.types []
                  (by simp [map_sorted]) (by simpa using hl1)).1
                have n2 := (foldl_map_set_nodup struct_def.name id abi.structs []
                  (by simp [map_sorted]) (by simpa using hl2)).1
                have n3 := (foldl_map_set_nodup action_def.name action_def.type abi.actions []
                  (by simp [map_sorted]) (by simpa using hl3)).1
                have n4 := (foldl_map_set_nodup table_def.name table_def.type abi.tables []
                  (by simp [map_sorted]) (by simpa using hl4)).1
                intro hd
                rcases hd with hd | hd | hd | hd
                · exact hd n1
                · exact hd n2
                · exact hd n3
                · exact hd n4
              exact hok hdup

/-! ## Typedef cycles -/

theorem is_type_known (self : abi_serializer) (fuel : Nat) :
    ∀ (t : type_name) (ctx ctx1 : abi_traverse_context) (b : Bool),
      _is_type self fuel t ctx = .ok (b, ctx1) → known_type self fuel t = some b := by
  induction fuel with
  | zero => intro t ctx ctx1 b h; simp [_is_type] at h
  | succ n ih =>
    intro t ctx ctx1 b h
    unfold _is_type at h
    unfold known_type
    cases hd : ctx.check_deadline with
    | error e => rw [hd] at h; cases h
    | ok ctx0 =>
      rw [hd] at h
      simp only at h ⊢
      by_cases hb : (map_find self.built_in_types (fundamental_type t)).isSome = true
      · simp only [hb, if_true] at h ⊢
        cases h; rfl
      · simp only [hb, if_false] at h ⊢
        cases h1 : map_find self.typedefs (fundamental_type t) with
        | some t1 =>
          rw [h1] at h
          exact ih _ _ _ _ h
        | none =>
          rw [h1] at h
          simp only at h ⊢
          by_cases hs : (map_find self.structs (fundamental_type t)).isSome = true
          · simp only [hs, if_true] at h ⊢
            cases h; rfl
          · simp only [hs, if_false] at h ⊢
            cases h
            simp at hs; simp [hs]

theorem known_type_mono (self : abi_serializer) (fuel : Nat) :
    ∀ (t : type_name) (b : Bool), known_type self fuel t = some b →
      known_type self (fuel + 1) t = some b := by
  induction fuel with
  | zero => intro t b h; simp [known_type] at h
  | succ n ih =>
    intro t b h
    unfold known_type at h ⊢
    simp only at h ⊢
    split
    · rename_i hb; simpa [hb] using h
    · rename_i hb
      simp only [hb, if_false] at h
      split
      · rename_i t1 h1
        simp only [h1] at h
        exact ih _ _ h
      · rename_i h1
        simpa [h1] using h

theorem known_type_mono_le (self : abi_serializer) {f1 f2 : Nat} (hle : f1 ≤ f2) (t : type_name)
    (b : Bool) (h : known_type self f1 t = some b) : known_type self f2 t = some b := by
  induction hle with
  | refl => exact h
  | step _ ih => exact known_type_mono self _ t b ih

theorem known_type_det (self : abi_serializer) {f1 f2 : Nat} {t : type_name} {b1 b2 : Bool}
    (h1 : known_type self f1 t = some b1) (h2 : known_type self f2 t = some b2) : b1 = b2 := by
  have h3 := known_type_mono_le self (Nat.le_max_left f1 f2) t b1 h1
  have h4 := known_type_mono_le self (Nat.le_max_right f1 f2) t b2 h2
  rw [h3] at h4
  cases h4
  rfl

/-- Adding a typedef that aliases a type not found unknown does not make any type
unknown. -/
theorem known_type_insert (self : abi_serializer) (k v : type_name)
    (hv : ∀ f, known_type self f v ≠ some false) (fuel : Nat) :
    ∀ (t : type_name),
      known_type { self with typedefs := map_set self.typedefs k v } fuel t = some false →
      ∃ f, known_type self f t = some false := by
  induction fuel with
  | zero => intro t h; simp [known_type] at h
  | succ n ih =>
    intro t h
    unfold known_type at h
    simp only at h
    split at h
    · cases h
    · rename_i hb
      rw [map_find_set] at h
      by_cases hkt : k = fundamental_type t
      · rw [if_pos hkt] at h
        obtain ⟨f, hf⟩ := ih _ h
        exact absurd hf (hv f)
      · rw [if_neg hkt] at h
        split at h
        · rename_i t1 h1
          obtain ⟨f, hf⟩ := ih _ h
          refine ⟨f + 1, ?_⟩
          unfold known_type
          simp only [hb, if_false, h1]
          exact hf
        · rename_i h1
          refine ⟨1, ?_⟩
          unfold known_type
          simp only [hb, if_false, h1]
          exact h

/-- In a typedef loop that completes, no typedef takes a new name that was not found
unknown before the loop. -/
theorem set_abi_typedefs_fresh_name (fuel : Nat) :
    ∀ (l : List type_def) (self : abi_serializer) (ctx ctx1 : abi_traverse_context) (N : type_name),
      (set_abi_typedefs fuel self l ctx).2 = .ok ctx1 →
      (∀ f, known_type self f N ≠ some false) →
      ∀ s ∈ l, s.new_type_name ≠ N := by
  intro l
  induction l with
  | nil => intro self ctx ctx1 N _ _ s hs; simp at hs
  | cons td rest ih =>
    intro self ctx ctx1 N hok hN s hs
    unfold set_abi_typedefs at hok
    split at hok
    · cases hok
    · rename_i known ctx2 h1
      split at hok
      swap
      · cases hok
      · rename_i hknown
        split at hok
        · cases hok
        · rename_i ex ctx3 h2
          split at hok
          · cases hok
          · rename_i hex
            simp only [Bool.not_eq_true] at hex
            subst hknown
            subst hex
            have hk1 := is_type_known _ _ _ _ _ _ h1
            have hk2 := is_type_known _ _ _ _ _ _ h2
            rcases List.mem_cons.mp hs with hs | hs
            · subst hs
              intro heq
              exact hN fuel (heq ▸ hk2)
            · refine ih { self with typedefs := map_set self.typedefs td.new_type_name td.type }
                ctx3 ctx1 N hok ?_ s hs
              intro f hf
              obtain ⟨f2, hf2⟩ := known_type_insert self td.new_type_name td.type
                (fun f3 h3 => by have := known_type_det self hk1 h3; cases this) f N hf
              exact hN f2 hf2

/-- Every member of a cycle aliases the new name of a member of the cycle. -/
theorem chain_successor {α : Type} (R : α → α → Prop) :
    ∀ (l : List α) (a b : α), List.Chain R a (l ++ [b]) →
      ∀ x ∈ a :: l, ∃ y ∈ l ++ [b], R x y := by
  intro l
  induction l with
  | nil =>
    intro a b h x hx
    simp only [List.nil_append, List.chain_cons] at h
    simp only [List.mem_singleton] at hx
    subst hx
    exact ⟨b, by simp, h.1⟩
  | cons c rest ih =>
    intro a b h x hx
    simp only [List.cons_append, List.chain_cons] at h
    rcases List.mem_cons.mp hx with hx | hx
    · subst hx
      exact ⟨c, by simp, h.1⟩
    · obtain ⟨y, hy, hr⟩ := ih c b h.2 x hx
      exact ⟨y, by simp only [List.cons_append, List.mem_cons]; exact Or.inr hy, hr⟩

/-- A typedef loop that completes has processed no set of typedefs closed under
"aliases the new name of". -/
theorem set_abi_typedefs_no_cycle (fuel : Nat) :
    ∀ (l : List type_def) (self : abi_serializer) (ctx ctx1 : abi_traverse_context)
      (c : List type_def),
      (set_abi_typedefs fuel self l ctx).2 = .ok ctx1 →
      (∀ x ∈ c, x ∈ l) →
      (∀ x ∈ c, ∃ y ∈ c, x.type = y.new_type_name) →
      c = [] := by
  intro l
  induction l with
  | nil =>
    intro self ctx ctx1 c _ hsub _
    cases c with
    | nil => rfl
    | cons x xs => exact absurd (hsub x (by simp)) (by simp)
  | cons td rest ih =>
    intro self ctx ctx1 c hok hsub hsucc
    by_cases hmem : td ∈ c
    · -- the head is on the cycle: the typedef it aliases comes at or after it
      exfalso
      obtain ⟨y, hy, hty⟩ := hsucc td hmem
      have hyl := hsub y hy
      have hok2 := hok
      unfold set_abi_typedefs at hok
      split at hok
      · cases hok
      · rename_i known ctx2 h1
        split at hok
        swap
        · cases hok
        · rename_i hknown
          subst hknown
          have hk1 := is_type_known _ _ _ _ _ _ h1
          exact set_abi_typedefs_fresh_name fuel (td :: rest) self ctx ctx1 td.type hok2
            (fun f3 h3 => by have := known_type_det self hk1 h3; cases this) y hyl hty.symm
    · have hsub2 : ∀ x ∈ c, x ∈ rest := by
        intro x hx
        rcases List.mem_cons.mp (hsub x hx) with h | h
        · subst h; exact absurd hx hmem
        · exact h
      unfold set_abi_typedefs at hok
      split at hok
      · cases hok
      · split at hok
        swap
        · cases hok
        · split at hok
          · cases hok
          · rename_i ctx3 _
            split at hok
            · cases hok
            · exact ih { self with typedefs := map_set self.typedefs td.new_type_name td.type }
                ctx3 ctx1 c hok hsub2 hsucc

/-- C4 (counterexample). The document whose only typedef aliases itself (`a = a`) is
rejected with invalid-type-inside-abi, not abi-circular-def; so is the cycle `a = b`,
`b = a`; and the cycle through a struct name, `s = t`, `t = s` with the struct `t`, is
rejected with duplicate-abi-def. -/
theorem C4_counterexample :
    raised (load (abi_of [⟨"a", "a"⟩] [])) = some .invalid_type_inside_abi ∧
    raised (load (abi_of [⟨"a", "b"⟩, ⟨"b", "a"⟩] [])) = some .invalid_type_inside_abi ∧
    raised (load (abi_of [⟨"s", "t"⟩, ⟨"t", "s"⟩] [⟨"t", "", []⟩])) =
      some .duplicate_abi_def_exception := by
  decide

/-- C4 (amended). Typedef cycles are rejected, by the in-order checks of the typedef loop of
`set_abi`: for every document with a supported version whose typedef sequence contains a
cycle of aliases, `set_abi` raises, and the kind is invalid-type-inside-abi or
duplicate-abi-def (or abi-serialization-deadline when the deadline expires first, or the
walk of `_is_type` runs out of fuel); it is never abi-circular-def. -/
theorem C4_typedef_cycle_rejected (self : abi_serializer) (fuel : Nat) (abi : abi_def)
    (max_serialization_time : Nat) (clock : Nat → Nat)
    (hv : starts_with abi.version "wasm::abi/1." = true) (hc : has_typedef_cycle abi) :
    ∃ e, (set_abi self fuel abi max_serialization_time clock).2 = .error e ∧
      (e = .invalid_type_inside_abi ∨ e = .duplicate_abi_def_exception ∨
        e = .abi_serialization_deadline_exception ∨ e = .fuel_exhausted) := by
  obtain ⟨td, rest, hsub, hchain⟩ := hc
  have hsucc : ∀ x ∈ td :: rest, ∃ y ∈ td :: rest, x.type = y.new_type_name := by
    intro x hx
    obtain ⟨y, hy, hr⟩ := chain_successor _ rest td td hchain x hx
    refine ⟨y, ?_, hr⟩
    rcases List.mem_append.mp hy with h | h
    · exact List.mem_cons_of_mem _ h
    · simp only [List.mem_singleton] at h
      subst h
      simp
  unfold set_abi
  simp only [hv, if_true]
  split
  · rename_i self3 e1 h3
    refine ⟨e1, rfl, ?_⟩
    rcases set_abi_typedefs_error fuel _ _ _ e1 (by rw [h3]) with h4 | h4 | h4 | h4
    · exact Or.inr (Or.inr (Or.inl h4))
    · exact Or.inr (Or.inr (Or.inr h4))
    · exact Or.inl h4
    · exact Or.inr (Or.inl h4)
  · rename_i self3 ctx1 h3
    exfalso
    have := set_abi_typedefs_no_cycle fuel abi.types _ _ ctx1 (td :: rest) (by rw [h3]) hsub hsucc
    cases this

/-- C4 (witness). The amended claim at the document whose only typedef aliases itself. -/
theorem C4_typedef_cycle_rejected_witness :
    ∃ e, (set_abi fresh_serializer 32 (abi_of [⟨"a", "a"⟩] []) 1 still_clock).2 = .error e ∧
      (e = .invalid_type_inside_abi ∨ e = .duplicate_abi_def_exception ∨
        e = .abi_serialization_deadline_exception ∨ e = .fuel_exhausted) :=
  C4_typedef_cycle_rejected fresh_serializer 32 (abi_of [⟨"a", "a"⟩] []) 1 still_clock
    (by decide) ⟨⟨"a", "a"⟩, [], by simp [abi_of], by simp⟩

/-! ## The base chain -/

theorem map_find_mem {V : Type} (m : List (String × V)) (k : String) (v : V)
    (h : map_find m k = some v) : ∃ k1, (k1, v) ∈ m := by
  induction m with
  | nil => simp [map_find] at h
  | cons p rest ih =>
    obtain ⟨k1, v1⟩ := p
    unfold map_find at h
    split at h
    · cases h; exact ⟨k1, by simp⟩
    · obtain ⟨k2, hk2⟩ := ih h
      exact ⟨k2, List.mem_cons_of_mem _ hk2⟩

theorem get_struct_mem {self : abi_serializer} {t : type_name} {b : struct_def}
    (h : get_struct self t = .ok b) : ∃ k, (k, b) ∈ self.structs := by
  unfold get_struct at h
  split at h
  · cases h
  · rename_i st hst
    cases h
    exact map_find_mem _ _ _ hst

theorem filter_length_lt {α : Type} (p q : α → Bool) (x : α) :
    ∀ (l : List α), (∀ a, q a = true → p a = true) → x ∈ l → p x = true → q x = false →
      (l.filter q).length < (l.filter p).length := by
  intro l
  induction l with
  | nil => intro _ hx; simp at hx
  | cons a rest ih =>
    intro hpq hx hpx hqx
    have hle : (rest.filter q).length ≤ (rest.filter p).length := by
      clear ih hx
      induction rest with
      | nil => simp
      | cons b r ih2 =>
        simp only [List.filter_cons]
        cases hqb : q b
        · simp only [Bool.false_eq_true, if_false]
          split
          · simp only [List.length_cons]; omega
          · exact ih2
        · simp only [hpq b hqb, if_true, List.length_cons]
          omega
    simp only [List.filter_cons]
    rcases List.mem_cons.mp hx with hx | hx
    · subst hx
      simp only [hpx, hqx, if_true, Bool.false_eq_true, if_false, List.length_cons]
      omega
    · have h1 := ih hpq hx hpx hqx
      cases hqa : q a
      · simp only [Bool.false_eq_true, if_false]
        split
        · simp only [List.length_cons]; omega
        · exact h1
      · simp only [hpq a hqa, if_true, List.length_cons]
        omega

theorem names_unseen_lt (self : abi_serializer) (seen : List type_name) (b : struct_def)
    (k : type_name) (hmem : (k, b) ∈ self.structs) (hb : b.name ∉ seen) :
    names_unseen self (seen ++ [b.name]) < names_unseen self seen := by
  unfold names_unseen
  apply filter_length_lt _ _ b.name
  · intro a ha
    simp only [decide_eq_true_eq, List.mem_append, List.mem_singleton, not_or] at ha ⊢
    exact ha.1
  · exact List.mem_map.mpr ⟨(k, b), hmem, rfl⟩
  · simpa using hb
  · simp

theorem names_unseen_le (self : abi_serializer) (seen : List type_name) :
    names_unseen self seen ≤ self.structs.length := by
  unfold names_unseen
  calc ((self.structs.map (fun p => p.2.name)).filter (fun n => decide (n ∉ seen))).length
      ≤ (self.structs.map (fun p => p.2.name)).length := List.length_filter_le _ _
    _ = self.structs.length := by simp

/-- The walk along the base names ends before the fuel does, when the fuel exceeds the
number of struct names not yet seen. -/
theorem validate_base_walk_terminates (self : abi_serializer) (fuel : Nat) :
    ∀ (current : struct_def) (seen : List type_name) (ctx : abi_traverse_context),
      names_unseen self seen < fuel →
      validate_base_walk self fuel current seen ctx ≠ .error .fuel_exhausted := by
  induction fuel with
  | zero => intro current seen ctx h; omega
  | succ n ih =>
    intro current seen ctx hfuel h
    unfold validate_base_walk at h
    split at h
    · split at h
      · rename_i e1 h1
        cases h
        have := check_deadline_error h1
        cases this
      · split at h
        · rename_i e1 h1
          cases h
          have := get_struct_error h1
          cases this
        · rename_i base hbase
          split at h
          · cases h
          · rename_i hnot
            obtain ⟨k, hk⟩ := get_struct_mem hbase
            have hlt := names_unseen_lt self seen base k hk hnot
            exact ih base (seen ++ [base.name]) _ (by omega) h
    · cases h

theorem validate_base_walk_same_clock (self : abi_serializer) (fuel : Nat) :
    ∀ (current : struct_def) (seen : List type_name) (ctx ctx1 : abi_traverse_context),
      validate_base_walk self fuel current seen ctx = .ok ctx1 → same_clock ctx ctx1 := by
  induction fuel with
  | zero =>
    intro current seen ctx ctx1 h
    unfold validate_base_walk at h
    split at h
    · cases h
    · cases h; exact same_clock_refl _
  | succ n ih =>
    intro current seen ctx ctx1 h
    unfold validate_base_walk at h
    split at h
    · split at h
      · cases h
      · rename_i ctx0 h0
        split at h
        · cases h
        · split at h
          · cases h
          · exact same_clock_trans (check_deadline_same_clock h0) (ih _ _ _ _ h)
    · cases h; exact same_clock_refl _

/-- A walk that returns normally has followed a finite chain. -/
theorem validate_base_walk_ok_ends (self : abi_serializer) (fuel : Nat) :
    ∀ (current : struct_def) (seen : List type_name) (ctx ctx1 : abi_traverse_context),
      validate_base_walk self fuel current seen ctx = .ok ctx1 → base_chain_ends self current := by
  induction fuel with
  | zero =>
    intro current seen ctx ctx1 h
    unfold validate_base_walk at h
    split at h
    · cases h
    · rename_i hb
      exact .root current (by simpa using hb)
  | succ n ih =>
    intro current seen ctx ctx1 h
    unfold validate_base_walk at h
    split at h
    · rename_i hb
      split at h
      · cases h
      · split at h
        · cases h
        · rename_i base hbase
          split at h
          · cases h
          · exact .step current base hb hbase (ih _ _ _ _ h)
    · rename_i hb
      exact .root current (by simpa using hb)

/-- A walk along a chain that returns to a name already seen does not return normally. -/
theorem validate_base_walk_repeats (self : abi_serializer) {current : struct_def}
    {seen : List type_name} (hr : base_chain_repeats self current seen) :
    ∀ (fuel : Nat) (ctx ctx1 : abi_traverse_context),
      validate_base_walk self fuel current seen ctx ≠ .ok ctx1 := by
  induction hr with
  | here current base seen hb hget hmem =>
    intro fuel ctx ctx1 h
    cases fuel with
    | zero => simp [validate_base_walk, hb] at h
    | succ n =>
      unfold validate_base_walk at h
      simp only [hb, ne_eq, not_false_eq_true, if_true, hget, hmem] at h
      split at h <;> cases h
  | next current base seen hb hget hmem _ ih =>
    intro fuel ctx ctx1 h
    cases fuel with
    | zero => simp [validate_base_walk, hb] at h
    | succ n =>
      unfold validate_base_walk at h
      simp only [hb, ne_eq, not_false_eq_true, if_true, hget, hmem, if_false] at h
      split at h
      · cases h
      · exact ih _ _ _ h

/-- The outcome of the walk from a struct of the map, in time and with enough fuel, when
every base exists: it returns normally or raises abi-circular-def. -/
theorem validate_base_walk_outcome (self : abi_serializer) (hall : all_bases_exist self)
    (fuel : Nat) :
    ∀ (current : struct_def) (seen : List type_name) (ctx : abi_traverse_context),
      (∃ k, (k, current) ∈ self.structs) → ctx.never_expires → names_unseen self seen < fuel →
      (∃ ctx1, validate_base_walk self fuel current seen ctx = .ok ctx1) ∨
        validate_base_walk self fuel current seen ctx = .error .abi_circular_def_exception := by
  induction fuel with
  | zero => intro current seen ctx _ _ h; omega
  | succ n ih =>
    intro current seen ctx hcur hn hfuel
    unfold validate_base_walk
    by_cases hb : current.base ≠ ""
    · rw [if_pos hb, check_deadline_never hn]
      obtain ⟨k, hk⟩ := hcur
      obtain ⟨base, hbase⟩ := hall (k, current) hk hb
      simp only at hbase
      simp only [hbase]
      by_cases hmem : base.name ∈ seen
      · rw [if_pos hmem]
        exact Or.inr rfl
      · rw [if_neg hmem]
        obtain ⟨k2, hk2⟩ := get_struct_mem hbase
        have hlt := names_unseen_lt self seen base k2 hk2 hmem
        exact ih base (seen ++ [base.name]) _ ⟨k2, hk2⟩ (fun m => hn m) (by omega)
    · rw [if_neg hb]
      exact Or.inl ⟨ctx, rfl⟩

theorem known_is_type (self : abi_serializer) (fuel : Nat) :
    ∀ (t : type_name) (ctx : abi_traverse_context) (b : Bool), ctx.never_expires →
      known_type self fuel t = some b →
      ∃ ctx1, _is_type self fuel t ctx = .ok (b, ctx1) ∧ same_clock ctx ctx1 := by
  induction fuel with
  | zero => intro t ctx b _ h; simp [known_type] at h
  | succ n ih =>
    intro t ctx b hn h
    unfold known_type at h
    unfold _is_type
    rw [check_deadline_never hn]
    simp only at h ⊢
    by_cases hb : (map_find self.built_in_types (fundamental_type t)).isSome = true
    · simp only [hb, if_true] at h ⊢
      cases h
      exact ⟨_, rfl, ⟨rfl, rfl⟩⟩
    · simp only [hb, if_false] at h ⊢
      cases h1 : map_find self.typedefs (fundamental_type t) with
      | some t1 =>
        rw [h1] at h
        simp only at h ⊢
        obtain ⟨ctx1, h2, h3⟩ := ih t1 { ctx with reads := ctx.reads + 1 } b (fun m => hn m) h
        exact ⟨ctx1, h2, ⟨h3.1, h3.2⟩⟩
      | none =>
        rw [h1] at h
        simp only at h ⊢
        cases h
        by_cases hs : (map_find self.structs (fundamental_type t)).isSome = true
        · simp only [hs, if_true]
          exact ⟨_, rfl, ⟨rfl, rfl⟩⟩
        · simp only [Bool.not_eq_true] at hs
          simp only [hs, Bool.false_eq_true, if_false]
          exact ⟨_, rfl, ⟨rfl, rfl⟩⟩

theorem validate_typedef_walk_same_clock (typedefs : List (type_name × type_name)) (fuel : Nat) :
    ∀ (itr : Option type_name) (seen : List type_name) (ctx ctx1 : abi_traverse_context),
      validate_typedef_walk typedefs fuel itr seen ctx = .ok ctx1 → same_clock ctx ctx1 := by
  induction fuel with
  | zero =>
    intro itr seen ctx ctx1 h
    cases itr with
    | none => simp only [validate_typedef_walk, Except.ok.injEq] at h; subst h; exact same_clock_refl _
    | some t => simp [validate_typedef_walk] at h
  | succ n ih =>
    intro itr seen ctx ctx1 h
    cases itr with
    | none => simp only [validate_typedef_walk, Except.ok.injEq] at h; subst h; exact same_clock_refl _
    | some t =>
      unfold validate_typedef_walk at h
      split at h
      · cases h
      · rename_i ctx0 h0
        split at h
        · cases h
        · exact same_clock_trans (check_deadline_same_clock h0) (ih _ _ _ _ h)

theorem validate_typedef_chains_same_clock (self : abi_serializer) (fuel : Nat) :
    ∀ (l : List (type_name × type_name)) (ctx ctx1 : abi_traverse_context),
      validate_typedef_chains self fuel l ctx = .ok ctx1 → same_clock ctx ctx1 := by
  intro l
  induction l with
  | nil =>
    intro ctx ctx1 h
    simp only [validate_typedef_chains, Except.ok.injEq] at h
    subst h
    exact same_clock_refl _
  | cons t rest ih =>
    intro ctx ctx1 h
    unfold validate_typedef_chains at h
    split at h
    · cases h
    · rename_i ctx0 h0
      exact same_clock_trans (validate_typedef_walk_same_clock _ _ _ _ _ _ h0) (ih _ _ h)

theorem assert_is_type_same_clock {self : abi_serializer} {fuel : Nat} {t : type_name}
    {ctx ctx1 : abi_traverse_context} (h : assert_is_type self fuel t ctx = .ok ctx1) :
    same_clock ctx ctx1 := by
  unfold assert_is_type at h
  split at h
  · cases h
  · rename_i known ctx0 h0
    split at h
    · cases h
      exact is_type_same_clock _ _ _ _ _ _ h0
    · cases h

theorem validate_typedef_targets_same_clock (self : abi_serializer) (fuel : Nat) :
    ∀ (l : List (type_name × type_name)) (ctx ctx1 : abi_traverse_context),
      validate_typedef_targets self fuel l ctx = .ok ctx1 → same_clock ctx ctx1 := by
  intro l
  induction l with
  | nil =>
    intro ctx ctx1 h
    simp only [validate_typedef_targets, Except.ok.injEq] at h
    subst h
    exact same_clock_refl _
  | cons t rest ih =>
    intro ctx ctx1 h
    unfold validate_typedef_targets at h
    split at h
    · cases h
    · rename_i ctx0 h0
      exact same_clock_trans (assert_is_type_same_clock h0) (ih _ _ h)

theorem validate_fields_ok (self : abi_serializer) (fuel : Nat) :
    ∀ (l : List field_def) (ctx : abi_traverse_context), ctx.never_expires →
      (∀ f ∈ l, known_type self fuel (_remove_bin_extension f.type) = some true) →
      ∃ ctx1, validate_fields self fuel l ctx = .ok ctx1 ∧ same_clock ctx ctx1 := by
  intro l
  induction l with
  | nil => intro ctx _ _; exact ⟨ctx, rfl, same_clock_refl _⟩
  | cons f rest ih =>
    intro ctx hn hk
    unfold validate_fields
    rw [check_deadline_never hn]
    obtain ⟨ctx1, h1, h2⟩ := known_is_type self fuel (_remove_bin_extension f.type)
      { ctx with reads := ctx.reads + 1 } true (fun m => hn m) (hk f (by simp))
    simp only [WASM_CAPTURE_AND_RETHROW, assert_is_type, h1, if_true]
    have hn1 : ctx1.never_expires := never_expires_of_same_clock h2 (fun m => hn m)
    obtain ⟨ctx2, h3, h4⟩ := ih ctx1 hn1 (fun g hg => hk g (List.mem_cons_of_mem _ hg))
    exact ⟨ctx2, h3, same_clock_trans ⟨h2.1, h2.2⟩ h4⟩

/-- The outcome of the check of one struct of the map, in time and with enough fuel, when
every base exists and every field type is known. -/
theorem validate_struct_outcome (self : abi_serializer) (fuel : Nat) (hall : all_bases_exist self)
    (hfields : all_fields_known self fuel) (hfuel : self.structs.length < fuel)
    (p : type_name × struct_def) (hp : p ∈ self.structs) (ctx : abi_traverse_context)
    (hn : ctx.never_expires) :
    ((∃ ctx1, validate_struct self fuel p.2 ctx = .ok ctx1 ∧ same_clock ctx ctx1) ∧
        ¬ base_chain_repeats self p.2 [p.2.name]) ∨
      validate_struct self fuel p.2 ctx = .error .abi_circular_def_exception := by
  unfold validate_struct WASM_CAPTURE_AND_RETHROW
  by_cases hb : p.2.base ≠ ""
  · rw [if_pos hb]
    have hlt : names_unseen self [p.2.name] < fuel :=
      Nat.lt_of_le_of_lt (names_unseen_le self _) hfuel
    rcases validate_base_walk_outcome self hall fuel p.2 [p.2.name] ctx ⟨p.1, hp⟩ hn hlt with
      ⟨ctx1, h1⟩ | h1
    · rw [h1]
      simp only
      have hsc := validate_base_walk_same_clock _ _ _ _ _ _ h1
      obtain ⟨ctx2, h2, h3⟩ := validate_fields_ok self fuel p.2.fields ctx1
        (never_expires_of_same_clock hsc hn) (hfields p hp)
      refine Or.inl ⟨⟨ctx2, h2, same_clock_trans hsc h3⟩, ?_⟩
      intro hr
      exact validate_base_walk_repeats self hr fuel ctx ctx1 h1
    · rw [h1]
      exact Or.inr rfl
  · rw [if_neg hb]
    simp only
    obtain ⟨ctx2, h2, h3⟩ := validate_fields_ok self fuel p.2.fields ctx hn (hfields p hp)
    refine Or.inl ⟨⟨ctx2, h2, h3⟩, ?_⟩
    intro hr
    cases hr with
    | here _ _ _ hb2 _ _ => exact hb hb2
    | next _ _ _ hb2 _ _ _ => exact hb hb2

/-- The struct loop of `validate` raises abi-circular-def when the chain of a struct of
the rest of the map returns to a struct already on it. -/
theorem validate_structs_cycle (self : abi_serializer) (fuel : Nat) (hall : all_bases_exist self)
    (hfields : all_fields_known self fuel) (hfuel : self.structs.length < fuel) :
    ∀ (l : List (type_name × struct_def)) (ctx : abi_traverse_context),
      (∀ p ∈ l, p ∈ self.structs) → ctx.never_expires →
      (∃ p ∈ l, base_chain_repeats self p.2 [p.2.name]) →
      validate_structs self fuel l ctx = .error .abi_circular_def_exception := by
  intro l
  induction l with
  | nil => intro ctx _ _ h; obtain ⟨p, hp, _⟩ := h; simp at hp
  | cons q rest ih =>
    intro ctx hsub hn hex
    unfold validate_structs
    rcases validate_struct_outcome self fuel hall hfields hfuel q (hsub q (by simp)) ctx hn with
      ⟨⟨ctx1, h1, hsc⟩, hnr⟩ | h1
    · rw [h1]
      simp only
      apply ih ctx1 (fun p hp => hsub p (List.mem_cons_of_mem _ hp))
        (never_expires_of_same_clock hsc hn)
      obtain ⟨p, hp, hr⟩ := hex
      rcases List.mem_cons.mp hp with hp | hp
      · subst hp; exact absurd hr hnr
      · exact ⟨p, hp, hr⟩
    · rw [h1]

theorem validate_structs_ok_ends (self : abi_serializer) (fuel : Nat) :
    ∀ (l : List (type_name × struct_def)) (ctx ctx1 : abi_traverse_context),
      validate_structs self fuel l ctx = .ok ctx1 → ∀ p ∈ l, base_chain_ends self p.2 := by
  intro l
  induction l with
  | nil => intro ctx ctx1 _ p hp; simp at hp
  | cons q rest ih =>
    intro ctx ctx1 h p hp
    unfold validate_structs at h
    split at h
    · cases h
    · rename_i ctx2 h2
      rcases List.mem_cons.mp hp with hp | hp
      · subst hp
        unfold validate_struct WASM_CAPTURE_AND_RETHROW at h2
        split at h2
        · cases h2
        · rename_i ctx3 h3
          split at h3
          · exact validate_base_walk_ok_ends _ _ _ _ _ _ h3
          · rename_i hb
            exact .root _ (by simpa using hb)
      · exact ih _ _ h p hp

theorem base_chain_ends_base {self : abi_serializer} {s : struct_def} (h : base_chain_ends self s)
    (hb : s.base ≠ "") : ∃ b, get_struct self s.base = .ok b := by
  cases h with
  | root _ h0 => exact absurd h0 hb
  | step _ base _ hget _ => exact ⟨base, hget⟩

/-- C5 (counterexample). With the structs `a` (base `zz`, which names no struct) and `s`
(base `s`), the chain of `s` returns to `s`, there are no typedefs and no fields, and
`set_abi` fails with invalid-type-inside-abi: the missing base of `a`, first in key order,
is met before the cycle of `s`. -/
theorem C5_counterexample :
    base_chain_repeats (loaded (abi_of [] [⟨"a", "zz", []⟩, ⟨"s", "s", []⟩])) ⟨"s", "s", []⟩ ["s"] ∧
    raised (validate (loaded (abi_of [] [⟨"a", "zz", []⟩, ⟨"s", "s", []⟩])) 32 still_ctx) =
      some .invalid_type_inside_abi ∧
    raised (load (abi_of [] [⟨"a", "zz", []⟩, ⟨"s", "s", []⟩])) = some .invalid_type_inside_abi := by
  refine ⟨?_, by decide, by decide⟩
  exact .here _ ⟨"s", "s", []⟩ _ (by decide) (by decide) (by simp)

/-- C5 (amended). Inheritance cycles. (1) Let the typedef checks of `validate` pass, every
field type be known, every non-empty base name an existing struct, the deadline never
expire and the fuel exceed the number of structs; if the chain of base names of some
struct of the map returns to a struct already on it, `validate` fails with
abi-circular-def. (2) For every struct map and every starting struct, the walk along the
base names ends before a fuel larger than the number of structs runs out. (3) When
`validate` returns normally, the chain of base names of every struct of the map is
finite, and every non-empty base names an existing struct. -/
theorem C5_inheritance_cycles (self : abi_serializer) (fuel : Nat) (ctx : abi_traverse_context) :
    (ctx.never_expires → self.structs.length < fuel →
      (∃ ctx1 ctx2, validate_typedef_chains self fuel self.typedefs ctx = .ok ctx1 ∧
        validate_typedef_targets self fuel self.typedefs ctx1 = .ok ctx2) →
      all_fields_known self fuel → all_bases_exist self →
      (∃ p ∈ self.structs, base_chain_repeats self p.2 [p.2.name]) →
      validate self fuel ctx = .error .abi_circular_def_exception) ∧
    (self.structs.length < fuel → ∀ (s : struct_def),
      validate_base_walk self fuel s [s.name] ctx ≠ .error .fuel_exhausted) ∧
    ((∃ ctx1, validate self fuel ctx = .ok ctx1) →
      ∀ p ∈ self.structs, base_chain_ends self p.2 ∧
        (p.2.base ≠ "" → ∃ b, get_struct self p.2.base = .ok b)) := by
  refine ⟨?_, ?_, ?_⟩
  · intro hn hfuel htd hfields hall hex
    obtain ⟨ctx1, ctx2, h1, h2⟩ := htd
    have hsc := same_clock_trans (validate_typedef_chains_same_clock _ _ _ _ _ h1)
      (validate_typedef_targets_same_clock _ _ _ _ _ h2)
    unfold validate
    rw [h1]
    simp only
    rw [h2]
    simp only
    rw [validate_structs_cycle self fuel hall hfields hfuel self.structs ctx2 (fun p hp => hp)
      (never_expires_of_same_clock hsc hn) hex]
  · intro hfuel s
    exact validate_base_walk_terminates self fuel s [s.name] ctx
      (Nat.lt_of_le_of_lt (names_unseen_le self _) hfuel)
  · intro hok p hp
    obtain ⟨ctx1, hok⟩ := hok
    unfold validate at hok
    split at hok
    · cases hok
    · split at hok
      · cases hok
      · split at hok
        · cases hok
        · rename_i ctx4 h4
          have hends := validate_structs_ok_ends self fuel self.structs _ _ h4 p hp
          exact ⟨hends, base_chain_ends_base hends⟩

theorem still_ctx_never_expires : still_ctx.never_expires := fun _ => Nat.zero_lt_one

/-- C5 (witness). The amended claim at the struct `s` whose base is `s` (parts 1 and 2) and
at the accepted ABI with the structs `b` and `d`, `d` of base `b` (part 3). -/
theorem C5_inheritance_cycles_witness :
    validate (loaded (abi_of [] [⟨"s", "s", []⟩])) 32 still_ctx =
      .error .abi_circular_def_exception ∧
    validate_base_walk (loaded (abi_of [] [⟨"s", "s", []⟩])) 32 ⟨"s", "s", []⟩ ["s"] still_ctx ≠
      .error .fuel_exhausted ∧
    (∀ p ∈ (loaded (abi_of [] [⟨"b", "", [⟨"a", "uint8"⟩]⟩, ⟨"d", "b", [⟨"c", "uint8"⟩]⟩])).structs,
      base_chain_ends (loaded (abi_of [] [⟨"b", "", [⟨"a", "uint8"⟩]⟩, ⟨"d", "b", [⟨"c", "uint8"⟩]⟩]))
          p.2 ∧
        (p.2.base ≠ "" → ∃ b,
          get_struct (loaded (abi_of [] [⟨"b", "", [⟨"a", "uint8"⟩]⟩, ⟨"d", "b", [⟨"c", "uint8"⟩]⟩]))
            p.2.base = .ok b)) := by
  have hst : (loaded (abi_of [] [⟨"s", "s", []⟩])).structs = [("s", ⟨"s", "s", []⟩)] := by decide
  refine ⟨(C5_inheritance_cycles (loaded (abi_of [] [⟨"s", "s", []⟩])) 32 still_ctx).1
      still_ctx_never_expires (by decide) ⟨still_ctx, still_ctx, rfl, rfl⟩
      ?_ ?_ ?_,
    (C5_inheritance_cycles (loaded (abi_of [] [⟨"s", "s", []⟩])) 32 still_ctx).2.1 (by decide)
      ⟨"s", "s", []⟩,
    (C5_inheritance_cycles
      (loaded (abi_of [] [⟨"b", "", [⟨"a", "uint8"⟩]⟩, ⟨"d", "b", [⟨"c", "uint8"⟩]⟩])) 32
      still_ctx).2.2 ⟨_, rfl⟩⟩
  · intro p hp f hf
    rw [hst] at hp
    simp only [List.mem_singleton] at hp
    subst hp
    simp at hf
  · intro p hp _
    rw [hst] at hp
    simp only [List.mem_singleton] at hp
    subst hp
    exact ⟨⟨"s", "s", []⟩, by decide⟩
  · refine ⟨("s", ⟨"s", "s", []⟩), by rw [hst]; simp, ?_⟩
    exact .here _ ⟨"s", "s", []⟩ _ (by decide) (by decide) (by simp)

/-! ## The encoder appends -/

theorem datastream_write_ok {ds ds1 : datastream} {bs : List Byte} (h : ds.write bs = .ok ds1) :
    ds1 = { written := ds.written ++ bs, capacity := ds.capacity } := by
  unfold datastream.write at h
  split at h
  · cases h; rfl
  · cases h

theorem variant_to_stream_appends {T : Type} (w : WireType T) (var : Value) (ds ds1 : datastream)
    (h : variant_to_stream w var ds = .ok ds1) :
    ∃ bs, ds1 = { written := ds.written ++ bs, capacity := ds.capacity } := by
  unfold variant_to_stream at h
  split at h
  · cases h
  · exact ⟨_, datastream_write_ok h⟩

theorem pack_unpack_appends {T : Type} (w : WireType T) (var : Value) (ds ds1 : datastream)
    (a o : Bool) (h : (pack_unpack w).pack var ds a o = .ok ds1) :
    ∃ bs, ds1 = { written := ds.written ++ bs, capacity := ds.capacity } := by
  simp only [pack_unpack] at h
  split at h
  · exact variant_to_stream_appends _ _ _ _ h
  · split at h
    · exact variant_to_stream_appends _ _ _ _ h
    · exact variant_to_stream_appends _ _ _ _ h

/-- Every entry of the configured registry is an instance of `pack_unpack`. -/
theorem configured_entry (ext : external_types) (k : type_name) (c : Codec)
    (h : (k, c) ∈ configure_built_in_types ext) :
    c = pack_unpack (uint_wire 1) ∨ c = pack_unpack (int_wire 1) ∨ c = pack_unpack (int_wire 2) ∨
    c = pack_unpack (uint_wire 2) ∨ c = pack_unpack (int_wire 4) ∨ c = pack_unpack (uint_wire 4) ∨
    c = pack_unpack (int_wire 8) ∨ c = pack_unpack (uint_wire 8) ∨ c = pack_unpack varint32_wire ∨
    c = pack_unpack varuint32_wire ∨ c = pack_unpack ext.float32 ∨ c = pack_unpack ext.float64 ∨
    c = pack_unpack ext.name ∨ c = pack_unpack ext.bytes ∨ c = pack_unpack string_wire ∨
    c = pack_unpack ext.symbol ∨ c = pack_unpack ext.symbol_code ∨ c = pack_unpack ext.asset := by
  simp only [configure_built_in_types, List.mem_cons, Prod.mk.injEq, List.mem_singleton,
    List.not_mem_nil, or_false] at h
  rcases h with h | h | h | h | h | h | h | h | h | h | h | h | h | h | h | h | h | h | h | h | h <;>
    simp [h.2]

theorem registry_appends (self : abi_serializer) (hreg : registry_configured self)
    (k : type_name) (c : Codec) (hc : map_find self.built_in_types k = some c)
    (var : Value) (ds ds1 : datastream) (a o : Bool) (h : c.pack var ds a o = .ok ds1) :
    ∃ bs, ds1 = { written := ds.written ++ bs, capacity := ds.capacity } := by
  obtain ⟨ext, hext⟩ := hreg
  rw [hext] at hc
  obtain ⟨k1, hk1⟩ := map_find_mem _ _ _ hc
  rcases configured_entry ext k1 c hk1 with
    h1 | h1 | h1 | h1 | h1 | h1 | h1 | h1 | h1 | h1 | h1 | h1 | h1 | h1 | h1 | h1 | h1 | h1 <;>
    (subst h1; exact pack_unpack_appends _ _ _ _ _ _ h)

theorem pack_array_elems_appends
    (step : Value → datastream → abi_traverse_context → Except Err (datastream × abi_traverse_context))
    (hstep : ∀ v ds ctx ds1 ctx1, step v ds ctx = .ok (ds1, ctx1) →
      ∃ bs, ds1 = { written := ds.written ++ bs, capacity := ds.capacity }) :
    ∀ (l : List Value) (ds : datastream) (ctx : abi_traverse_context) (ds1 : datastream)
      (ctx1 : abi_traverse_context), pack_array_elems step l ds ctx = .ok (ds1, ctx1) →
      ∃ bs, ds1 = { written := ds.written ++ bs, capacity := ds.capacity } := by
  intro l
  induction l with
  | nil =>
    intro ds ctx ds1 ctx1 h
    simp only [pack_array_elems, Except.ok.injEq, Prod.mk.injEq] at h
    exact ⟨[], by simp [← h.1]⟩
  | cons v vs ih =>
    intro ds ctx ds1 ctx1 h
    unfold pack_array_elems at h
    split at h
    · cases h
    · rename_i ds2 ctx2 h2
      obtain ⟨b1, hb1⟩ := hstep _ _ _ _ _ h2
      obtain ⟨b2, hb2⟩ := ih _ _ _ _ h
      exact ⟨b1 ++ b2, by rw [hb2, hb1]; simp⟩

theorem pack_fields_encodings (self : abi_serializer) (fuel : Nat) (vo : List (String × Value))
    (hstep : ∀ t v ds ctx ds1 ctx1, _variant_to_binary self fuel t v ds ctx = .ok (ds1, ctx1) →
      ∃ bs, ds1 = { written := ds.written ++ bs, capacity := ds.capacity }) :
    ∀ (l : List field_def) (ds : datastream) (ctx : abi_traverse_context) (ds1 : datastream)
      (ctx1 : abi_traverse_context),
      pack_fields (_variant_to_binary self fuel) vo l ds ctx = .ok (ds1, ctx1) →
      ∃ bs, ds1 = { written := ds.written ++ bs, capacity := ds.capacity } ∧
        field_encodings self fuel vo l bs := by
  intro l
  induction l with
  | nil =>
    intro ds ctx ds1 ctx1 h
    simp only [pack_fields, Except.ok.injEq, Prod.mk.injEq] at h
    exact ⟨[], by simp [← h.1], .nil⟩
  | cons f fs ih =>
    intro ds ctx ds1 ctx1 h
    unfold pack_fields at h
    split at h
    · cases h
    · rename_i v hv
      split at h
      · cases h
      · rename_i ds2 ctx2 h2
        obtain ⟨b1, hb1⟩ := hstep _ _ _ _ _ _ h2
        obtain ⟨b2, hb2, henc⟩ := ih _ _ _ _ h
        refine ⟨b1 ++ b2, by rw [hb2, hb1]; simp, ?_⟩
        refine .cons f fs v b1 b2 ?_ ⟨ds, ctx, ctx2, by rw [h2, hb1]⟩ henc
        simp only [GetFieldVariant] at hv
        split at hv
        · rename_i x hx
          cases hv
          exact hx
        · cases hv

/-- A call of `_variant_to_binary` that returns normally has appended bytes to the stream
and changed nothing else of it. -/
theorem variant_to_binary_appends (self : abi_serializer) (hreg : registry_configured self)
    (fuel : Nat) :
    ∀ (type : type_name) (var : Value) (ds : datastream) (ctx : abi_traverse_context)
      (ds1 : datastream) (ctx1 : abi_traverse_context),
      _variant_to_binary self fuel type var ds ctx = .ok (ds1, ctx1) →
      ∃ bs, ds1 = { written := ds.written ++ bs, capacity := ds.capacity } := by
  induction fuel with
  | zero => intro type var ds ctx ds1 ctx1 h; simp [_variant_to_binary] at h
  | succ n ih =>
    intro type var ds ctx ds1 ctx1 h
    unfold _variant_to_binary at h
    split at h
    · cases h
    · simp only [WASM_CAPTURE_AND_RETHROW] at h
      split at h
      · rename_i btype hb
        split at h
        · cases h
        · rename_i ds2 h2
          cases h
          exact registry_appends self hreg _ _ hb _ _ _ _ _ h2
      · split at h
        · split at h
          · cases h
          · split at h
            · cases h
            · rename_i ds2 h2
              have hb1 := datastream_write_ok h2
              obtain ⟨b2, hb2⟩ := pack_array_elems_appends _ (ih _) _ _ _ _ _ h
              rename_i t _ _
              exact ⟨pack_varuint32 t.length ++ b2, by rw [hb2, hb1]; simp⟩
        · split at h
          · split at h
            · split at h
              · split at h
                · cases h
                · rename_i ds2 ctx2 h2
                  obtain ⟨b1, hb1⟩ := ih _ _ _ _ _ _ h2
                  obtain ⟨b2, hb2, _⟩ := pack_fields_encodings self n _ ih _ _ _ _ _ h
                  exact ⟨b1 ++ b2, by rw [hb2, hb1]; simp⟩
              · obtain ⟨b2, hb2, _⟩ := pack_fields_encodings self n _ ih _ _ _ _ _ h
                exact ⟨b2, hb2⟩
            · cases h
          · cases h

/-- C8. Inheritance order on the wire. Let `d` resolve to a struct `st` with a base (the
encoder taking its struct branch), and `_variant_to_binary(d, v)` return normally on the
object `v`. Then the bytes it has written are the bytes `B` that the call for the resolved
base writes from the same `v`, followed by the encodings `F` of the own fields of `st` in
declaration order, each looked up by name in `v`. -/
theorem C8_inheritance_order (self : abi_serializer) (hreg : registry_configured self)
    (fuel : Nat) (d : type_name) (st : struct_def) (vo : List (String × Value))
    (ds ds1 : datastream) (ctx ctx1 : abi_traverse_context)
    (hb : map_find self.built_in_types (fundamental_type (resolve_type self d)) = none)
    (ha : is_array (resolve_type self d) = false)
    (hs : map_find self.structs (resolve_type self d) = some st)
    (hbase : st.base ≠ "")
    (h : _variant_to_binary self (fuel + 1) d (Value.obj vo) ds ctx = .ok (ds1, ctx1)) :
    ∃ B F ctx2 ctx3,
      _variant_to_binary self fuel (resolve_type self st.base) (Value.obj vo) ds ctx2 =
        .ok ({ written := ds.written ++ B, capacity := ds.capacity }, ctx3) ∧
      field_encodings self fuel vo st.fields F ∧
      ds1 = { written := ds.written ++ B ++ F, capacity := ds.capacity } := by
  unfold _variant_to_binary at h
  split at h
  · cases h
  · rename_i ctx0 h0
    simp only [WASM_CAPTURE_AND_RETHROW, hb, ha, hs, hbase, ne_eq, not_false_eq_true, if_true,
      Bool.false_eq_true, if_false] at h
    split at h
    · cases h
    · rename_i ds2 ctx2 h2
      obtain ⟨B, hB⟩ := variant_to_binary_appends self hreg fuel _ _ _ _ _ _ h2
      obtain ⟨F, hF, henc⟩ := pack_fields_encodings self fuel vo
        (variant_to_binary_appends self hreg fuel) _ _ _ _ _ h
      refine ⟨B, F, _, ctx2, by rw [h2, hB], henc, ?_⟩
      rw [hF, hB]

/-- C8 (witness). The claim at the structs `b` (field `a : uint8`) and `d` (base `b`,
field `c : uint8`) and the value with `a = 7`, `c = 9`, which encodes to `07 09`. -/
theorem C8_inheritance_order_witness :
    encode (abi_of [] [⟨"b", "", [⟨"a", "uint8"⟩]⟩, ⟨"d", "b", [⟨"c", "uint8"⟩]⟩]) "d"
      (Value.obj [("a", Value.int 7), ("c", Value.int 9)]) = .ok [7, 9] ∧
    ∃ B F ctx2 ctx3,
      _variant_to_binary
          (loaded (abi_of [] [⟨"b", "", [⟨"a", "uint8"⟩]⟩, ⟨"d", "b", [⟨"c", "uint8"⟩]⟩])) 3
          (resolve_type
            (loaded (abi_of [] [⟨"b", "", [⟨"a", "uint8"⟩]⟩, ⟨"d", "b", [⟨"c", "uint8"⟩]⟩])) "b")
          (Value.obj [("a", Value.int 7), ("c", Value.int 9)])
          { written := [], capacity := 16 } ctx2 =
        .ok ({ written := [] ++ B, capacity := 16 }, ctx3) ∧
      field_encodings
        (loaded (abi_of [] [⟨"b", "", [⟨"a", "uint8"⟩]⟩, ⟨"d", "b", [⟨"c", "uint8"⟩]⟩])) 3
        [("a", Value.int 7), ("c", Value.int 9)] [⟨"c", "uint8"⟩] F ∧
      ({ written := [7, 9], capacity := 16 } : datastream) =
        { written := [] ++ B ++ F, capacity := 16 } :=
  ⟨by decide,
    C8_inheritance_order
      (loaded (abi_of [] [⟨"b", "", [⟨"a", "uint8"⟩]⟩, ⟨"d", "b", [⟨"c", "uint8"⟩]⟩]))
      ⟨raw_external_types, rfl⟩ 3 "d" ⟨"d", "b", [⟨"c", "uint8"⟩]⟩
      [("a", Value.int 7), ("c", Value.int 9)] { written := [], capacity := 16 }
      { written := [7, 9], capacity := 16 } still_ctx _ rfl (by decide) (by decide) (by decide) rfl⟩

/-! ## The varint codec -/

theorem read_varuint32_loop_groups (g : Nat) :
    ∀ (n shift acc : Nat) (rest : List Byte), n < 128 ^ (g + 1) →
      read_varuint32_loop (varuint_groups (g + 1) n ++ rest) shift acc =
        .ok ((acc + n * 2 ^ shift) % 2 ^ 32, rest) := by
  induction g with
  | zero =>
    intro n shift acc rest hn
    have hn1 : n < 128 := by simpa using hn
    have hv : (Fin.ofNat n : Fin 256).val = n := by
      simp only [Fin.ofNat, Nat.mod_succ_eq_iff_lt]
      omega
    simp only [varuint_groups, hn1, if_true, List.singleton_append, read_varuint32_loop, hv]
  | succ g ih =>
    intro n shift acc rest hn
    by_cases hn1 : n < 128
    · have hv : (Fin.ofNat n : Fin 256).val = n := by
        simp only [Fin.ofNat, Nat.mod_succ_eq_iff_lt]
        omega
      simp only [varuint_groups, hn1, if_true, List.singleton_append, read_varuint32_loop, hv]
    · have hv : (Fin.ofNat (n % 128 + 128) : Fin 256).val = n % 128 + 128 := by
        simp only [Fin.ofNat, Nat.mod_succ_eq_iff_lt]
        omega
      have hlt : ¬ (n % 128 + 128 < 128) := by omega
      have hdiv : n / 128 < 128 ^ (g + 1) := by
        rw [Nat.div_lt_iff_lt_mul (by norm_num)]
        calc n < 128 ^ (g + 1 + 1) := hn
          _ = 128 ^ (g + 1) * 128 := by ring
      unfold varuint_groups
      simp only [hn1, if_false, List.cons_append]
      unfold read_varuint32_loop
      simp only [hv, hlt, if_false]
      rw [ih (n / 128) (shift + 7) _ rest hdiv]
      have hmod : (n % 128 + 128) % 128 = n % 128 := by omega
      rw [hmod]
      have harith : acc + n % 128 * 2 ^ shift + n / 128 * 2 ^ (shift + 7) = acc + n * 2 ^ shift := by
        have h1 : n = 128 * (n / 128) + n % 128 := (Nat.div_add_mod n 128).symm
        have h2 : (2 : Nat) ^ (shift + 7) = 128 * 2 ^ shift := by ring
        rw [h2]
        nth_rewrite 3 [h1]
        ring
      rw [harith]

theorem read_pack_varuint32 (n : Nat) (rest : List Byte) (hn : n < 2 ^ 32) :
    read_varuint32 (pack_varuint32 n ++ rest) = .ok (n, rest) := by
  unfold read_varuint32 pack_varuint32
  have h1 : n % 2 ^ 32 = n := Nat.mod_eq_of_lt hn
  rw [h1, read_varuint32_loop_groups 4 n 0 0 rest (by omega)]
  simp only [Nat.zero_add, Nat.pow_zero, Nat.mul_one, h1]

/-! ## Canonical values are encoded to their bytes -/

theorem find_field_nodup (k : String) (v : Value) :
    ∀ (pre post extra : List (String × Value)),
      ((pre ++ (k, v) :: post).map Prod.fst).Nodup →
      find_field (pre ++ (k, v) :: post ++ extra) k = some v := by
  intro pre
  induction pre with
  | nil => intro post extra _; simp [find_field]
  | cons p pre ih =>
    intro post extra hnd
    obtain ⟨k1, v1⟩ := p
    simp only [List.cons_append, List.map_cons, List.nodup_cons, List.map_append, List.mem_append,
      List.mem_cons, not_or] at hnd
    have hne : k1 ≠ k := fun h => hnd.1.2.1 h
    simp only [List.cons_append, find_field, hne, if_false]
    exact ih post extra (by simpa using hnd.2)

theorem canonical_object_resolved {self : abi_serializer} {R : type_name}
    {kvs : List (String × Value)} {bs : List Byte} (h : canonical_object self R kvs bs) :
    resolve_type self R = R := by
  cases h with
  | root _ st _ _ hd _ _ => exact hd.1
  | derived _ st _ _ _ _ hd _ _ _ => exact hd.1

theorem encode_builtin_case (self : abi_serializer) (type : type_name) (v : Value) (bs : List Byte)
    (c : Codec)
    (hc : map_find self.built_in_types (fundamental_type (resolve_type self type)) = some c)
    (hcan : builtin_canonical c (is_array (resolve_type self type))
      (is_optional (resolve_type self type)) v bs) :
    encodes_eventually self type v bs := by
  refine ⟨1, ?_⟩
  intro fuel hfuel ds ctx hn hfit
  obtain ⟨f, rfl⟩ : ∃ f, fuel = f + 1 := ⟨fuel - 1, by omega⟩
  unfold _variant_to_binary
  rw [check_deadline_never hn]
  simp only [WASM_CAPTURE_AND_RETHROW, hc, hcan.1 ds hfit]
  exact ⟨_, rfl, ⟨rfl, rfl⟩⟩

theorem encode_array_case (self : abi_serializer) (type : type_name) (l : List Value)
    (bs : List Byte)
    (hb : map_find self.built_in_types (fundamental_type (resolve_type self type)) = none)
    (ha : is_array (resolve_type self type) = true)
    (ih : elems_encode_eventually self (fundamental_type (resolve_type self type)) l bs) :
    encodes_eventually self type (Value.array l) (pack_varuint32 l.length ++ bs) := by
  obtain ⟨n, hn⟩ := ih
  refine ⟨n + 1, ?_⟩
  intro fuel hfuel ds ctx hne hfit
  obtain ⟨f, rfl⟩ : ∃ f, fuel = f + 1 := ⟨fuel - 1, by omega⟩
  unfold _variant_to_binary
  rw [check_deadline_never hne]
  simp only [List.length_append] at hfit
  have hw : ds.write (pack_varuint32 l.length) =
      .ok { written := ds.written ++ pack_varuint32 l.length, capacity := ds.capacity } := by
    unfold datastream.write
    rw [if_pos (by omega)]
  simp only [WASM_CAPTURE_AND_RETHROW, hb, ha, if_true, Value.get_array, hw]
  obtain ⟨ctx1, h1, h2⟩ := hn f (by omega)
    { written := ds.written ++ pack_varuint32 l.length, capacity := ds.capacity }
    (abi_traverse_context.enter { ctx with reads := ctx.reads + 1 }) (fun m => hne m)
    (by simp only [List.length_append]; omega)
  refine ⟨ctx1, ?_, ⟨h2.1, h2.2⟩⟩
  rw [h1]
  simp only [List.append_assoc]

theorem encode_object_case (self : abi_serializer) (type : type_name)
    (kvs : List (String × Value)) (bs : List Byte) (hnd : (kvs.map Prod.fst).Nodup)
    (ih : object_encodes_eventually self (resolve_type self type) kvs bs) :
    encodes_eventually self type (Value.obj kvs) bs := by
  obtain ⟨n, hn⟩ := ih
  refine ⟨n, ?_⟩
  intro fuel hfuel ds ctx hne hfit
  have := hn fuel hfuel type rfl [] hnd ds ctx hne hfit
  simpa using this

theorem encode_elems_nil (self : abi_serializer) (F : type_name) :
    elems_encode_eventually self F [] [] := by
  refine ⟨0, ?_⟩
  intro fuel _ ds ctx _ _
  exact ⟨ctx, by simp [pack_array_elems], same_clock_refl _⟩

theorem encode_elems_cons (self : abi_serializer) (F : type_name) (v : Value) (vs : List Value)
    (b bs : List Byte) (ih1 : encodes_eventually self F v b)
    (ih2 : elems_encode_eventually self F vs bs) :
    elems_encode_eventually self F (v :: vs) (b ++ bs) := by
  obtain ⟨n1, hn1⟩ := ih1
  obtain ⟨n2, hn2⟩ := ih2
  refine ⟨max n1 n2, ?_⟩
  intro fuel hfuel ds ctx hne hfit
  simp only [List.length_append] at hfit
  obtain ⟨ctx1, h1, hs1⟩ := hn1 fuel (by omega) ds ctx hne (by omega)
  obtain ⟨ctx2, h2, hs2⟩ := hn2 fuel (by omega)
    { written := ds.written ++ b, capacity := ds.capacity } ctx1
    (never_expires_of_same_clock hs1 hne) (by simp only [List.length_append]; omega)
  refine ⟨ctx2, ?_, same_clock_trans hs1 hs2⟩
  unfold pack_array_elems
  rw [h1]
  simp only
  rw [h2]
  simp only [List.append_assoc]

theorem encode_root_case (self : abi_serializer) (R : type_name) (st : struct_def)
    (kvs : List (String × Value)) (bs : List Byte) (hd : struct_dispatch self R st)
    (hbase : st.base = "") (ih : fields_encode_eventually self st.fields kvs bs) :
    object_encodes_eventually self R kvs bs := by
  obtain ⟨n, hn⟩ := ih
  refine ⟨n + 1, ?_⟩
  intro fuel hfuel type hres extra hnd ds ctx hne hfit
  obtain ⟨f, rfl⟩ : ∃ f, fuel = f + 1 := ⟨fuel - 1, by omega⟩
  unfold _variant_to_binary
  rw [check_deadline_never hne]
  simp only [WASM_CAPTURE_AND_RETHROW, hres, hd.2.1, hd.2.2.1, hd.2.2.2.2, hbase,
    Bool.false_eq_true, if_false, ne_eq, not_true_eq_false]
  obtain ⟨ctx1, h1, h2⟩ := hn f (by omega) [] extra ds
    (abi_traverse_context.enter { ctx with reads := ctx.reads + 1 })
    (by simpa using hnd) (fun m => hne m) hfit
  exact ⟨ctx1, by simpa using h1, ⟨h2.1, h2.2⟩⟩

theorem encode_derived_case (self : abi_serializer) (R : type_name) (st : struct_def)
    (kb ko : List (String × Value)) (bb bo : List Byte) (hd : struct_dispatch self R st)
    (hbase : st.base ≠ "") (hb : canonical_object self (resolve_type self st.base) kb bb)
    (ih1 : object_encodes_eventually self (resolve_type self st.base) kb bb)
    (ih2 : fields_encode_eventually self st.fields ko bo) :
    object_encodes_eventually self R (kb ++ ko) (bb ++ bo) := by
  obtain ⟨n1, hn1⟩ := ih1
  obtain ⟨n2, hn2⟩ := ih2
  refine ⟨max n1 n2 + 1, ?_⟩
  intro fuel hfuel type hres extra hnd ds ctx hne hfit
  obtain ⟨f, rfl⟩ : ∃ f, fuel = f + 1 := ⟨fuel - 1, by omega⟩
  unfold _variant_to_binary
  rw [check_deadline_never hne]
  simp only [WASM_CAPTURE_AND_RETHROW, hres, hd.2.1, hd.2.2.1, hd.2.2.2.2, hbase,
    Bool.false_eq_true, if_false, ne_eq, not_false_eq_true, if_true]
  simp only [List.length_append] at hfit
  have hndb : (kb.map Prod.fst).Nodup := by
    rw [List.map_append] at hnd
    exact (List.nodup_append.mp hnd).1
  obtain ⟨ctx1, h1, hs1⟩ := hn1 f (by omega) (resolve_type self st.base)
    (canonical_object_resolved hb) (ko ++ extra) hndb ds
    (abi_traverse_context.enter { ctx with reads := ctx.reads + 1 }) (fun m => hne m)
    (by omega)
  rw [List.append_assoc, h1]
  simp only
  obtain ⟨ctx2, h2, hs2⟩ := hn2 f (by omega) kb extra
    { written := ds.written ++ bb, capacity := ds.capacity } ctx1
    hnd (never_expires_of_same_clock hs1 (fun m => hne m))
    (by simp only [List.length_append]; omega)
  rw [List.append_assoc] at h2
  rw [h2]
  exact ⟨ctx2, by simp only [List.append_assoc], same_clock_trans ⟨hs1.1, hs1.2⟩ hs2⟩

theorem encode_fields_nil (self : abi_serializer) : fields_encode_eventually self [] [] [] := by
  refine ⟨0, ?_⟩
  intro fuel _ pre extra ds ctx _ _ _
  exact ⟨ctx, by simp [pack_fields], same_clock_refl _⟩

theorem encode_fields_cons (self : abi_serializer) (field : field_def) (rest : List field_def)
    (v : Value) (kvs : List (String × Value)) (b bs : List Byte)
    (ih1 : encodes_eventually self (_remove_bin_extension field.type) v b)
    (ih2 : fields_encode_eventually self rest kvs bs) :
    fields_encode_eventually self (field :: rest) ((field.name, v) :: kvs) (b ++ bs) := by
  obtain ⟨n1, hn1⟩ := ih1
  obtain ⟨n2, hn2⟩ := ih2
  refine ⟨max n1 n2, ?_⟩
  intro fuel hfuel pre extra ds ctx hnd hne hfit
  simp only [List.length_append] at hfit
  unfold pack_fields
  have hfind : find_field (pre ++ (field.name, v) :: kvs ++ extra) field.name = some v :=
    find_field_nodup field.name v pre kvs extra hnd
  simp only [GetFieldVariant, hfind]
  obtain ⟨ctx1, h1, hs1⟩ := hn1 fuel (by omega) ds ctx hne (by omega)
  rw [h1]
  simp only
  obtain ⟨ctx2, h2, hs2⟩ := hn2 fuel (by omega) (pre ++ [(field.name, v)]) extra
    { written := ds.written ++ b, capacity := ds.capacity } ctx1
    (by simpa using hnd) (never_expires_of_same_clock hs1 hne)
    (by simp only [List.length_append]; omega)
  have hvo : pre ++ [(field.name, v)] ++ kvs ++ extra = pre ++ (field.name, v) :: kvs ++ extra := by
    simp
  rw [hvo] at h2
  rw [h2]
  exact ⟨ctx2, by simp only [List.append_assoc], same_clock_trans hs1 hs2⟩

/-- Enough fuel encodes a canonical value to its bytes. -/
theorem canonical_encodes (self : abi_serializer) {type : type_name} {v : Value} {bs : List Byte}
    (h : canonical self type v bs) : encodes_eventually self type v bs :=
  @canonical.rec self
    (fun type v bs _ => encodes_eventually self type v bs)
    (fun F l bs _ => elems_encode_eventually self F l bs)
    (fun R kvs bs _ => object_encodes_eventually self R kvs bs)
    (fun fields ko bo _ => fields_encode_eventually self fields ko bo)
    (fun type v bs c hc hcan => encode_builtin_case self type v bs c hc hcan)
    (fun type l bs hb ha _ _ ih => encode_array_case self type l bs hb ha ih)
    (fun type kvs bs _ hnd ih => encode_object_case self type kvs bs hnd ih)
    (fun F => encode_elems_nil self F)
    (fun F v vs b bs _ _ _ ih1 ih2 => encode_elems_cons self F v vs b bs ih1 ih2)
    (fun R st kvs bs hd hbase _ ih => encode_root_case self R st kvs bs hd hbase ih)
    (fun R st kb ko bb bo hd hbase hb _ ih1 ih2 =>
      encode_derived_case self R st kb ko bb bo hd hbase hb ih1 ih2)
    (encode_fields_nil self)
    (fun field rest v kvs b bs _ _ ih1 ih2 => encode_fields_cons self field rest v kvs b bs ih1 ih2)
    type v bs h

/-! ## The bytes of a canonical value are decoded to it -/

theorem decode_builtin_case (self : abi_serializer) (type : type_name) (v : Value) (bs : List Byte)
    (c : Codec)
    (hc : map_find self.built_in_types (fundamental_type (resolve_type self type)) = some c)
    (hcan : builtin_canonical c (is_array (resolve_type self type))
      (is_optional (resolve_type self type)) v bs) :
    decodes_eventually self type bs v := by
  refine ⟨1, ?_⟩
  intro fuel hfuel rest ctx hn
  obtain ⟨f, rfl⟩ : ∃ f, fuel = f + 1 := ⟨fuel - 1, by omega⟩
  unfold _binary_to_variant
  rw [check_deadline_never hn]
  simp only [hc, hcan.2 rest, WASM_RETHROW_EXCEPTIONS]
  exact ⟨_, rfl, ⟨rfl, rfl⟩⟩

theorem decode_array_case (self : abi_serializer) (type : type_name) (l : List Value)
    (bs : List Byte)
    (hb : map_find self.built_in_types (fundamental_type (resolve_type self type)) = none)
    (ha : is_array (resolve_type self type) = true)
    (hlen : l.length < max_array_size_for_abi)
    (ih : elems_decode_eventually self (fundamental_type (resolve_type self type)) bs l) :
    decodes_eventually self type (pack_varuint32 l.length ++ bs) (Value.array l) := by
  obtain ⟨n, hn⟩ := ih
  refine ⟨n + 1, ?_⟩
  intro fuel hfuel rest ctx hne
  obtain ⟨f, rfl⟩ : ∃ f, fuel = f + 1 := ⟨fuel - 1, by omega⟩
  unfold _binary_to_variant
  rw [check_deadline_never hne]
  have hlt : l.length < 2 ^ 32 := by
    unfold max_array_size_for_abi at hlen
    omega
  have hr : read_varuint32 (pack_varuint32 l.length ++ bs ++ rest) = .ok (l.length, bs ++ rest) := by
    rw [List.append_assoc]
    exact read_pack_varuint32 _ _ hlt
  simp only [hb, ha, if_true, hr, WASM_RETHROW_EXCEPTIONS, hlen]
  obtain ⟨ctx1, h1, h2⟩ := hn f (by omega) rest
    (abi_traverse_context.enter { ctx with reads := ctx.reads + 1 }) (fun m => hne m)
  rw [h1]
  exact ⟨ctx1, rfl, ⟨h2.1, h2.2⟩⟩

theorem decode_object_case (self : abi_serializer) (type : type_name)
    (kvs : List (String × Value)) (bs : List Byte)
    (ih : object_decodes_eventually self (resolve_type self type) bs kvs) :
    decodes_eventually self type bs (Value.obj kvs) := by
  obtain ⟨n, hn⟩ := ih
  exact ⟨n, fun fuel hfuel => hn fuel hfuel type rfl⟩

theorem decode_elems_nil (self : abi_serializer) (F : type_name) :
    elems_decode_eventually self F [] [] := by
  refine ⟨0, ?_⟩
  intro fuel _ rest ctx _
  exact ⟨ctx, by simp [unpack_array_elems], same_clock_refl _⟩

theorem decode_elems_cons (self : abi_serializer) (F : type_name) (v : Value) (vs : List Value)
    (b bs : List Byte) (hnull : v.is_null = false) (ih1 : decodes_eventually self F b v)
    (ih2 : elems_decode_eventually self F bs vs) :
    elems_decode_eventually self F (b ++ bs) (v :: vs) := by
  obtain ⟨n1, hn1⟩ := ih1
  obtain ⟨n2, hn2⟩ := ih2
  refine ⟨max n1 n2, ?_⟩
  intro fuel hfuel rest ctx hne
  obtain ⟨ctx1, h1, hs1⟩ := hn1 fuel (by omega) (bs ++ rest) ctx hne
  obtain ⟨ctx2, h2, hs2⟩ := hn2 fuel (by omega) rest ctx1 (never_expires_of_same_clock hs1 hne)
  refine ⟨ctx2, ?_, same_clock_trans hs1 hs2⟩
  simp only [List.length_cons, unpack_array_elems, List.append_assoc, h1, hnull,
    Bool.false_eq_true, if_false, h2]

theorem decode_root_case (self : abi_serializer) (R : type_name) (st : struct_def)
    (kvs : List (String × Value)) (bs : List Byte) (hd : struct_dispatch self R st)
    (hbase : st.base = "") (ih : fields_decode_eventually self st.fields bs kvs) :
    object_decodes_eventually self R bs kvs := by
  obtain ⟨n, hn⟩ := ih
  refine ⟨n + 1, ?_⟩
  intro fuel hfuel type hres rest ctx hne
  obtain ⟨f, rfl⟩ : ∃ f, fuel = f + 1 := ⟨fuel - 1, by omega⟩
  unfold _binary_to_variant
  rw [check_deadline_never hne]
  simp only [hres, hd.2.1, hd.2.2.1, hd.2.2.2.1, hd.2.2.2.2, hbase, Bool.false_eq_true, if_false,
    ne_eq, not_true_eq_false]
  obtain ⟨ctx1, h1, h2⟩ := hn f (by omega) rest
    (abi_traverse_context.enter { ctx with reads := ctx.reads + 1 }) (fun m => hne m)
  rw [h1]
  exact ⟨ctx1, rfl, ⟨h2.1, h2.2⟩⟩

theorem decode_derived_case (self : abi_serializer) (R : type_name) (st : struct_def)
    (kb ko : List (String × Value)) (bb bo : List Byte) (hd : struct_dispatch self R st)
    (hbase : st.base ≠ "") (hb : canonical_object self (resolve_type self st.base) kb bb)
    (ih1 : object_decodes_eventually self (resolve_type self st.base) bb kb)
    (ih2 : fields_decode_eventually self st.fields bo ko) :
    object_decodes_eventually self R (bb ++ bo) (kb ++ ko) := by
  obtain ⟨n1, hn1⟩ := ih1
  obtain ⟨n2, hn2⟩ := ih2
  refine ⟨max n1 n2 + 1, ?_⟩
  intro fuel hfuel type hres rest ctx hne
  obtain ⟨f, rfl⟩ : ∃ f, fuel = f + 1 := ⟨fuel - 1, by omega⟩
  unfold _binary_to_variant
  rw [check_deadline_never hne]
  simp only [hres, hd.2.1, hd.2.2.1, hd.2.2.2.1, hd.2.2.2.2, hbase, Bool.false_eq_true, if_false,
    ne_eq, not_false_eq_true, if_true]
  obtain ⟨ctx1, h1, hs1⟩ := hn1 f (by omega) (resolve_type self st.base)
    (canonical_object_resolved hb) (bo ++ rest)
    (abi_traverse_context.enter { ctx with reads := ctx.reads + 1 }) (fun m => hne m)
  rw [List.append_assoc, h1]
  simp only
  obtain ⟨ctx2, h2, hs2⟩ := hn2 f (by omega) rest ctx1
    (never_expires_of_same_clock hs1 (fun m => hne m))
  rw [h2]
  exact ⟨ctx2, rfl, same_clock_trans ⟨hs1.1, hs1.2⟩ hs2⟩

theorem decode_fields_nil (self : abi_serializer) : fields_decode_eventually self [] [] [] := by
  refine ⟨0, ?_⟩
  intro fuel _ rest ctx _
  exact ⟨ctx, by simp [unpack_fields], same_clock_refl _⟩

theorem decode_fields_cons (self : abi_serializer) (field : field_def) (rest : List field_def)
    (v : Value) (kvs : List (String × Value)) (b bs : List Byte)
    (ih1 : decodes_eventually self (_remove_bin_extension field.type) b v)
    (ih2 : fields_decode_eventually self rest bs kvs) :
    fields_decode_eventually self (field :: rest) (b ++ bs) ((field.name, v) :: kvs) := by
  obtain ⟨n1, hn1⟩ := ih1
  obtain ⟨n2, hn2⟩ := ih2
  refine ⟨max n1 n2, ?_⟩
  intro fuel hfuel tail ctx hne
  obtain ⟨ctx1, h1, hs1⟩ := hn1 fuel (by omega) (bs ++ tail) ctx hne
  obtain ⟨ctx2, h2, hs2⟩ := hn2 fuel (by omega) tail ctx1 (never_expires_of_same_clock hs1 hne)
  refine ⟨ctx2, ?_, same_clock_trans hs1 hs2⟩
  simp only [unpack_fields, List.append_assoc, h1, h2]

/-- Enough fuel decodes the bytes of a canonical value to it. -/
theorem canonical_decodes (self : abi_serializer) {type : type_name} {v : Value} {bs : List Byte}
    (h : canonical self type v bs) : decodes_eventually self type bs v :=
  @canonical.rec self
    (fun type v bs _ => decodes_eventually self type bs v)
    (fun F l bs _ => elems_decode_eventually self F bs l)
    (fun R kvs bs _ => object_decodes_eventually self R bs kvs)
    (fun fields ko bo _ => fields_decode_eventually self fields bo ko)
    (fun type v bs c hc hcan => decode_builtin_case self type v bs c hc hcan)
    (fun type l bs hb ha hlen _ ih => decode_array_case self type l bs hb ha hlen ih)
    (fun type kvs bs _ _ ih => decode_object_case self type kvs bs ih)
    (fun F => decode_elems_nil self F)
    (fun F v vs b bs _ hnull _ ih1 ih2 => decode_elems_cons self F v vs b bs hnull ih1 ih2)
    (fun R st kvs bs hd hbase _ ih => decode_root_case self R st kvs bs hd hbase ih)
    (fun R st kb ko bb bo hd hbase hb _ ih1 ih2 =>
      decode_derived_case self R st kb ko bb bo hd hbase hb ih1 ih2)
    (decode_fields_nil self)
    (fun field rest v kvs b bs _ _ ih1 ih2 => decode_fields_cons self field rest v kvs b bs ih1 ih2)
    type v bs h

/-! ## Unsigned integers are canonical leaves -/

theorem le_bytes_length (w : Nat) : ∀ (n : Nat), (le_bytes w n).length = w := by
  induction w with
  | zero => intro n; rfl
  | succ w ih => intro n; simp [le_bytes, ih]

theorem read_bytes_append (bs : List Byte) (rest : List Byte) :
    read_bytes bs.length (bs ++ rest) = .ok (bs, rest) := by
  induction bs with
  | nil => simp [read_bytes]
  | cons b bs ih => simp [read_bytes, ih]

theorem le_value_le_bytes (w : Nat) : ∀ (n : Nat), le_value (le_bytes w n) = n % 256 ^ w := by
  induction w with
  | zero => intro n; simp [le_bytes, le_value, Nat.mod_one]
  | succ w ih =>
    intro n
    simp only [le_bytes, le_value, ih]
    rw [pow_succ', Nat.mod_mul]
    simp [Fin.ofNat]

/-- A JSON integer within the range of an unsigned integer type is canonical for it, with
its little-endian bytes. -/
theorem uint_canonical (w n : Nat) (hn : n < 2 ^ (8 * w)) :
    builtin_canonical (pack_unpack (uint_wire w)) false false (Value.int n) (le_bytes w n) := by
  have hpow : (2 : Nat) ^ (8 * w) = 256 ^ w := by
    rw [pow_mul]
    norm_num
  constructor
  · intro ds hfit
    have hconv : ((n : Int) % ((2 ^ (8 * w) : Nat) : Int)).toNat = n := by
      rw [← Int.natCast_mod, Int.toNat_ofNat, Nat.mod_eq_of_lt hn]
    simp only [pack_unpack, Bool.false_eq_true, if_false, variant_to_stream, uint_wire, hconv,
      datastream.write]
    rw [if_pos hfit]
  · intro rest
    have hr : read_bytes w (le_bytes w n ++ rest) = .ok (le_bytes w n, rest) := by
      have := read_bytes_append (le_bytes w n) rest
      rwa [le_bytes_length] at this
    simp only [pack_unpack, Bool.false_eq_true, if_false, variant_from_stream, uint_wire, hr,
      le_value_le_bytes]
    rw [← hpow, Nat.mod_eq_of_lt hn]

/-! ## Round trips through the entry points -/

theorem is_type_entry_known {self : abi_serializer} {fuel : Nat} {type : type_name}
    {max_serialization_time : Nat} {clock : Nat → Nat}
    (h : is_type self fuel type max_serialization_time clock = .ok true) :
    known_type self fuel type = some true := by
  unfold is_type at h
  split at h
  · cases h
  · rename_i b ctx1 h1
    cases h
    exact is_type_known _ _ _ _ _ _ h1

/-- Through the entry points, with enough fuel and a deadline that never expires, a
canonical value of a known type is encoded to its bytes, and its bytes are decoded to it
with nothing left unread. -/
theorem canonical_round_trip (self : abi_serializer) (type : type_name) (v : Value)
    (bs : List Byte) (hcan : canonical self type v bs) (hsize : bs.length ≤ 1024 * 1024) :
    ∃ n, ∀ fuel, n ≤ fuel → ∀ (max_serialization_time : Nat) (clock : Nat → Nat),
      (∀ k, clock k < clock 0 + max_serialization_time) →
      is_type self fuel type max_serialization_time clock = .ok true →
      variant_to_binary self fuel type v max_serialization_time clock = .ok bs ∧
        binary_to_variant self fuel type bs max_serialization_time clock = .ok (v, []) := by
  obtain ⟨n1, hn1⟩ := canonical_encodes self hcan
  obtain ⟨n2, hn2⟩ := canonical_decodes self hcan
  refine ⟨max n1 n2, ?_⟩
  intro fuel hfuel mst clock hclock htype
  have hne := create_never_expires clock 0 mst hclock
  constructor
  · unfold variant_to_binary _variant_to_binary_bytes
    rw [check_deadline_never hne]
    obtain ⟨ctx2, h2, hs2⟩ := known_is_type self fuel type
      { abi_traverse_context.create clock 0 mst with
        reads := (abi_traverse_context.create clock 0 mst).reads + 1 }
      true (fun m => hne m) (is_type_entry_known htype)
    simp only [h2, if_true]
    obtain ⟨ctx3, h3, _⟩ := hn1 fuel (by omega) { written := [], capacity := 1024 * 1024 } ctx2
      (never_expires_of_same_clock hs2 (fun m => hne m)) (by simpa using hsize)
    rw [h3]
    simp
  · unfold binary_to_variant
    obtain ⟨ctx1, h1, _⟩ := hn2 fuel (by omega) [] _ hne
    rw [List.append_nil] at h1
    rw [h1]

/-- C1 (counterexample). On the accepted ABI with the struct `s` of two fields named `x`
(both `uint8`), the bytes `01 02` decode as `s` with nothing left unread, and the decoded
object encodes to `01 01`. On the ABI without structs, `02 07` decodes as `uint8?` (any
nonzero presence byte is read as present) and the decoded value encodes to `01 07`. With
the struct `s` without fields, the padded length `80 00` decodes as `s[]` to the empty
array, which encodes to `00`. -/
theorem C1_counterexample :
    raised (load (abi_of [] [⟨"s", "", [⟨"x", "uint8"⟩, ⟨"x", "uint8"⟩]⟩])) = none ∧
    decode (abi_of [] [⟨"s", "", [⟨"x", "uint8"⟩, ⟨"x", "uint8"⟩]⟩]) "s" [1, 2] =
      .ok (Value.obj [("x", Value.int 1), ("x", Value.int 2)], []) ∧
    encode (abi_of [] [⟨"s", "", [⟨"x", "uint8"⟩, ⟨"x", "uint8"⟩]⟩]) "s"
      (Value.obj [("x", Value.int 1), ("x", Value.int 2)]) = .ok [1, 1] ∧
    decode (abi_of [] []) "uint8?" [2, 7] = .ok (Value.int 7, []) ∧
    encode (abi_of [] []) "uint8?" (Value.int 7) = .ok [1, 7] ∧
    decode (abi_of [] [⟨"s", "", []⟩]) "s[]" [128, 0] = .ok (Value.array [], []) ∧
    encode (abi_of [] [⟨"s", "", []⟩]) "s[]" (Value.array []) = .ok [0] := by
  decide

/-- C1 (amended). Round trip binary to value to binary, for the encodings of canonical
values. Let `b` be the encoding of a canonical value of `type` (`canonical`), not longer
than the 1 MiB buffer of `variant_to_binary`. With enough fuel, a deadline that never
expires and `is_type(type)` true, `binary_to_variant(type, b)` returns a value with
nothing of `b` left unread, and `variant_to_binary` of that value returns exactly `b`. -/
theorem C1_binary_round_trip (self : abi_serializer) (type : type_name) (v0 : Value)
    (b : List Byte) (hcan : canonical self type v0 b) (hsize : b.length ≤ 1024 * 1024) :
    ∃ n, ∀ fuel, n ≤ fuel → ∀ (max_serialization_time : Nat) (clock : Nat → Nat),
      (∀ k, clock k < clock 0 + max_serialization_time) →
      is_type self fuel type max_serialization_time clock = .ok true →
      ∃ v, binary_to_variant self fuel type b max_serialization_time clock = .ok (v, []) ∧
        variant_to_binary self fuel type v max_serialization_time clock = .ok b := by
  obtain ⟨n, hn⟩ := canonical_round_trip self type v0 b hcan hsize
  refine ⟨n, ?_⟩
  intro fuel hfuel mst clock hclock htype
  obtain ⟨h1, h2⟩ := hn fuel hfuel mst clock hclock htype
  exact ⟨v0, h2, h1⟩

/-- C2 (counterexample). On the accepted ABI with the struct `s` of two fields named `x`
(both `uint8`), the object with `x = 1`, `x = 2` carries exactly the fields of `s` in
declaration order; it encodes to `01 01`, which decodes to the object with `x = 1`,
`x = 1`. With the typedef `o = uint8?`, `o[]` is a type and the array holding null encodes
to `01 00`, which `binary_to_variant` rejects with unpack-exception (a null element). -/
theorem C2_counterexample :
    raised (load (abi_of [] [⟨"s", "", [⟨"x", "uint8"⟩, ⟨"x", "uint8"⟩]⟩])) = none ∧
    encode (abi_of [] [⟨"s", "", [⟨"x", "uint8"⟩, ⟨"x", "uint8"⟩]⟩]) "s"
      (Value.obj [("x", Value.int 1), ("x", Value.int 2)]) = .ok [1, 1] ∧
    decode (abi_of [] [⟨"s", "", [⟨"x", "uint8"⟩, ⟨"x", "uint8"⟩]⟩]) "s" [1, 1] =
      .ok (Value.obj [("x", Value.int 1), ("x", Value.int 1)], []) ∧
    raised (load (abi_of [⟨"o", "uint8?"⟩] [])) = none ∧
    is_type (loaded (abi_of [⟨"o", "uint8?"⟩] [])) 32 "o[]" 1 still_clock = .ok true ∧
    encode (abi_of [⟨"o", "uint8?"⟩] []) "o[]" (Value.array [Value.null]) = .ok [1, 0] ∧
    decode (abi_of [⟨"o", "uint8?"⟩] []) "o[]" [1, 0] = .error .unpack_exception := by
  decide

/-- C2 (amended). Round trip value to binary to value, for canonical values. Let `v` be a
canonical value of `type` (`canonical`: built-in leaves canonical for their registry entry,
arrays shorter than `max_array_size_for_abi` without null elements, objects carrying
exactly the fields of the struct, base fields first, in declaration order and under
pairwise distinct names; no optional of a type that is not built-in), with an encoding not
longer than the 1 MiB buffer. With enough fuel, a deadline that never expires and
`is_type(type)` true, `variant_to_binary(type, v)` returns normally and
`binary_to_variant` of the bytes returns `v`, with the same keys in the same order and
nothing left unread. -/
theorem C2_value_round_trip (self : abi_serializer) (type : type_name) (v : Value)
    (bs : List Byte) (hcan : canonical self type v bs) (hsize : bs.length ≤ 1024 * 1024) :
    ∃ n, ∀ fuel, n ≤ fuel → ∀ (max_serialization_time : Nat) (clock : Nat → Nat),
      (∀ k, clock k < clock 0 + max_serialization_time) →
      is_type self fuel type max_serialization_time clock = .ok true →
      ∃ b, variant_to_binary self fuel type v max_serialization_time clock = .ok b ∧
        binary_to_variant self fuel type b max_serialization_time clock = .ok (v, []) := by
  obtain ⟨n, hn⟩ := canonical_round_trip self type v bs hcan hsize
  refine ⟨n, ?_⟩
  intro fuel hfuel mst clock hclock htype
  obtain ⟨h1, h2⟩ := hn fuel hfuel mst clock hclock htype
  exact ⟨bs, h1, h2⟩

theorem is_type_entry_mono (self : abi_serializer) (f1 f2 : Nat) (type : type_name)
    (max_serialization_time : Nat) (clock : Nat → Nat)
    (h : is_type self f1 type max_serialization_time clock = .ok true) (hle : f1 ≤ f2)
    (hclock : ∀ k, clock k < clock 0 + max_serialization_time) :
    is_type self f2 type max_serialization_time clock = .ok true := by
  have h1 := known_type_mono_le self hle type true (is_type_entry_known h)
  obtain ⟨ctx1, h2, _⟩ := known_is_type self f2 type
    (abi_traverse_context.create clock 0 max_serialization_time) true
    (create_never_expires clock 0 max_serialization_time hclock) h1
  unfold is_type
  rw [h2]

/-- The value with `x = 1`, `y = 2` is a canonical value of the struct `pt` of fields
`x : uint32`, `y : uint32`, with the encoding `01 00 00 00 02 00 00 00`. -/
theorem canonical_point :
    canonical (loaded (abi_of [] [⟨"pt", "", [⟨"x", "uint32"⟩, ⟨"y", "uint32"⟩]⟩])) "pt"
      (Value.obj [("x", Value.int 1), ("y", Value.int 2)]) [1, 0, 0, 0, 2, 0, 0, 0] := by
  refine .object "pt" _ _ ?_ (by decide)
  refine .root _ ⟨"pt", "", [⟨"x", "uint32"⟩, ⟨"y", "uint32"⟩]⟩ _ _
    ⟨by decide, rfl, by decide, by decide, by decide⟩ rfl ?_
  refine .cons ⟨"x", "uint32"⟩ [⟨"y", "uint32"⟩] (Value.int 1) [("y", Value.int 2)] [1, 0, 0, 0]
    [2, 0, 0, 0] ?_ ?_
  · exact .builtin _ _ _ (pack_unpack (uint_wire 4)) rfl (uint_canonical 4 1 (by norm_num))
  · refine .cons ⟨"y", "uint32"⟩ [] (Value.int 2) [] [2, 0, 0, 0] [] ?_ .nil
    exact .builtin _ _ _ (pack_unpack (uint_wire 4)) rfl (uint_canonical 4 2 (by norm_num))

/-- C1 (witness). The amended claim at the struct `pt` and the bytes
`01 00 00 00 02 00 00 00`. -/
theorem C1_binary_round_trip_witness :
    ∃ fuel v,
      binary_to_variant (loaded (abi_of [] [⟨"pt", "", [⟨"x", "uint32"⟩, ⟨"y", "uint32"⟩]⟩])) fuel
        "pt" [1, 0, 0, 0, 2, 0, 0, 0] 1 still_clock = .ok (v, []) ∧
      variant_to_binary (loaded (abi_of [] [⟨"pt", "", [⟨"x", "uint32"⟩, ⟨"y", "uint32"⟩]⟩])) fuel
        "pt" v 1 still_clock = .ok [1, 0, 0, 0, 2, 0, 0, 0] := by
  obtain ⟨n, hn⟩ := C1_binary_round_trip
    (loaded (abi_of [] [⟨"pt", "", [⟨"x", "uint32"⟩, ⟨"y", "uint32"⟩]⟩])) "pt"
    (Value.obj [("x", Value.int 1), ("y", Value.int 2)]) [1, 0, 0, 0, 2, 0, 0, 0]
    canonical_point (by decide)
  exact ⟨max n 32, hn (max n 32) (Nat.le_max_left _ _) 1 still_clock (fun _ => Nat.zero_lt_one)
    (is_type_entry_mono _ 32 _ _ _ _ (by decide) (Nat.le_max_right _ _)
      (fun _ => Nat.zero_lt_one))⟩

/-- C2 (witness). The amended claim at the struct `pt` and the value with `x = 1`,
`y = 2`. -/
theorem C2_value_round_trip_witness :
    ∃ fuel b,
      variant_to_binary (loaded (abi_of [] [⟨"pt", "", [⟨"x", "uint32"⟩, ⟨"y", "uint32"⟩]⟩])) fuel
        "pt" (Value.obj [("x", Value.int 1), ("y", Value.int 2)]) 1 still_clock = .ok b ∧
      binary_to_variant (loaded (abi_of [] [⟨"pt", "", [⟨"x", "uint32"⟩, ⟨"y", "uint32"⟩]⟩])) fuel
        "pt" b 1 still_clock = .ok (Value.obj [("x", Value.int 1), ("y", Value.int 2)], []) := by
  obtain ⟨n, hn⟩ := C2_value_round_trip
    (loaded (abi_of [] [⟨"pt", "", [⟨"x", "uint32"⟩, ⟨"y", "uint32"⟩]⟩])) "pt"
    (Value.obj [("x", Value.int 1), ("y", Value.int 2)]) [1, 0, 0, 0, 2, 0, 0, 0]
    canonical_point (by decide)
  exact ⟨max n 32, hn (max n 32) (Nat.le_max_left _ _) 1 still_clock (fun _ => Nat.zero_lt_one)
    (is_type_entry_mono _ 32 _ _ _ _ (by decide) (Nat.le_max_right _ _)
      (fun _ => Nat.zero_lt_one))⟩

/-! ## The encoder and the clock -/


theorem pack_array_elems_clock
    (step : Value → datastream → abi_traverse_context → Except Err (datastream × abi_traverse_context))
    (hstep : ∀ v ds ctx ctx1, ctx.never_expires → ctx1.never_expires →
      agree_up_to_clock ctx ctx1 (step v ds ctx) (step v ds ctx1)) :
    ∀ (l : List Value) (ds : datastream) (ctx ctx1 : abi_traverse_context),
      ctx.never_expires → ctx1.never_expires →
      agree_up_to_clock ctx ctx1 (pack_array_elems step l ds ctx) (pack_array_elems step l ds ctx1) := by
  intro l
  induction l with
  | nil =>
    intro ds ctx ctx1 _ _
    exact Or.inr ⟨ds, ctx, ctx1, rfl, rfl, same_clock_refl _, same_clock_refl _⟩
  | cons v vs ih =>
    intro ds ctx ctx1 hn hn1
    unfold pack_array_elems
    rcases hstep v ds ctx ctx1 hn hn1 with ⟨e, h1, h2⟩ | ⟨d, c, c1, h1, h2, h3, h4⟩
    · rw [h1, h2]; exact Or.inl ⟨e, rfl, rfl⟩
    · rw [h1, h2]
      simp only
      rcases ih d c c1 (never_expires_of_same_clock h3 hn) (never_expires_of_same_clock h4 hn1) with
        ⟨e, h5, h6⟩ | ⟨d2, c2, c3, h5, h6, h7, h8⟩
      · exact Or.inl ⟨e, h5, h6⟩
      · exact Or.inr ⟨d2, c2, c3, h5, h6, same_clock_trans h3 h7, same_clock_trans h4 h8⟩

theorem pack_fields_clock
    (step : type_name → Value → datastream → abi_traverse_context →
      Except Err (datastream × abi_traverse_context))
    (hstep : ∀ t v ds ctx ctx1, ctx.never_expires → ctx1.never_expires →
      agree_up_to_clock ctx ctx1 (step t v ds ctx) (step t v ds ctx1))
    (vo : List (String × Value)) :
    ∀ (l : List field_def) (ds : datastream) (ctx ctx1 : abi_traverse_context),
      ctx.never_expires → ctx1.never_expires →
      agree_up_to_clock ctx ctx1 (pack_fields step vo l ds ctx) (pack_fields step vo l ds ctx1) := by
  intro l
  induction l with
  | nil =>
    intro ds ctx ctx1 _ _
    exact Or.inr ⟨ds, ctx, ctx1, rfl, rfl, same_clock_refl _, same_clock_refl _⟩
  | cons f fs ih =>
    intro ds ctx ctx1 hn hn1
    unfold pack_fields
    cases hg : GetFieldVariant (Value.obj vo) f.name with
    | error e => exact Or.inl ⟨e, rfl, rfl⟩
    | ok v =>
      simp only
      rcases hstep (_remove_bin_extension f.type) v ds ctx ctx1 hn hn1 with
        ⟨e, h1, h2⟩ | ⟨d, c, c1, h1, h2, h3, h4⟩
      · rw [h1, h2]; exact Or.inl ⟨e, rfl, rfl⟩
      · rw [h1, h2]
        simp only
        rcases ih d c c1 (never_expires_of_same_clock h3 hn) (never_expires_of_same_clock h4 hn1) with
          ⟨e, h5, h6⟩ | ⟨d2, c2, c3, h5, h6, h7, h8⟩
        · exact Or.inl ⟨e, h5, h6⟩
        · exact Or.inr ⟨d2, c2, c3, h5, h6, same_clock_trans h3 h7, same_clock_trans h4 h8⟩

/-- Under deadlines that never expire, the outcome of `_variant_to_binary` does not depend
on the context it is called with. -/
theorem variant_to_binary_clock (self : abi_serializer) (fuel : Nat) :
    ∀ (type : type_name) (var : Value) (ds : datastream) (ctx ctx1 : abi_traverse_context),
      ctx.never_expires → ctx1.never_expires →
      agree_up_to_clock ctx ctx1 (_variant_to_binary self fuel type var ds ctx)
        (_variant_to_binary self fuel type var ds ctx1) := by
  induction fuel with
  | zero => intro type var ds ctx ctx1 _ _; exact Or.inl ⟨.fuel_exhausted, rfl, rfl⟩
  | succ n ih =>
    intro type var ds ctx ctx1 hn hn1
    unfold _variant_to_binary
    rw [check_deadline_never hn, check_deadline_never hn1]
    simp only [WASM_CAPTURE_AND_RETHROW]
    have hm : (abi_traverse_context.enter { ctx with reads := ctx.reads + 1 }).never_expires :=
      fun m => hn m
    have hm1 : (abi_traverse_context.enter { ctx1 with reads := ctx1.reads + 1 }).never_expires :=
      fun m => hn1 m
    have hs : same_clock ctx (abi_traverse_context.enter { ctx with reads := ctx.reads + 1 }) :=
      ⟨rfl, rfl⟩
    have hs1 : same_clock ctx1 (abi_traverse_context.enter { ctx1 with reads := ctx1.reads + 1 }) :=
      ⟨rfl, rfl⟩
    cases hb : map_find self.built_in_types (fundamental_type (resolve_type self type)) with
    | some btype =>
      simp only
      cases hp : btype.pack var ds (is_array (resolve_type self type))
          (is_optional (resolve_type self type)) with
      | error e => exact Or.inl ⟨e, rfl, rfl⟩
      | ok d => exact Or.inr ⟨d, _, _, rfl, rfl, hs, hs1⟩
    | none =>
      simp only
      by_cases ha : is_array (resolve_type self type) = true
      · simp only [ha, if_true]
        cases hg : var.get_array with
        | error e => exact Or.inl ⟨e, rfl, rfl⟩
        | ok t =>
          simp only
          cases hw : ds.write (pack_varuint32 t.length) with
          | error e => exact Or.inl ⟨e, rfl, rfl⟩
          | ok d =>
            simp only
            rcases pack_array_elems_clock _ (ih _) t d _ _ hm hm1 with
              ⟨e, h5, h6⟩ | ⟨d2, c2, c3, h5, h6, h7, h8⟩
            · exact Or.inl ⟨e, h5, h6⟩
            · exact Or.inr ⟨d2, c2, c3, h5, h6, same_clock_trans hs h7, same_clock_trans hs1 h8⟩
      · simp only [ha, Bool.false_eq_true, if_false]
        cases hst : map_find self.structs (resolve_type self type) with
        | none => exact Or.inl ⟨_, rfl, rfl⟩
        | some st =>
          simp only
          cases var with
          | obj vo =>
            simp only
            by_cases hbase : st.base ≠ ""
            · rw [if_pos hbase, if_pos hbase]
              rcases ih (resolve_type self st.base) (Value.obj vo) ds _ _ hm hm1 with
                ⟨e, h1, h2⟩ | ⟨d, c, c1, h1, h2, h3, h4⟩
              · rw [h1, h2]; exact Or.inl ⟨e, rfl, rfl⟩
              · rw [h1, h2]
                simp only
                rcases pack_fields_clock _ (ih) vo st.fields d c c1
                    (never_expires_of_same_clock h3 hm) (never_expires_of_same_clock h4 hm1) with
                  ⟨e, h5, h6⟩ | ⟨d2, c2, c3, h5, h6, h7, h8⟩
                · exact Or.inl ⟨e, h5, h6⟩
                · exact Or.inr ⟨d2, c2, c3, h5, h6, same_clock_trans hs (same_clock_trans h3 h7),
                    same_clock_trans hs1 (same_clock_trans h4 h8)⟩
            · rw [if_neg hbase, if_neg hbase]
              rcases pack_fields_clock _ (ih) vo st.fields ds _ _ hm hm1 with
                ⟨e, h5, h6⟩ | ⟨d2, c2, c3, h5, h6, h7, h8⟩
              · exact Or.inl ⟨e, h5, h6⟩
              · exact Or.inr ⟨d2, c2, c3, h5, h6, same_clock_trans hs h7, same_clock_trans hs1 h8⟩
          | null => exact Or.inl ⟨_, rfl, rfl⟩
          | bool _ => exact Or.inl ⟨_, rfl, rfl⟩
          | int _ => exact Or.inl ⟨_, rfl, rfl⟩
          | str _ => exact Or.inl ⟨_, rfl, rfl⟩
          | array _ => exact Or.inl ⟨_, rfl, rfl⟩

/-! ## The top-level encoder on an unknown type -/

theorem is_type_entry_value {self : abi_serializer} {fuel : Nat} {type : type_name}
    {max_serialization_time : Nat} {clock : Nat → Nat} {b : Bool}
    (h : is_type self fuel type max_serialization_time clock = .ok b) :
    known_type self fuel type = some b := by
  unfold is_type at h
  split at h
  · cases h
  · rename_i b1 c h1
    cases h
    exact is_type_known _ _ _ _ _ _ h1

/-- C11. Unknown type at the top-level encoder. Let every reading of the clock be before
the deadline. (1) When `is_type(t)` is false, the bytes-returning `variant_to_binary`
returns the empty byte string, for every value. (2) When the resolved name of `t` is
neither built-in (after removal of an array or optional suffix), nor an array name, nor a
struct name, the stream-writing `variant_to_binary` raises invalid-type-inside-abi, for
every value and every stream. (3) When `is_type(t)` is true, the bytes-returning overload
returns exactly the bytes that the stream-writing overload writes into a fresh buffer of
1 MiB, and raises what it raises. -/
theorem C11_unknown_type_encoder (self : abi_serializer) (fuel : Nat) (type : type_name)
    (var : Value) (max_serialization_time : Nat) (clock : Nat → Nat)
    (hclock : ∀ n, clock n < clock 0 + max_serialization_time) :
    (is_type self fuel type max_serialization_time clock = .ok false →
      variant_to_binary self fuel type var max_serialization_time clock = .ok []) ∧
    (map_find self.built_in_types (fundamental_type (resolve_type self type)) = none →
      is_array (resolve_type self type) = false →
      map_find self.structs (resolve_type self type) = none →
      ∀ ds, variant_to_binary_stream self (fuel + 1) type var ds max_serialization_time clock =
        .error .invalid_type_inside_abi) ∧
    (is_type self fuel type max_serialization_time clock = .ok true →
      variant_to_binary self fuel type var max_serialization_time clock =
        match variant_to_binary_stream self fuel type var
            { written := [], capacity := 1024 * 1024 } max_serialization_time clock with
        | .error e => .error e
        | .ok ds => .ok ds.written) := by
  have hn : (abi_traverse_context.create clock 0 max_serialization_time).never_expires :=
    create_never_expires clock 0 max_serialization_time hclock
  have hn1 : abi_traverse_context.never_expires
      { abi_traverse_context.create clock 0 max_serialization_time with
        reads := (abi_traverse_context.create clock 0 max_serialization_time).reads + 1 } :=
    fun m => hn m
  refine ⟨?_, ?_, ?_⟩
  · intro h
    obtain ⟨c2, h2, _⟩ := known_is_type self fuel type _ false hn1 (is_type_entry_value h)
    unfold variant_to_binary _variant_to_binary_bytes
    rw [check_deadline_never hn]
    simp only [h2, Bool.false_eq_true, if_false]
  · intro hb ha hs ds
    unfold variant_to_binary_stream _variant_to_binary
    rw [check_deadline_never hn]
    simp only [WASM_CAPTURE_AND_RETHROW, hb, ha, Bool.false_eq_true, if_false, hs]
  · intro h
    obtain ⟨c2, h2, hsc⟩ := known_is_type self fuel type _ true hn1 (is_type_entry_value h)
    unfold variant_to_binary _variant_to_binary_bytes variant_to_binary_stream
    rw [check_deadline_never hn]
    simp only [h2, if_true]
    rcases variant_to_binary_clock self fuel type var { written := [], capacity := 1024 * 1024 }
        c2 (abi_traverse_context.create clock 0 max_serialization_time)
        (never_expires_of_same_clock hsc hn1) hn with
      ⟨e, h5, h6⟩ | ⟨d2, c3, c4, h5, h6, _, _⟩
    · rw [h5, h6]
    · rw [h5, h6]

/-- C11 (witness). On a serializer without ABI the name `nosuch` is no type: the
bytes-returning overload returns no bytes and the stream-writing overload raises
invalid-type-inside-abi; the type `uint32` is encoded to the same four bytes by both. -/
theorem C11_unknown_type_encoder_witness :
    variant_to_binary fresh_serializer 32 "nosuch" (.int 1) 1 still_clock = .ok [] ∧
    variant_to_binary_stream fresh_serializer 32 "nosuch" (.int 1)
      { written := [], capacity := 16 } 1 still_clock = .error .invalid_type_inside_abi ∧
    variant_to_binary fresh_serializer 32 "uint32" (.int 1) 1 still_clock =
      match variant_to_binary_stream fresh_serializer 32 "uint32" (.int 1)
          { written := [], capacity := 1024 * 1024 } 1 still_clock with
      | .error e => .error e
      | .ok ds => .ok ds.written :=
  ⟨(C11_unknown_type_encoder fresh_serializer 32 "nosuch" (.int 1) 1 still_clock
      (fun _ => Nat.zero_lt_one)).1 (by decide),
    (C11_unknown_type_encoder fresh_serializer 31 "nosuch" (.int 1) 1 still_clock
      (fun _ => Nat.zero_lt_one)).2.1 rfl (by decide) (by decide) _,
    (C11_unknown_type_encoder fresh_serializer 32 "uint32" (.int 1) 1 still_clock
      (fun _ => Nat.zero_lt_one)).2.2 (by decide)⟩

/-! ## The state of an accepted ABI -/

theorem map_find_mem_key {V : Type} (m : List (String × V)) (k : String) (v : V)
    (h : map_find m k = some v) : (k, v) ∈ m := by
  induction m with
  | nil => simp [map_find] at h
  | cons p rest ih =>
    obtain ⟨k1, v1⟩ := p
    unfold map_find at h
    split at h
    · rename_i hk
      cases h
      subst hk
      simp
    · exact List.mem_cons_of_mem _ (ih h)

/-- When `set_abi` returns normally, `validate` has returned normally on the state it
leaves, whose maps hold the entries of the document and whose registry is unchanged. -/
theorem set_abi_ok_state (self : abi_serializer) (fuel : Nat) (abi : abi_def)
    (max_serialization_time : Nat) (clock : Nat → Nat)
    (h : (set_abi self fuel abi max_serialization_time clock).2 = .ok ()) :
    (∃ ctx ctx1, validate (set_abi self fuel abi max_serialization_time clock).1 fuel ctx =
      .ok ctx1) ∧
    (set_abi self fuel abi max_serialization_time clock).1.typedefs =
      abi.types.foldl (fun m td => map_set m td.new_type_name td.type) [] ∧
    (set_abi self fuel abi max_serialization_time clock).1.structs =
      abi.structs.foldl (fun m st => map_set m st.name st) [] ∧
    (set_abi self fuel abi max_serialization_time clock).1.actions =
      abi.actions.foldl (fun m a => map_set m a.name a.type) [] ∧
    (set_abi self fuel abi max_serialization_time clock).1.tables =
      abi.tables.foldl (fun m a => map_set m a.name a.type) [] ∧
    (set_abi self fuel abi max_serialization_time clock).1.built_in_types =
      self.built_in_types := by
  unfold set_abi at h ⊢
  by_cases hv : starts_with abi.version "wasm::abi/1." = true
  swap
  · rw [if_neg hv] at h; cases h
  · rw [if_pos hv] at h ⊢
    simp only at h ⊢
    obtain ⟨tds, hst, hok⟩ := set_abi_typedefs_state fuel abi.types
      (set_abi_structs { self with typedefs := [], structs := [], actions := [], tables := [] }
        abi.structs) (abi_traverse_context.create clock 0 max_serialization_time)
    generalize set_abi_typedefs fuel
      (set_abi_structs { self with typedefs := [], structs := [], actions := [], tables := [] }
        abi.structs) abi.types (abi_traverse_context.create clock 0 max_serialization_time) = res
      at h hst hok ⊢
    obtain ⟨self3, r⟩ := res
    cases r with
    | error e => cases h
    | ok ctx1 =>
      simp only at hst h ⊢
      have htds := hok ctx1 rfl
      subst hst
      simp only [set_abi_structs_eq, set_abi_actions_eq, set_abi_tables_eq,
        set_abi_error_messages_eq] at h htds ⊢
      split at h
      · cases h
      · rename_i hl1
        split at h
        · cases h
        · rename_i hl2
          split at h
          · cases h
          · rename_i hl3
            split at h
            · cases h
            · rename_i hl4
              rw [if_neg hl1, if_neg hl2, if_neg hl3, if_neg hl4]
              split at h
              · cases h
              · rename_i c hval
                exact ⟨⟨_, _, hval⟩, htds, rfl, rfl, rfl, rfl⟩

/-! ## Typedef resolution on an accepted ABI -/

theorem keys_unseen_lt (typedefs : List (type_name × type_name)) (seen : List type_name)
    (t t1 : type_name) (hkey : map_find typedefs t = some t1) (ht : t ∉ seen) :
    keys_unseen typedefs (seen ++ [t]) < keys_unseen typedefs seen := by
  unfold keys_unseen
  apply filter_length_lt _ _ t
  · intro a ha
    simp only [decide_eq_true_eq, List.mem_append, List.mem_singleton, not_or] at ha ⊢
    exact ha.1
  · exact List.mem_map.mpr ⟨(t, t1), map_find_mem_key _ _ _ hkey, rfl⟩
  · simpa using ht
  · simp

theorem keys_unseen_le (typedefs : List (type_name × type_name)) (seen : List type_name) :
    keys_unseen typedefs seen ≤ typedefs.length := by
  unfold keys_unseen
  calc ((typedefs.map Prod.fst).filter (fun n => decide (n ∉ seen))).length
      ≤ (typedefs.map Prod.fst).length := List.length_filter_le _ _
    _ = typedefs.length := by simp

/-- A chain walk of `validate` that returns normally from the name `t` bounds the loop of
`resolve_type`: started at `t` with more iterations than there are keys outside the names
met before `t`, the loop finds a name that is no key of the typedef map. -/
theorem validate_typedef_walk_resolves (typedefs : List (type_name × type_name)) (fuel : Nat) :
    ∀ (t : type_name) (seen : List type_name) (ctx ctx1 : abi_traverse_context),
      validate_typedef_walk typedefs fuel (map_find typedefs t) (seen ++ [t]) ctx = .ok ctx1 →
      t ∉ seen → ∀ i, keys_unseen typedefs seen < i →
      ∃ r, resolve_type_loop typedefs i t = some r ∧ map_find typedefs r = none := by
  induction fuel with
  | zero =>
    intro t seen ctx ctx1 h _ i hi
    cases hf : map_find typedefs t with
    | none =>
      obtain ⟨j, rfl⟩ : ∃ j, i = j + 1 := ⟨i - 1, by omega⟩
      exact ⟨t, by simp [resolve_type_loop, hf], hf⟩
    | some t1 =>
      rw [hf] at h
      simp [validate_typedef_walk] at h
  | succ n ih =>
    intro t seen ctx ctx1 h ht i hi
    obtain ⟨j, rfl⟩ : ∃ j, i = j + 1 := ⟨i - 1, by omega⟩
    cases hf : map_find typedefs t with
    | none => exact ⟨t, by simp [resolve_type_loop, hf], hf⟩
    | some t1 =>
      rw [hf] at h
      unfold validate_typedef_walk at h
      split at h
      · cases h
      · rename_i c hc
        split at h
        · cases h
        · rename_i hnot
          have hlt := keys_unseen_lt typedefs seen t t1 hf ht
          obtain ⟨r, hr1, hr2⟩ := ih t1 (seen ++ [t]) c ctx1 h hnot j (by omega)
          exact ⟨r, by simp only [resolve_type_loop, hf]; exact hr1, hr2⟩

theorem validate_typedef_chains_walks (self : abi_serializer) (fuel : Nat) :
    ∀ (l : List (type_name × type_name)) (ctx ctx1 : abi_traverse_context),
      validate_typedef_chains self fuel l ctx = .ok ctx1 →
      ∀ p ∈ l, ∃ c c1, validate_typedef_walk self.typedefs fuel (map_find self.typedefs p.2)
        [p.1, p.2] c = .ok c1 := by
  intro l
  induction l with
  | nil => intro ctx ctx1 _ p hp; simp at hp
  | cons q rest ih =>
    intro ctx ctx1 h p hp
    unfold validate_typedef_chains at h
    simp only [WASM_CAPTURE_AND_RETHROW] at h
    split at h
    · cases h
    · rename_i c2 h2
      rcases List.mem_cons.mp hp with hp | hp
      · subst hp; exact ⟨_, _, h2⟩
      · exact ih _ _ h p hp

/-- When the chain check of `validate` returns normally, the loop of `resolve_type` finds,
from the target of every typedef and within as many iterations as the map has entries, a
name that is no key of the map. -/
theorem validate_typedef_chains_resolves (self : abi_serializer) (fuel : Nat)
    (ctx ctx1 : abi_traverse_context)
    (h : validate_typedef_chains self fuel self.typedefs ctx = .ok ctx1)
    (t t1 : type_name) (ht : map_find self.typedefs t = some t1) :
    ∃ r, resolve_type_loop self.typedefs self.typedefs.length t1 = some r ∧
      map_find self.typedefs r = none := by
  obtain ⟨c, c1, hw⟩ := validate_typedef_chains_walks self fuel _ _ _ h (t, t1)
    (map_find_mem_key _ _ _ ht)
  simp only at hw
  have hlt : keys_unseen self.typedefs [t] < self.typedefs.length :=
    Nat.lt_of_lt_of_le (keys_unseen_lt self.typedefs [] t t1 ht (by simp))
      (keys_unseen_le _ _)
  by_cases hne : t1 = t
  · subst hne
    rw [ht] at hw
    cases fuel with
    | zero => simp [validate_typedef_walk] at hw
    | succ n =>
      unfold validate_typedef_walk at hw
      split at hw
      · cases hw
      · simp at hw
  · exact validate_typedef_walk_resolves self.typedefs fuel t1 [t] c c1 hw (by simpa using hne)
      _ hlt

theorem resolve_type_idempotent (self : abi_serializer) (t : type_name) :
    resolve_type self (resolve_type self t) = resolve_type self t := by
  have hloop : ∀ (i : Nat) (a r : type_name), resolve_type_loop self.typedefs i a = some r →
      map_find self.typedefs r = none := by
    intro i
    induction i with
    | zero => intro a r h; simp [resolve_type_loop] at h
    | succ n ih =>
      intro a r h
      unfold resolve_type_loop at h
      split at h
      · rename_i hf; cases h; exact hf
      · exact ih _ _ h
  have hnone : ∀ a, map_find self.typedefs a = none → resolve_type self a = a := by
    intro a ha
    simp [resolve_type, ha]
  cases hf : map_find self.typedefs t with
  | none => rw [hnone t hf, hnone t hf]
  | some t1 =>
    cases hl : resolve_type_loop self.typedefs self.typedefs.length t1 with
    | none =>
      have : resolve_type self t = t := by simp [resolve_type, hf, hl]
      rw [this, this]
    | some r =>
      have : resolve_type self t = r := by simp [resolve_type, hf, hl]
      rw [this]
      exact hnone r (hloop _ _ _ hl)

/-- C12. Typedef resolution on an accepted ABI. When `set_abi` returns normally, then in
the state it leaves and for every type name `t`: if `t` is a typedef, the loop of
`resolve_type` finds a name that is no typedef within as many iterations as the typedef
map has entries (so the `return type` after the loop is not reached);
`resolve_type(t)` is no key of the typedef map; and `resolve_type` is idempotent. -/
theorem C12_resolve_type_resolves (self : abi_serializer) (fuel : Nat) (abi : abi_def)
    (max_serialization_time : Nat) (clock : Nat → Nat)
    (hok : (set_abi self fuel abi max_serialization_time clock).2 = .ok ()) (t : type_name) :
    (∀ t1, map_find (set_abi self fuel abi max_serialization_time clock).1.typedefs t = some t1 →
      ∃ r, resolve_type_loop (set_abi self fuel abi max_serialization_time clock).1.typedefs
          (set_abi self fuel abi max_serialization_time clock).1.typedefs.length t1 = some r ∧
        map_find (set_abi self fuel abi max_serialization_time clock).1.typedefs r = none) ∧
    map_find (set_abi self fuel abi max_serialization_time clock).1.typedefs
      (resolve_type (set_abi self fuel abi max_serialization_time clock).1 t) = none ∧
    resolve_type (set_abi self fuel abi max_serialization_time clock).1
        (resolve_type (set_abi self fuel abi max_serialization_time clock).1 t) =
      resolve_type (set_abi self fuel abi max_serialization_time clock).1 t := by
  obtain ⟨⟨ctx, ctx1, hval⟩, _⟩ := set_abi_ok_state self fuel abi max_serialization_time clock hok
  generalize (set_abi self fuel abi max_serialization_time clock).1 = s at hval ⊢
  have hchains : ∃ c, validate_typedef_chains s fuel s.typedefs ctx = .ok c := by
    unfold validate at hval
    split at hval
    · cases hval
    · rename_i c hc; exact ⟨c, hc⟩
  obtain ⟨c, hc⟩ := hchains
  refine ⟨fun t1 ht => validate_typedef_chains_resolves s fuel ctx c hc t t1 ht, ?_,
    resolve_type_idempotent s t⟩
  cases hf : map_find s.typedefs t with
  | none => simp [resolve_type, hf]
  | some t1 =>
    obtain ⟨r, hr1, hr2⟩ := validate_typedef_chains_resolves s fuel ctx c hc t t1 hf
    simp [resolve_type, hf, hr1, hr2]

/-- C12 (witness). On the accepted ABI with the typedefs `u = uint32` and `v = u`, the name
`v` resolves to `uint32`, which is no typedef, and resolving again changes nothing. -/
theorem C12_resolve_type_resolves_witness :
    map_find (loaded (abi_of [⟨"u", "uint32"⟩, ⟨"v", "u"⟩] [])).typedefs
      (resolve_type (loaded (abi_of [⟨"u", "uint32"⟩, ⟨"v", "u"⟩] [])) "v") = none ∧
    resolve_type (loaded (abi_of [⟨"u", "uint32"⟩, ⟨"v", "u"⟩] []))
        (resolve_type (loaded (abi_of [⟨"u", "uint32"⟩, ⟨"v", "u"⟩] [])) "v") =
      resolve_type (loaded (abi_of [⟨"u", "uint32"⟩, ⟨"v", "u"⟩] [])) "v" ∧
    resolve_type (loaded (abi_of [⟨"u", "uint32"⟩, ⟨"v", "u"⟩] [])) "v" = "uint32" :=
  ⟨(C12_resolve_type_resolves fresh_serializer 32 (abi_of [⟨"u", "uint32"⟩, ⟨"v", "u"⟩] []) 1
      still_clock (by decide) "v").2.1,
    (C12_resolve_type_resolves fresh_serializer 32 (abi_of [⟨"u", "uint32"⟩, ⟨"v", "u"⟩] []) 1
      still_clock (by decide) "v").2.2, by decide⟩

/-! ## The known-type invariant -/


theorem pack_fields_agree
    (step : type_name → Value → datastream → abi_traverse_context →
      Except Err (datastream × abi_traverse_context))
    (vo vo1 : List (String × Value)) :
    ∀ (l : List field_def), (∀ f ∈ l, find_field vo f.name = find_field vo1 f.name) →
      ∀ (ds : datastream) (ctx : abi_traverse_context),
        pack_fields step vo l ds ctx = pack_fields step vo1 l ds ctx := by
  intro l
  induction l with
  | nil => intro _ ds ctx; rfl
  | cons f fs ih =>
    intro hag ds ctx
    unfold pack_fields
    simp only [GetFieldVariant, hag f (by simp)]
    split
    · rfl
    · split
      · rfl
      · exact ih (fun g hg => hag g (List.mem_cons_of_mem _ hg)) _ _

theorem pack_fields_missing
    (step : type_name → Value → datastream → abi_traverse_context →
      Except Err (datastream × abi_traverse_context))
    (vo : List (String × Value)) :
    ∀ (l : List field_def), (∃ f ∈ l, find_field vo f.name = none) →
      ∀ (ds : datastream) (ctx : abi_traverse_context),
        ∃ e, pack_fields step vo l ds ctx = .error e := by
  intro l
  induction l with
  | nil => intro h; obtain ⟨f, hf, _⟩ := h; simp at hf
  | cons g fs ih =>
    intro hex ds ctx
    unfold pack_fields
    cases hg : find_field vo g.name with
    | none => exact ⟨.invalid_type_inside_abi, by simp [GetFieldVariant, hg]⟩
    | some v =>
      simp only [GetFieldVariant, hg]
      cases hs : step (_remove_bin_extension g.type) v ds ctx with
      | error e => exact ⟨e, rfl⟩
      | ok r =>
        obtain ⟨ds1, ctx1⟩ := r
        simp only
        apply ih
        obtain ⟨f, hf, hfn⟩ := hex
        rcases List.mem_cons.mp hf with hf | hf
        · subst hf; rw [hg] at hfn; cases hfn
        · exact ⟨f, hf, hfn⟩

/-- The field loop fails with invalid-type-inside-abi at the first field that the object
lacks, when the fields before it are encoded. -/
theorem pack_fields_first_missing
    (step : type_name → Value → datastream → abi_traverse_context →
      Except Err (datastream × abi_traverse_context))
    (vo : List (String × Value)) (f : field_def) (rest : List field_def)
    (hf : find_field vo f.name = none) :
    ∀ (pre : List field_def) (ds : datastream) (ctx : abi_traverse_context)
      (ds1 : datastream) (ctx1 : abi_traverse_context),
      pack_fields step vo pre ds ctx = .ok (ds1, ctx1) →
      pack_fields step vo (pre ++ f :: rest) ds ctx = .error .invalid_type_inside_abi := by
  intro pre
  induction pre with
  | nil =>
    intro ds ctx ds1 ctx1 _
    simp [pack_fields, GetFieldVariant, hf]
  | cons g gs ih =>
    intro ds ctx ds1 ctx1 h
    unfold pack_fields at h
    simp only [List.cons_append]
    unfold pack_fields
    split at h
    · cases h
    · rename_i v hv
      split at h
      · cases h
      · exact ih _ _ _ _ h

theorem struct_chain_resolved {self : abi_serializer} {R : type_name} {names : List field_name}
    (h : struct_chain self R names) : ∃ st, struct_dispatch self R st := by
  cases h with
  | root _ st hd _ => exact ⟨st, hd⟩
  | derived _ st _ hd _ _ => exact ⟨st, hd⟩

/-- The struct branch of the encoder, on a type that resolves to a name handled by it. -/
theorem variant_to_binary_struct (self : abi_serializer) (fuel : Nat) (type : type_name)
    (st : struct_def) (hd : struct_dispatch self (resolve_type self type) st) (var : Value)
    (ds : datastream) (ctx ctx0 : abi_traverse_context) (hctx : ctx.check_deadline = .ok ctx0) :
    _variant_to_binary self (fuel + 1) type var ds ctx =
      match var with
      | .obj vo =>
        if st.base ≠ "" then
          match _variant_to_binary self fuel (resolve_type self st.base) var ds ctx0.enter with
          | .error e => .error e
          | .ok (ds1, ctx2) => pack_fields (_variant_to_binary self fuel) vo st.fields ds1 ctx2
        else pack_fields (_variant_to_binary self fuel) vo st.fields ds ctx0.enter
      | _ => .error .invalid_type_inside_abi := by
  obtain ⟨_, hb, ha, _, hs⟩ := hd
  conv_lhs => unfold _variant_to_binary
  rw [hctx]
  simp only [WASM_CAPTURE_AND_RETHROW, hb, ha, Bool.false_eq_true, if_false, hs]

theorem variant_to_binary_deadline (self : abi_serializer) (fuel : Nat) (type : type_name)
    (var : Value) (ds : datastream) (ctx : abi_traverse_context) (e : Err)
    (h : ctx.check_deadline = .error e) :
    _variant_to_binary self (fuel + 1) type var ds ctx = .error e := by
  unfold _variant_to_binary
  rw [h]

/-- An object that lacks a field name declared along the base chain is not encoded. -/
theorem variant_to_binary_missing (self : abi_serializer) {R : type_name}
    {names : List field_name} (h : struct_chain self R names) (vo : List (String × Value)) :
    (∃ n ∈ names, find_field vo n = none) →
    ∀ (type : type_name), resolve_type self type = R →
      ∀ (fuel : Nat) (ds : datastream) (ctx : abi_traverse_context),
        ∃ e, _variant_to_binary self fuel type (Value.obj vo) ds ctx = .error e := by
  induction h with
  | root R st hd hbase =>
    intro hmiss type hR fuel ds ctx
    subst hR
    cases fuel with
    | zero => exact ⟨.fuel_exhausted, by simp [_variant_to_binary]⟩
    | succ n =>
      cases hc : ctx.check_deadline with
      | error e => exact ⟨e, variant_to_binary_deadline self n type _ ds ctx e hc⟩
      | ok ctx0 =>
        rw [variant_to_binary_struct self n type st hd _ ds ctx ctx0 hc]
        simp only
        rw [if_neg (by simp [hbase])]
        apply pack_fields_missing
        obtain ⟨k, hk, hkn⟩ := hmiss
        obtain ⟨f, hf, hfk⟩ := List.mem_map.mp hk
        exact ⟨f, hf, by rw [hfk]; exact hkn⟩
  | derived R st names hd hbase _ ih =>
    intro hmiss type hR fuel ds ctx
    subst hR
    cases fuel with
    | zero => exact ⟨.fuel_exhausted, by simp [_variant_to_binary]⟩
    | succ n =>
      cases hc : ctx.check_deadline with
      | error e => exact ⟨e, variant_to_binary_deadline self n type _ ds ctx e hc⟩
      | ok ctx0 =>
        rw [variant_to_binary_struct self n type st hd _ ds ctx ctx0 hc]
        simp only
        rw [if_pos hbase]
        obtain ⟨k, hk, hkn⟩ := hmiss
        rcases List.mem_append.mp hk with hk | hk
        · obtain ⟨e, he⟩ := ih ⟨k, hk, hkn⟩ (resolve_type self st.base)
            (resolve_type_idempotent self st.base) n ds ctx0.enter
          rw [he]
          exact ⟨e, rfl⟩
        · cases hbr : _variant_to_binary self n (resolve_type self st.base) (Value.obj vo) ds
            ctx0.enter with
          | error e => exact ⟨e, rfl⟩
          | ok r =>
            obtain ⟨ds1, ctx2⟩ := r
            simp only
            apply pack_fields_missing
            obtain ⟨f, hf, hfk⟩ := List.mem_map.mp hk
            exact ⟨f, hf, by rw [hfk]; exact hkn⟩

/-- Two objects with the same first pair for every field name declared along the base
chain are encoded alike. -/
theorem variant_to_binary_agree (self : abi_serializer) {R : type_name}
    {names : List field_name} (h : struct_chain self R names) (vo vo1 : List (String × Value)) :
    (∀ n ∈ names, find_field vo n = find_field vo1 n) →
    ∀ (type : type_name), resolve_type self type = R →
      ∀ (fuel : Nat) (ds : datastream) (ctx : abi_traverse_context),
        _variant_to_binary self fuel type (Value.obj vo) ds ctx =
          _variant_to_binary self fuel type (Value.obj vo1) ds ctx := by
  induction h with
  | root R st hd hbase =>
    intro hag type hR fuel ds ctx
    subst hR
    cases fuel with
    | zero => simp [_variant_to_binary]
    | succ n =>
      cases hc : ctx.check_deadline with
      | error e =>
        rw [variant_to_binary_deadline self n type _ ds ctx e hc,
          variant_to_binary_deadline self n type _ ds ctx e hc]
      | ok ctx0 =>
        rw [variant_to_binary_struct self n type st hd _ ds ctx ctx0 hc,
          variant_to_binary_struct self n type st hd _ ds ctx ctx0 hc]
        simp only
        rw [if_neg (by simp [hbase]), if_neg (by simp [hbase])]
        exact pack_fields_agree _ vo vo1 st.fields
          (fun f hf => hag _ (List.mem_map.mpr ⟨f, hf, rfl⟩)) _ _
  | derived R st names hd hbase _ ih =>
    intro hag type hR fuel ds ctx
    subst hR
    cases fuel with
    | zero => simp [_variant_to_binary]
    | succ n =>
      cases hc : ctx.check_deadline with
      | error e =>
        rw [variant_to_binary_deadline self n type _ ds ctx e hc,
          variant_to_binary_deadline self n type _ ds ctx e hc]
      | ok ctx0 =>
        rw [variant_to_binary_struct self n type st hd _ ds ctx ctx0 hc,
          variant_to_binary_struct self n type st hd _ ds ctx ctx0 hc]
        simp only
        rw [if_pos hbase, if_pos hbase]
        rw [ih (fun k hk => hag k (List.mem_append.mpr (Or.inl hk))) (resolve_type self st.base)
          (resolve_type_idempotent self st.base) n ds ctx0.enter]
        have hf := pack_fields_agree (_variant_to_binary self n) vo vo1 st.fields
          (fun f hf => hag _ (List.mem_append.mpr (Or.inr (List.mem_map.mpr ⟨f, hf, rfl⟩))))
        cases _variant_to_binary self n (resolve_type self st.base) (Value.obj vo1) ds
            ctx0.enter with
        | error e => rfl
        | ok r => exact hf _ _

/-- C14 (counterexample). An object that lacks a declared field is not always refused with
invalid-type-inside-abi: a field declared before the missing one is encoded first, and its
failure is the one raised. With the struct `s` of fields `a : t[]` and `b : uint8` (`t` an
empty struct, the ABI accepted), the object `{a: 5}` lacks `b` and the call fails on `a`,
whose value is no array, with the run-time error of `get_array`; with the fields
`a : uint8`, `b : uint8`, the object `{a: 1}` written to a stream of capacity zero fails
with stream-overflow, and under a clock that reaches the deadline at its third reading
(when the call for `a` is entered) it fails with abi-serialization-deadline. When nothing
precedes the failure, the kind is invalid-type-inside-abi. -/
theorem C14_counterexample :
    raised (load (abi_of [] [⟨"s", "", [⟨"a", "t[]"⟩, ⟨"b", "uint8"⟩]⟩, ⟨"t", "", []⟩])) = none ∧
    find_field [("a", Value.int 5)] "b" = none ∧
    encode (abi_of [] [⟨"s", "", [⟨"a", "t[]"⟩, ⟨"b", "uint8"⟩]⟩, ⟨"t", "", []⟩]) "s"
      (.obj [("a", .int 5)]) = .error .runtime_error ∧
    variant_to_binary_stream (loaded (abi_of [] [⟨"s", "", [⟨"a", "uint8"⟩, ⟨"b", "uint8"⟩]⟩]))
      32 "s" (.obj [("a", .int 1)]) { written := [], capacity := 0 } 1 still_clock =
      .error .stream_overflow ∧
    variant_to_binary_stream (loaded (abi_of [] [⟨"s", "", [⟨"a", "uint8"⟩, ⟨"b", "uint8"⟩]⟩]))
      32 "s" (.obj [("a", .int 1)]) { written := [], capacity := 16 } 1
      (fun n => if n < 2 then 0 else 5) = .error .abi_serialization_deadline_exception ∧
    encode (abi_of [] [⟨"s", "", [⟨"a", "uint8"⟩, ⟨"b", "uint8"⟩]⟩]) "s" (.obj [("a", .int 1)]) =
      .error .invalid_type_inside_abi := by
  decide

/-- C14 (amended). Field lookup in the struct branch of the encoder. Let `type` resolve to
a struct `st` that the encoder handles in its struct branch, as it does every struct of
the base chain, and let `names` be the field names declared along the chain. (1) A value
that is no object fails with invalid-type-inside-abi, the deadline not being reached on
entry. (2) An object that lacks one of `names` is never encoded: the call fails.
(3) The failure of the call for the base is the failure of the call. (4) When the base
(if any) and the own fields declared before `f` are encoded and the object has no pair
named `f`, the call fails with invalid-type-inside-abi. (5) The outcome depends on the
object only through the first pair of each of `names`: objects that agree on these are
encoded alike, so pairs of other names and later pairs of the same name are ignored. -/
theorem C14_field_lookup (self : abi_serializer) (type : type_name) (st : struct_def)
    (names : List field_name)
    (hd : struct_dispatch self (resolve_type self type) st)
    (hchain : struct_chain self (resolve_type self type) names) :
    (∀ (var : Value) (fuel : Nat) (ds : datastream) (ctx ctx0 : abi_traverse_context),
      (∀ vo, var ≠ Value.obj vo) → ctx.check_deadline = .ok ctx0 →
      _variant_to_binary self (fuel + 1) type var ds ctx = .error .invalid_type_inside_abi) ∧
    (∀ (vo : List (String × Value)), (∃ n ∈ names, find_field vo n = none) →
      ∀ (fuel : Nat) (ds : datastream) (ctx : abi_traverse_context),
        ∃ e, _variant_to_binary self fuel type (Value.obj vo) ds ctx = .error e) ∧
    (∀ (vo : List (String × Value)) (fuel : Nat) (ds : datastream)
      (ctx ctx0 : abi_traverse_context) (e : Err),
      ctx.check_deadline = .ok ctx0 → st.base ≠ "" →
      _variant_to_binary self fuel (resolve_type self st.base) (Value.obj vo) ds ctx0.enter =
        .error e →
      _variant_to_binary self (fuel + 1) type (Value.obj vo) ds ctx = .error e) ∧
    (∀ (vo : List (String × Value)) (fuel : Nat) (ds ds1 ds2 : datastream)
      (ctx ctx0 ctx2 ctx3 : abi_traverse_context) (pre rest : List field_def) (f : field_def),
      ctx.check_deadline = .ok ctx0 →
      (if st.base ≠ "" then
          _variant_to_binary self fuel (resolve_type self st.base) (Value.obj vo) ds ctx0.enter
        else .ok (ds, ctx0.enter)) = .ok (ds1, ctx2) →
      st.fields = pre ++ f :: rest →
      pack_fields (_variant_to_binary self fuel) vo pre ds1 ctx2 = .ok (ds2, ctx3) →
      find_field vo f.name = none →
      _variant_to_binary self (fuel + 1) type (Value.obj vo) ds ctx =
        .error .invalid_type_inside_abi) ∧
    (∀ (vo vo1 : List (String × Value)), (∀ n ∈ names, find_field vo n = find_field vo1 n) →
      ∀ (fuel : Nat) (ds : datastream) (ctx : abi_traverse_context),
        _variant_to_binary self fuel type (Value.obj vo) ds ctx =
          _variant_to_binary self fuel type (Value.obj vo1) ds ctx) := by
  refine ⟨?_, ?_, ?_, ?_, ?_⟩
  · intro var fuel ds ctx ctx0 hno hc
    rw [variant_to_binary_struct self fuel type st hd var ds ctx ctx0 hc]
    cases var with
    | obj vo => exact absurd rfl (hno vo)
    | null => rfl
    | bool _ => rfl
    | int _ => rfl
    | str _ => rfl
    | array _ => rfl
  · intro vo hmiss fuel ds ctx
    exact variant_to_binary_missing self hchain vo hmiss type rfl fuel ds ctx
  · intro vo fuel ds ctx ctx0 e hc hbase hb
    rw [variant_to_binary_struct self fuel type st hd _ ds ctx ctx0 hc]
    simp only
    rw [if_pos hbase, hb]
  · intro vo fuel ds ds1 ds2 ctx ctx0 ctx2 ctx3 pre rest f hc hprior hfields hpre hf
    rw [variant_to_binary_struct self fuel type st hd _ ds ctx ctx0 hc]
    simp only
    have hloop := pack_fields_first_missing (_variant_to_binary self fuel) vo f rest hf pre
      ds1 ctx2 ds2 ctx3 hpre
    rw [← hfields] at hloop
    by_cases hbase : st.base ≠ ""
    · rw [if_pos hbase] at hprior ⊢
      rw [hprior]
      exact hloop
    · rw [if_neg hbase] at hprior ⊢
      cases hprior
      exact hloop
  · intro vo vo1 hag fuel ds ctx
    exact variant_to_binary_agree self hchain vo vo1 hag type rfl fuel ds ctx

/-- C14 (witness). On the accepted ABI with the struct `b` (field `a : uint8`) and the
struct `d` of base `b` (field `c : uint8`), for the type `d`: the integer 1 fails with
invalid-type-inside-abi; the object `{c: 9}` lacks the base field `a` and is not encoded,
the failure being the one of the call for the base; the object `{a: 7}` lacks the own
field `c` and fails with invalid-type-inside-abi; and the object
`{z: 1, a: 7, c: 9, a: 8}` is encoded as the object `{a: 7, c: 9}` is. -/
theorem C14_field_lookup_witness :
    _variant_to_binary
        (loaded (abi_of [] [⟨"b", "", [⟨"a", "uint8"⟩]⟩, ⟨"d", "b", [⟨"c", "uint8"⟩]⟩])) 32 "d"
        (.int 1) { written := [], capacity := 16 } still_ctx = .error .invalid_type_inside_abi ∧
    (∃ e, _variant_to_binary
        (loaded (abi_of [] [⟨"b", "", [⟨"a", "uint8"⟩]⟩, ⟨"d", "b", [⟨"c", "uint8"⟩]⟩])) 32 "d"
        (Value.obj [("c", .int 9)]) { written := [], capacity := 16 } still_ctx = .error e) ∧
    _variant_to_binary
        (loaded (abi_of [] [⟨"b", "", [⟨"a", "uint8"⟩]⟩, ⟨"d", "b", [⟨"c", "uint8"⟩]⟩])) 32 "d"
        (Value.obj [("c", .int 9)]) { written := [], capacity := 16 } still_ctx =
      .error .invalid_type_inside_abi ∧
    _variant_to_binary
        (loaded (abi_of [] [⟨"b", "", [⟨"a", "uint8"⟩]⟩, ⟨"d", "b", [⟨"c", "uint8"⟩]⟩])) 32 "d"
        (Value.obj [("a", .int 7)]) { written := [], capacity := 16 } still_ctx =
      .error .invalid_type_inside_abi ∧
    _variant_to_binary
        (loaded (abi_of [] [⟨"b", "", [⟨"a", "uint8"⟩]⟩, ⟨"d", "b", [⟨"c", "uint8"⟩]⟩])) 32 "d"
        (Value.obj [("z", .int 1), ("a", .int 7), ("c", .int 9), ("a", .int 8)])
        { written := [], capacity := 16 } still_ctx =
      _variant_to_binary
        (loaded (abi_of [] [⟨"b", "", [⟨"a", "uint8"⟩]⟩, ⟨"d", "b", [⟨"c", "uint8"⟩]⟩])) 32 "d"
        (Value.obj [("a", .int 7), ("c", .int 9)]) { written := [], capacity := 16 } still_ctx := by
  have hb : struct_dispatch
      (loaded (abi_of [] [⟨"b", "", [⟨"a", "uint8"⟩]⟩, ⟨"d", "b", [⟨"c", "uint8"⟩]⟩])) "b"
      ⟨"b", "", [⟨"a", "uint8"⟩]⟩ := ⟨by decide, rfl, by decide, by decide, by decide⟩
  have hd : struct_dispatch
      (loaded (abi_of [] [⟨"b", "", [⟨"a", "uint8"⟩]⟩, ⟨"d", "b", [⟨"c", "uint8"⟩]⟩])) "d"
      ⟨"d", "b", [⟨"c", "uint8"⟩]⟩ := ⟨by decide, rfl, by decide, by decide, by decide⟩
  have hchain : struct_chain
      (loaded (abi_of [] [⟨"b", "", [⟨"a", "uint8"⟩]⟩, ⟨"d", "b", [⟨"c", "uint8"⟩]⟩])) "d"
      (["a"] ++ ["c"]) :=
    .derived "d" ⟨"d", "b", [⟨"c", "uint8"⟩]⟩ ["a"] hd (by decide)
      (.root "b" ⟨"b", "", [⟨"a", "uint8"⟩]⟩ hb rfl)
  have key := C14_field_lookup
    (loaded (abi_of [] [⟨"b", "", [⟨"a", "uint8"⟩]⟩, ⟨"d", "b", [⟨"c", "uint8"⟩]⟩])) "d"
    ⟨"d", "b", [⟨"c", "uint8"⟩]⟩ (["a"] ++ ["c"]) hd hchain
  refine ⟨key.1 (.int 1) 31 _ still_ctx ⟨still_clock, 2, 1, 1, 0⟩ (fun vo h => by cases h) rfl,
    key.2.1 [("c", .int 9)] ⟨"a", by simp, by decide⟩ 32 _ still_ctx,
    key.2.2.1 [("c", .int 9)] 31 _ still_ctx ⟨still_clock, 2, 1, 1, 0⟩ _ rfl (by decide) rfl,
    key.2.2.2.1 [("a", .int 7)] 31 { written := [], capacity := 16 }
      { written := [7], capacity := 16 } { written := [7], capacity := 16 } still_ctx
      ⟨still_clock, 2, 1, 1, 0⟩ ⟨still_clock, 4, 1, 1, 3⟩ ⟨still_clock, 4, 1, 1, 3⟩ []
      [] ⟨"c", "uint8"⟩ rfl rfl rfl rfl (by decide),
    key.2.2.2.2 _ _ (by decide) 32 _ still_ctx⟩

/-! ## The shape of a decoded struct -/


theorem unpack_fields_decodings (self : abi_serializer) (fuel : Nat) :
    ∀ (l : List field_def) (ds : List Byte) (ctx : abi_traverse_context)
      (kvs : List (String × Value)) (ds1 : List Byte) (ctx1 : abi_traverse_context),
      unpack_fields (_binary_to_variant self fuel) l ds ctx = .ok (kvs, ds1, ctx1) →
      field_decodings self fuel l ds kvs ds1 ∧ kvs.map Prod.fst = l.map field_def.name := by
  intro l
  induction l with
  | nil =>
    intro ds ctx kvs ds1 ctx1 h
    simp only [unpack_fields, Except.ok.injEq, Prod.mk.injEq] at h
    obtain ⟨h1, h2, _⟩ := h
    subst h1 h2
    exact ⟨.nil _, rfl⟩
  | cons f fs ih =>
    intro ds ctx kvs ds1 ctx1 h
    unfold unpack_fields at h
    split at h
    · cases h
    · rename_i v ds2 ctx2 h2
      split at h
      · cases h
      · rename_i kvs2 ds3 ctx3 h3
        simp only [Except.ok.injEq, Prod.mk.injEq] at h
        obtain ⟨h4, h5, _⟩ := h
        subst h4 h5
        obtain ⟨hd, hk⟩ := ih _ _ _ _ _ h3
        exact ⟨.cons f fs v ds ds2 _ kvs2 ctx ctx2 h2 hd, by simp [hk]⟩

/-- The struct branch of the decoder, on a type that resolves to a name handled by it. -/
theorem binary_to_variant_struct (self : abi_serializer) (fuel : Nat) (type : type_name)
    (st : struct_def) (hd : struct_dispatch self (resolve_type self type) st)
    (ds : List Byte) (ctx ctx0 : abi_traverse_context) (hctx : ctx.check_deadline = .ok ctx0) :
    _binary_to_variant self (fuel + 1) type ds ctx =
      if st.base ≠ "" then
        match _binary_to_variant self fuel (resolve_type self st.base) ds ctx0.enter with
        | .error e => .error e
        | .ok (base, ds1, ctx2) =>
          match unpack_fields (_binary_to_variant self fuel) st.fields ds1 ctx2 with
          | .error e => .error e
          | .ok (kvs, ds2, ctx3) => .ok (Value.obj (base_pairs st.base base ++ kvs), ds2, ctx3)
      else
        match unpack_fields (_binary_to_variant self fuel) st.fields ds ctx0.enter with
        | .error e => .error e
        | .ok (kvs, ds2, ctx3) => .ok (Value.obj kvs, ds2, ctx3) := by
  obtain ⟨_, hb, ha, ho, hs⟩ := hd
  conv_lhs => unfold _binary_to_variant
  rw [hctx]
  simp only [hb, ha, ho, Bool.false_eq_true, if_false, hs]

/-- A struct whose base chain is handled by the struct branch throughout decodes to an
object whose keys are the field names declared along the chain, base first. -/
theorem binary_to_variant_chain_keys (self : abi_serializer) {R : type_name}
    {names : List field_name} (h : struct_chain self R names) :
    ∀ (type : type_name), resolve_type self type = R →
      ∀ (fuel : Nat) (ds : List Byte) (ctx : abi_traverse_context) (v : Value) (ds1 : List Byte)
        (ctx1 : abi_traverse_context),
        _binary_to_variant self fuel type ds ctx = .ok (v, ds1, ctx1) →
        ∃ kvs, v = Value.obj kvs ∧ kvs.map Prod.fst = names := by
  induction h with
  | root R st hd hbase =>
    intro type hR fuel ds ctx v ds1 ctx1 h
    subst hR
    cases fuel with
    | zero => simp [_binary_to_variant] at h
    | succ n =>
      cases hc : ctx.check_deadline with
      | error e => unfold _binary_to_variant at h; rw [hc] at h; cases h
      | ok ctx0 =>
        rw [binary_to_variant_struct self n type st hd ds ctx ctx0 hc,
          if_neg (by simp [hbase])] at h
        split at h
        · cases h
        · rename_i kvs ds2 ctx3 hu
          simp only [Except.ok.injEq, Prod.mk.injEq] at h
          exact ⟨kvs, h.1.symm, (unpack_fields_decodings self n _ _ _ _ _ _ hu).2⟩
  | derived R st names hd hbase _ ih =>
    intro type hR fuel ds ctx v ds1 ctx1 h
    subst hR
    cases fuel with
    | zero => simp [_binary_to_variant] at h
    | succ n =>
      cases hc : ctx.check_deadline with
      | error e => unfold _binary_to_variant at h; rw [hc] at h; cases h
      | ok ctx0 =>
        rw [binary_to_variant_struct self n type st hd ds ctx ctx0 hc, if_pos hbase] at h
        split at h
        · cases h
        · rename_i base ds2 ctx2 hb
          split at h
          · cases h
          · rename_i kvs ds3 ctx3 hu
            simp only [Except.ok.injEq, Prod.mk.injEq] at h
            obtain ⟨kb, hkb, hkeys⟩ := ih (resolve_type self st.base)
              (resolve_type_idempotent self st.base) n ds ctx0.enter base ds2 ctx2 hb
            subst hkb
            refine ⟨kb ++ kvs, h.1.symm, ?_⟩
            rw [List.map_append, hkeys, (unpack_fields_decodings self n _ _ _ _ _ _ hu).2]

/-- C15 (counterexample). A struct may carry the name of a built-in type: the ABI with the
struct `uint8` (no fields) and the struct `d` of base `uint8` and field `c : uint8` is
accepted; the base of `d` is decoded by the registry to the integer 7, not to an object,
and entered under the key `uint8`: the stream `07 09` decodes as `d` to an object of two
keys, while one field is declared along the base chain. -/
theorem C15_counterexample :
    raised (load (abi_of [] [⟨"uint8", "", []⟩, ⟨"d", "uint8", [⟨"c", "uint8"⟩]⟩])) = none ∧
    get_struct (loaded (abi_of [] [⟨"uint8", "", []⟩, ⟨"d", "uint8", [⟨"c", "uint8"⟩]⟩])) "uint8" =
      .ok ⟨"uint8", "", []⟩ ∧
    decode (abi_of [] [⟨"uint8", "", []⟩, ⟨"d", "uint8", [⟨"c", "uint8"⟩]⟩]) "uint8" [7, 9] =
      .ok (.int 7, [9]) ∧
    decode (abi_of [] [⟨"uint8", "", []⟩, ⟨"d", "uint8", [⟨"c", "uint8"⟩]⟩]) "d" [7, 9] =
      .ok (.obj [("uint8", .int 7), ("c", .int 9)], []) := by
  decide

/-- C15 (amended). Shape and key order of a decoded struct. Let `type` resolve to a struct
`st` that the decoder handles in its struct branch, and the call return the value `v`.
(1) `v` is an object whose pairs are those of the base part followed by one pair for each
own field of `st`, in declaration order and under the field names, the value of each
field being the decoding of `_remove_bin_extension(field.type)` from the stream position
left by the field before it (by the base for the first field); without a base the base
part is empty; with a base it is made of the pairs of the decoded base when that is an
object, and of the single pair of the decoded base under the base name otherwise.
(2) When every struct of the base chain is handled by the struct branch, the keys of `v`
are the field names declared along the chain, base first, and there are as many keys as
fields declared along the chain. -/
theorem C15_struct_decoding (self : abi_serializer) (type : type_name) (st : struct_def)
    (hd : struct_dispatch self (resolve_type self type) st) (fuel : Nat) (ds ds2 : List Byte)
    (ctx ctx3 : abi_traverse_context) (v : Value)
    (hdec : _binary_to_variant self (fuel + 1) type ds ctx = .ok (v, ds2, ctx3)) :
    (∃ (bp kvs : List (String × Value)) (ds1 : List Byte),
      v = Value.obj (bp ++ kvs) ∧ kvs.map Prod.fst = st.fields.map field_def.name ∧
      field_decodings self fuel st.fields ds1 kvs ds2 ∧
      (st.base = "" → bp = [] ∧ ds1 = ds) ∧
      (st.base ≠ "" → ∃ base c c1,
        _binary_to_variant self fuel (resolve_type self st.base) ds c = .ok (base, ds1, c1) ∧
        bp = base_pairs st.base base)) ∧
    (∀ names, struct_chain self (resolve_type self type) names →
      ∃ kvs, v = Value.obj kvs ∧ kvs.map Prod.fst = names ∧ kvs.length = names.length) := by
  constructor
  · cases hc : ctx.check_deadline with
    | error e => unfold _binary_to_variant at hdec; rw [hc] at hdec; cases hdec
    | ok ctx0 =>
      rw [binary_to_variant_struct self fuel type st hd ds ctx ctx0 hc] at hdec
      by_cases hbase : st.base ≠ ""
      · rw [if_pos hbase] at hdec
        split at hdec
        · cases hdec
        · rename_i base ds1 ctx2 hb
          split at hdec
          · cases hdec
          · rename_i kvs ds3 ctx4 hu
            simp only [Except.ok.injEq, Prod.mk.injEq] at hdec
            obtain ⟨h1, h2, _⟩ := hdec
            subst h2
            obtain ⟨hfd, hk⟩ := unpack_fields_decodings self fuel _ _ _ _ _ _ hu
            exact ⟨base_pairs st.base base, kvs, ds1, h1.symm, hk, hfd,
              fun h0 => absurd h0 hbase, fun _ => ⟨base, _, _, hb, rfl⟩⟩
      · rw [if_neg hbase] at hdec
        split at hdec
        · cases hdec
        · rename_i kvs ds3 ctx4 hu
          simp only [Except.ok.injEq, Prod.mk.injEq] at hdec
          obtain ⟨h1, h2, _⟩ := hdec
          subst h2
          obtain ⟨hfd, hk⟩ := unpack_fields_decodings self fuel _ _ _ _ _ _ hu
          exact ⟨[], kvs, ds, by simpa using h1.symm, hk, hfd, fun _ => ⟨rfl, rfl⟩,
            fun h0 => absurd h0 hbase⟩
  · intro names hchain
    obtain ⟨kvs, h1, h2⟩ := binary_to_variant_chain_keys self hchain type rfl (fuel + 1) ds ctx
      v ds2 ctx3 hdec
    refine ⟨kvs, h1, h2, ?_⟩
    rw [← h2, List.length_map]

/-- C15 (witness). On the accepted ABI with the struct `b` (field `a : uint8`) and the
struct `d` of base `b` (field `c : uint8`), the stream `07 09` decodes as `d` to an object
whose keys are `a`, `c`. -/
theorem C15_struct_decoding_witness :
    ∃ kvs, _binary_to_variant
        (loaded (abi_of [] [⟨"b", "", [⟨"a", "uint8"⟩]⟩, ⟨"d", "b", [⟨"c", "uint8"⟩]⟩])) 32 "d"
        [7, 9] still_ctx = .ok (Value.obj kvs, [], ⟨still_clock, 5, 1, 1, 4⟩) ∧
      kvs.map Prod.fst = ["a", "c"] ∧ kvs.length = 2 := by
  have hb : struct_dispatch
      (loaded (abi_of [] [⟨"b", "", [⟨"a", "uint8"⟩]⟩, ⟨"d", "b", [⟨"c", "uint8"⟩]⟩])) "b"
      ⟨"b", "", [⟨"a", "uint8"⟩]⟩ := ⟨by decide, rfl, by decide, by decide, by decide⟩
  have hd : struct_dispatch
      (loaded (abi_of [] [⟨"b", "", [⟨"a", "uint8"⟩]⟩, ⟨"d", "b", [⟨"c", "uint8"⟩]⟩])) "d"
      ⟨"d", "b", [⟨"c", "uint8"⟩]⟩ := ⟨by decide, rfl, by decide, by decide, by decide⟩
  have hchain : struct_chain
      (loaded (abi_of [] [⟨"b", "", [⟨"a", "uint8"⟩]⟩, ⟨"d", "b", [⟨"c", "uint8"⟩]⟩])) "d"
      (["a"] ++ ["c"]) :=
    .derived "d" ⟨"d", "b", [⟨"c", "uint8"⟩]⟩ ["a"] hd (by decide)
      (.root "b" ⟨"b", "", [⟨"a", "uint8"⟩]⟩ hb rfl)
  have hrun : _binary_to_variant
      (loaded (abi_of [] [⟨"b", "", [⟨"a", "uint8"⟩]⟩, ⟨"d", "b", [⟨"c", "uint8"⟩]⟩])) 32 "d"
      [7, 9] still_ctx =
      .ok (Value.obj [("a", .int 7), ("c", .int 9)], [], ⟨still_clock, 5, 1, 1, 4⟩) := rfl
  obtain ⟨kvs, h1, h2, h3⟩ := (C15_struct_decoding
    (loaded (abi_of [] [⟨"b", "", [⟨"a", "uint8"⟩]⟩, ⟨"d", "b", [⟨"c", "uint8"⟩]⟩])) "d"
    ⟨"d", "b", [⟨"c", "uint8"⟩]⟩ hd 31 [7, 9] [] still_ctx _ _ hrun).2 _ hchain
  cases h1
  exact ⟨_, hrun, h2, h3⟩

/-! ## Array encoding -/


theorem pack_array_elems_encodings (self : abi_serializer) (fuel : Nat) (F : type_name)
    (hstep : ∀ t v ds ctx ds1 ctx1, _variant_to_binary self fuel t v ds ctx = .ok (ds1, ctx1) →
      ∃ bs, ds1 = { written := ds.written ++ bs, capacity := ds.capacity }) :
    ∀ (l : List Value) (ds : datastream) (ctx : abi_traverse_context) (ds1 : datastream)
      (ctx1 : abi_traverse_context),
      pack_array_elems (_variant_to_binary self fuel F) l ds ctx = .ok (ds1, ctx1) →
      ∃ bs, ds1 = { written := ds.written ++ bs, capacity := ds.capacity } ∧
        elem_encodings self fuel F l bs := by
  intro l
  induction l with
  | nil =>
    intro ds ctx ds1 ctx1 h
    simp only [pack_array_elems, Except.ok.injEq, Prod.mk.injEq] at h
    exact ⟨[], by simp [← h.1], .nil⟩
  | cons v vs ih =>
    intro ds ctx ds1 ctx1 h
    unfold pack_array_elems at h
    split at h
    · cases h
    · rename_i ds2 ctx2 h2
      obtain ⟨b1, hb1⟩ := hstep _ _ _ _ _ _ h2
      obtain ⟨b2, hb2, henc⟩ := ih _ _ _ _ h
      refine ⟨b1 ++ b2, by rw [hb2, hb1]; simp, ?_⟩
      exact .cons v vs b1 b2 ⟨ds, ctx, ctx2, by rw [h2, hb1]⟩ henc

theorem elems_encode_of_forall (self : abi_serializer) (F : type_name) :
    ∀ (l : List Value) (bs : List (List Byte)),
      List.Forall₂ (fun v b => encodes_eventually self F v b) l bs →
      elems_encode_eventually self F l bs.flatten := by
  intro l bs h
  induction h with
  | nil => exact encode_elems_nil self F
  | cons h1 _ ih =>
    simp only [List.flatten_cons]
    exact encode_elems_cons self F _ _ _ _ h1 ih

/-- C16. Array encoding. Let `type` resolve to an array name `R` whose element type
`F = fundamental_type(R)` is not built-in, on a serializer with the configured registry.
(1) When the call returns normally on the array value `l`, it has appended the
`unsigned_varint` of the length of `l` followed by the encodings of the elements of `l` as
type `F`, in order (each element is encoded by a call for `F`, which resolves `F` anew).
(2) When every element of `l` is encoded as `F` to its bytes, enough fuel encodes `l` to the
`unsigned_varint` of its length followed by these bytes, on every stream with room for
them and under every deadline that never expires. (3) A value that is no array is not
encoded: the call fails. -/
theorem C16_array_encoding (self : abi_serializer) (hreg : registry_configured self)
    (type : type_name)
    (hb : map_find self.built_in_types (fundamental_type (resolve_type self type)) = none)
    (ha : is_array (resolve_type self type) = true) :
    (∀ (l : List Value) (fuel : Nat) (ds ds1 : datastream) (ctx ctx1 : abi_traverse_context),
      _variant_to_binary self (fuel + 1) type (Value.array l) ds ctx = .ok (ds1, ctx1) →
      ∃ bytes, ds1 = { written := ds.written ++ (pack_varuint32 l.length ++ bytes),
                       capacity := ds.capacity } ∧
        elem_encodings self fuel (fundamental_type (resolve_type self type)) l bytes) ∧
    (∀ (l : List Value) (bs : List (List Byte)),
      List.Forall₂ (fun v b =>
        encodes_eventually self (fundamental_type (resolve_type self type)) v b) l bs →
      encodes_eventually self type (Value.array l) (pack_varuint32 l.length ++ bs.flatten)) ∧
    (∀ (var : Value), (∀ l, var ≠ Value.array l) →
      ∀ (fuel : Nat) (ds : datastream) (ctx : abi_traverse_context),
        ∃ e, _variant_to_binary self fuel type var ds ctx = .error e) := by
  refine ⟨?_, ?_, ?_⟩
  · intro l fuel ds ds1 ctx ctx1 h
    unfold _variant_to_binary at h
    split at h
    · cases h
    · simp only [WASM_CAPTURE_AND_RETHROW, hb, ha, if_true, Value.get_array] at h
      split at h
      · cases h
      · rename_i ds2 h2
        have hb1 := datastream_write_ok h2
        obtain ⟨b2, hb2, henc⟩ := pack_array_elems_encodings self fuel _
          (variant_to_binary_appends self hreg fuel) _ _ _ _ _ h
        exact ⟨b2, by rw [hb2, hb1]; simp, henc⟩
  · intro l bs hall
    exact encode_array_case self type l bs.flatten hb ha
      (elems_encode_of_forall self _ l bs hall)
  · intro var hno fuel ds ctx
    cases fuel with
    | zero => exact ⟨.fuel_exhausted, by simp [_variant_to_binary]⟩
    | succ n =>
      unfold _variant_to_binary
      cases hc : ctx.check_deadline with
      | error e => exact ⟨e, rfl⟩
      | ok ctx0 =>
        simp only [WASM_CAPTURE_AND_RETHROW, hb, ha, if_true]
        cases var with
        | array l => exact absurd rfl (hno l)
        | null => exact ⟨_, rfl⟩
        | bool _ => exact ⟨_, rfl⟩
        | int _ => exact ⟨_, rfl⟩
        | str _ => exact ⟨_, rfl⟩
        | obj _ => exact ⟨_, rfl⟩

/-- C16 (witness). The two scenarios of the specification: with the typedefs `u = uint32`
and `v = u`, the value `[10]` of type `v[]` is encoded to `01 0a 00 00 00`; the value
`[1, 2, 3]` of type `uint32[]` (read by the registry) to
`03 01 00 00 00 02 00 00 00 03 00 00 00`. In the first, the bytes after the length are the
encodings of the elements as `v`, and enough fuel encodes `[10]` to the length followed by
the four bytes of 10; and the integer 1 is not encoded as `v[]`. -/
theorem C16_array_encoding_witness :
    encode (abi_of [⟨"u", "uint32"⟩, ⟨"v", "u"⟩] []) "v[]" (.array [.int 10]) =
      .ok [1, 10, 0, 0, 0] ∧
    encode (abi_of [] []) "uint32[]" (.array [.int 1, .int 2, .int 3]) =
      .ok [3, 1, 0, 0, 0, 2, 0, 0, 0, 3, 0, 0, 0] ∧
    (∃ bytes, ({ written := [1, 10, 0, 0, 0], capacity := 16 } : datastream) =
        { written := [] ++ (pack_varuint32 1 ++ bytes), capacity := 16 } ∧
      elem_encodings (loaded (abi_of [⟨"u", "uint32"⟩, ⟨"v", "u"⟩] [])) 31 "v" [.int 10] bytes) ∧
    encodes_eventually (loaded (abi_of [⟨"u", "uint32"⟩, ⟨"v", "u"⟩] [])) "v[]"
      (.array [.int 10]) (pack_varuint32 1 ++ [le_bytes 4 10].flatten) ∧
    (∃ e, _variant_to_binary (loaded (abi_of [⟨"u", "uint32"⟩, ⟨"v", "u"⟩] [])) 32 "v[]" (.int 1)
      { written := [], capacity := 16 } still_ctx = .error e) :=
  ⟨by decide, by decide,
    (C16_array_encoding (loaded (abi_of [⟨"u", "uint32"⟩, ⟨"v", "u"⟩] []))
      ⟨raw_external_types, rfl⟩ "v[]" rfl (by decide)).1 [.int 10] 31
      { written := [], capacity := 16 } { written := [1, 10, 0, 0, 0], capacity := 16 } still_ctx
      ⟨still_clock, 3, 1, 1, 2⟩ rfl,
    (C16_array_encoding (loaded (abi_of [⟨"u", "uint32"⟩, ⟨"v", "u"⟩] []))
      ⟨raw_external_types, rfl⟩ "v[]" rfl (by decide)).2.1 [.int 10] [le_bytes 4 10]
      (.cons (canonical_encodes _ (.builtin "v" (.int 10) (le_bytes 4 10)
        (pack_unpack (uint_wire 4)) rfl (uint_canonical 4 10 (by norm_num)))) .nil),
    (C16_array_encoding (loaded (abi_of [⟨"u", "uint32"⟩, ⟨"v", "u"⟩] []))
      ⟨raw_external_types, rfl⟩ "v[]" rfl (by decide)).2.2 (.int 1) (fun l h => by cases h) 32
      { written := [], capacity := 16 } still_ctx⟩

/-! ## The deadline check on entry -/

/-- C18. The deadline is checked on entry. Let the reading of the clock not be before the
deadline of the context. Then every call of `_binary_to_variant`, of `_variant_to_binary`
and of `_is_type` fails with abi-serialization-deadline, whatever the type, the stream and
the value (nothing is read or written); so does the bytes-returning overload of
`_variant_to_binary`; and so does every call of `check_struct_in_recursion`, whatever the
struct and the DAG. The first statement of `check_struct_in_recursion` hands the context
to `dag::add`, and its own check follows that call: the failure on entry is the one of
`dag::add`, for every `dag::add` that checks the deadline of the context it is given, as
the modelled one does; and whatever `dag::add` is, once it has added the struct as a new
node the walk fails with abi-serialization-deadline before any field is examined. -/
theorem C18_deadline_on_entry (self : abi_serializer) (fuel : Nat) (ctx : abi_traverse_context)
    (hexp : ¬ ctx.clock ctx.reads < ctx.deadline) :
    (∀ (type : type_name) (ds : List Byte),
      _binary_to_variant self (fuel + 1) type ds ctx =
        .error .abi_serialization_deadline_exception) ∧
    (∀ (type : type_name) (var : Value) (ds : datastream),
      _variant_to_binary self (fuel + 1) type var ds ctx =
        .error .abi_serialization_deadline_exception) ∧
    (∀ (type : type_name),
      _is_type self (fuel + 1) type ctx = .error .abi_serialization_deadline_exception) ∧
    (∀ (type : type_name) (var : Value),
      _variant_to_binary_bytes self fuel type var ctx =
        .error .abi_serialization_deadline_exception) ∧
    (∀ (s : struct_def) (parent added : List String),
      check_struct_in_recursion self (fuel + 1) s parent added ctx =
        .error .abi_serialization_deadline_exception) ∧
    (∀ (add : List String → String → List String → abi_traverse_context →
        Except Err (Bool × List String × List String × abi_traverse_context)),
      (∀ (parent : List String) (name : String) (added : List String),
        add parent name added ctx = .error .abi_serialization_deadline_exception) →
      ∀ (s : struct_def) (parent added : List String),
        check_struct_in_recursion_with add self (fuel + 1) s parent added ctx =
          .error .abi_serialization_deadline_exception) ∧
    (∀ (add : List String → String → List String → abi_traverse_context →
        Except Err (Bool × List String × List String × abi_traverse_context))
      (s : struct_def) (parent added d added1 : List String) (ctx0 : abi_traverse_context),
      add parent s.name added ctx = .ok (true, d, added1, ctx0) →
      ¬ ctx0.clock ctx0.reads < ctx0.deadline →
      check_struct_in_recursion_with add self (fuel + 1) s parent added ctx =
        .error .abi_serialization_deadline_exception) := by
  have hc : ctx.check_deadline = .error .abi_serialization_deadline_exception := by
    unfold abi_traverse_context.check_deadline
    rw [if_neg hexp]
  have hdag : ∀ (parent : List String) (name : String) (added : List String),
      dag_add parent name added ctx = .error .abi_serialization_deadline_exception := by
    intro parent name added
    unfold dag_add
    rw [hc]
  have hwith : ∀ (add : List String → String → List String → abi_traverse_context →
        Except Err (Bool × List String × List String × abi_traverse_context)),
      (∀ (parent : List String) (name : String) (added : List String),
        add parent name added ctx = .error .abi_serialization_deadline_exception) →
      ∀ (s : struct_def) (parent added : List String),
        check_struct_in_recursion_with add self (fuel + 1) s parent added ctx =
          .error .abi_serialization_deadline_exception := by
    intro add hadd s parent added
    unfold check_struct_in_recursion_with
    rw [hadd]
  refine ⟨?_, ?_, ?_, ?_, ?_, hwith, ?_⟩
  · intro type ds
    unfold _binary_to_variant
    rw [hc]
  · intro type var ds
    unfold _variant_to_binary
    rw [hc]
  · intro type
    unfold _is_type
    rw [hc]
  · intro type var
    unfold _variant_to_binary_bytes
    rw [hc]
  · intro s parent added
    exact hwith dag_add hdag s parent added
  · intro add s parent added d added1 ctx0 hadd hexp0
    unfold check_struct_in_recursion_with
    rw [hadd]
    simp only
    unfold abi_traverse_context.check_deadline
    rw [if_neg hexp0]

/-- C18 (witness). Under a budget of zero the deadline is reached at the first reading:
the decoding of `uint8` from the stream `07` fails with abi-serialization-deadline; and so
does the field-graph walk of a struct, be it new to the DAG, already added elsewhere or on
the chain of its parent. -/
theorem C18_deadline_on_entry_witness :
    _binary_to_variant fresh_serializer 1 "uint8" [7] (abi_traverse_context.create still_clock 0 0) =
      .error .abi_serialization_deadline_exception ∧
    check_struct_in_recursion fresh_serializer 1 ⟨"s", "", []⟩ dag_root []
        (abi_traverse_context.create still_clock 0 0) =
      .error .abi_serialization_deadline_exception ∧
    check_struct_in_recursion fresh_serializer 1 ⟨"s", "", []⟩ dag_root ["s"]
        (abi_traverse_context.create still_clock 0 0) =
      .error .abi_serialization_deadline_exception ∧
    check_struct_in_recursion fresh_serializer 1 ⟨"s", "", []⟩ ["s", "root"] ["s"]
        (abi_traverse_context.create still_clock 0 0) =
      .error .abi_serialization_deadline_exception :=
  ⟨(C18_deadline_on_entry fresh_serializer 0 (abi_traverse_context.create still_clock 0 0)
      (by decide)).1 "uint8" [7],
    (C18_deadline_on_entry fresh_serializer 0 (abi_traverse_context.create still_clock 0 0)
      (by decide)).2.2.2.2.1 ⟨"s", "", []⟩ dag_root [],
    (C18_deadline_on_entry fresh_serializer 0 (abi_traverse_context.create still_clock 0 0)
      (by decide)).2.2.2.2.1 ⟨"s", "", []⟩ dag_root ["s"],
    (C18_deadline_on_entry fresh_serializer 0 (abi_traverse_context.create still_clock 0 0)
      (by decide)).2.2.2.2.1 ⟨"s", "", []⟩ ["s", "root"] ["s"]⟩

/-! ## Accepted ABIs on which the decoder does not terminate -/

/-- On the accepted ABI with the struct `s` of field `f : s$`, the decoding of `s` re-enters
`s` without reading a byte: under a deadline that never expires it runs out of any fuel. -/
theorem decode_self_extension_diverges :
    ∀ (fuel : Nat) (ds : List Byte) (ctx : abi_traverse_context), ctx.never_expires →
      _binary_to_variant (loaded (abi_of [] [⟨"s", "", [⟨"f", "s$"⟩]⟩])) fuel "s" ds ctx =
        .error .fuel_exhausted := by
  have h1 : resolve_type (loaded (abi_of [] [⟨"s", "", [⟨"f", "s$"⟩]⟩])) "s" = "s" := by decide
  have h2 : map_find (loaded (abi_of [] [⟨"s", "", [⟨"f", "s$"⟩]⟩])).built_in_types
      (fundamental_type "s") = none := rfl
  have h3 : is_array "s" = false := by decide
  have h4 : is_optional "s" = false := by decide
  have h5 : map_find (loaded (abi_of [] [⟨"s", "", [⟨"f", "s$"⟩]⟩])).structs "s" =
      some ⟨"s", "", [⟨"f", "s$"⟩]⟩ := by decide
  have h6 : _remove_bin_extension "s$" = "s" := by decide
  generalize loaded (abi_of [] [⟨"s", "", [⟨"f", "s$"⟩]⟩]) = S at h1 h2 h5 ⊢
  intro fuel
  induction fuel with
  | zero => intro ds ctx _; simp [_binary_to_variant]
  | succ n ih =>
    intro ds ctx hn
    unfold _binary_to_variant
    rw [check_deadline_never hn]
    simp only [h1, h2, h3, h4, h5, Bool.false_eq_true, if_false, ne_eq, not_true_eq_false,
      unpack_fields, h6]
    rw [ih ds (abi_traverse_context.enter { ctx with reads := ctx.reads + 1 }) (fun m => hn m)]

/-- On the accepted ABI with the empty struct `t` and the struct `s` of fields `a : t`,
`b : t`, `f : s`, the decoding of `s` re-enters `s` without reading a byte. -/
theorem decode_self_nesting_diverges :
    ∀ (fuel : Nat) (ds : List Byte) (ctx : abi_traverse_context), ctx.never_expires →
      _binary_to_variant
        (loaded (abi_of [] [⟨"s", "", [⟨"a", "t"⟩, ⟨"b", "t"⟩, ⟨"f", "s"⟩]⟩, ⟨"t", "", []⟩]))
        fuel "s" ds ctx = .error .fuel_exhausted := by
  have h1 : resolve_type
      (loaded (abi_of [] [⟨"s", "", [⟨"a", "t"⟩, ⟨"b", "t"⟩, ⟨"f", "s"⟩]⟩, ⟨"t", "", []⟩]))
      "s" = "s" := by decide
  have h2 : map_find
      (loaded (abi_of [] [⟨"s", "", [⟨"a", "t"⟩, ⟨"b", "t"⟩, ⟨"f", "s"⟩]⟩, ⟨"t", "", []⟩])).built_in_types
      (fundamental_type "s") = none := rfl
  have h3 : is_array "s" = false := by decide
  have h4 : is_optional "s" = false := by decide
  have h5 : map_find
      (loaded (abi_of [] [⟨"s", "", [⟨"a", "t"⟩, ⟨"b", "t"⟩, ⟨"f", "s"⟩]⟩, ⟨"t", "", []⟩])).structs
      "s" = some ⟨"s", "", [⟨"a", "t"⟩, ⟨"b", "t"⟩, ⟨"f", "s"⟩]⟩ := by decide
  have h6 : _remove_bin_extension "s" = "s" := by decide
  have h7 : _remove_bin_extension "t" = "t" := by decide
  have t1 : resolve_type
      (loaded (abi_of [] [⟨"s", "", [⟨"a", "t"⟩, ⟨"b", "t"⟩, ⟨"f", "s"⟩]⟩, ⟨"t", "", []⟩]))
      "t" = "t" := by decide
  have t2 : map_find
      (loaded (abi_of [] [⟨"s", "", [⟨"a", "t"⟩, ⟨"b", "t"⟩, ⟨"f", "s"⟩]⟩, ⟨"t", "", []⟩])).built_in_types
      (fundamental_type "t") = none := rfl
  have t3 : is_array "t" = false := by decide
  have t4 : is_optional "t" = false := by decide
  have t5 : map_find
      (loaded (abi_of [] [⟨"s", "", [⟨"a", "t"⟩, ⟨"b", "t"⟩, ⟨"f", "s"⟩]⟩, ⟨"t", "", []⟩])).structs
      "t" = some ⟨"t", "", []⟩ := by decide
  generalize loaded (abi_of [] [⟨"s", "", [⟨"a", "t"⟩, ⟨"b", "t"⟩, ⟨"f", "s"⟩]⟩, ⟨"t", "", []⟩]) = S
    at h1 h2 h5 t1 t2 t5 ⊢
  have ht : ∀ (m : Nat) (ds : List Byte) (ctx : abi_traverse_context), ctx.never_expires →
      ∃ ctx1, _binary_to_variant S (m + 1) "t" ds ctx = .ok (Value.obj [], ds, ctx1) ∧
        ctx1.never_expires := by
    intro m ds ctx hn
    unfold _binary_to_variant
    rw [check_deadline_never hn]
    simp only [t1, t2, t3, t4, t5, Bool.false_eq_true, if_false, ne_eq, not_true_eq_false,
      unpack_fields]
    exact ⟨_, rfl, fun k => hn k⟩
  intro fuel
  induction fuel with
  | zero => intro ds ctx _; simp [_binary_to_variant]
  | succ n ih =>
    intro ds ctx hn
    unfold _binary_to_variant
    rw [check_deadline_never hn]
    simp only [h1, h2, h3, h4, h5, Bool.false_eq_true, if_false, ne_eq, not_true_eq_false,
      unpack_fields, h6, h7]
    cases n with
    | zero => simp [_binary_to_variant]
    | succ m =>
      obtain ⟨c1, hc1, hn1⟩ := ht m ds (abi_traverse_context.enter { ctx with reads := ctx.reads + 1 })
        (fun k => hn k)
      rw [hc1]
      simp only
      obtain ⟨c2, hc2, hn2⟩ := ht m ds c1 hn1
      rw [hc2]
      simp only
      rw [ih ds c2 hn2]

/-- On the accepted ABI with the typedefs `k[] = s` and `k = uint8` and the struct `s` of
field `f : k[]`, the decoder resolves the field type `k[]` to `s` and re-enters `s` without
reading a byte (the field-graph walk resolves `k`, the fundamental type, to `uint8`). -/
theorem decode_typedef_key_diverges :
    ∀ (fuel : Nat) (ds : List Byte) (ctx : abi_traverse_context), ctx.never_expires →
      _binary_to_variant
        (loaded (abi_of [⟨"k[]", "s"⟩, ⟨"k", "uint8"⟩] [⟨"s", "", [⟨"f", "k[]"⟩]⟩]))
        fuel "s" ds ctx = .error .fuel_exhausted := by
  have h1 : resolve_type
      (loaded (abi_of [⟨"k[]", "s"⟩, ⟨"k", "uint8"⟩] [⟨"s", "", [⟨"f", "k[]"⟩]⟩])) "s" = "s" := by
    decide
  have k1 : resolve_type
      (loaded (abi_of [⟨"k[]", "s"⟩, ⟨"k", "uint8"⟩] [⟨"s", "", [⟨"f", "k[]"⟩]⟩])) "k[]" = "s" := by
    decide
  have h2 : map_find
      (loaded (abi_of [⟨"k[]", "s"⟩, ⟨"k", "uint8"⟩] [⟨"s", "", [⟨"f", "k[]"⟩]⟩])).built_in_types
      (fundamental_type "s") = none := rfl
  have h3 : is_array "s" = false := by decide
  have h4 : is_optional "s" = false := by decide
  have h5 : map_find
      (loaded (abi_of [⟨"k[]", "s"⟩, ⟨"k", "uint8"⟩] [⟨"s", "", [⟨"f", "k[]"⟩]⟩])).structs "s" =
      some ⟨"s", "", [⟨"f", "k[]"⟩]⟩ := by decide
  have h6 : _remove_bin_extension "k[]" = "k[]" := by decide
  generalize loaded (abi_of [⟨"k[]", "s"⟩, ⟨"k", "uint8"⟩] [⟨"s", "", [⟨"f", "k[]"⟩]⟩]) = S
    at h1 k1 h2 h5 ⊢
  have both : ∀ (fuel : Nat) (ds : List Byte) (ctx : abi_traverse_context), ctx.never_expires →
      _binary_to_variant S fuel "s" ds ctx = .error .fuel_exhausted ∧
      _binary_to_variant S fuel "k[]" ds ctx = .error .fuel_exhausted := by
    intro fuel
    induction fuel with
    | zero => intro ds ctx _; simp [_binary_to_variant]
    | succ n ih =>
      intro ds ctx hn
      have hk := (ih ds (abi_traverse_context.enter { ctx with reads := ctx.reads + 1 })
        (fun m => hn m)).2
      constructor
      · unfold _binary_to_variant
        rw [check_deadline_never hn]
        simp only [h1, h2, h3, h4, h5, Bool.false_eq_true, if_false, ne_eq, not_true_eq_false,
          unpack_fields, h6]
        rw [hk]
      · unfold _binary_to_variant
        rw [check_deadline_never hn]
        simp only [k1, h2, h3, h4, h5, Bool.false_eq_true, if_false, ne_eq, not_true_eq_false,
          unpack_fields, h6]
        rw [hk]
  exact fun fuel ds ctx hn => (both fuel ds ctx hn).1

/-- C19 (code bug). Validation does not make the recursion of the decoder well-founded.
The ABI with the empty struct `t` and the struct `s` of fields `a : t`, `b : t`, `f : s` is
accepted (the field loop of `check_struct_in_recursion` is left at `b`, whose type repeats
that of `a`, before `f` is examined), and so is the ABI with the struct `s` of field
`f : s$` (the walk does not strip the suffix), and the ABI with the typedefs `k[] = s`,
`k = uint8` and the struct `s` of field `f : k[]` (the walk resolves the fundamental type
`k`, the decoder the name `k[]`). On each, `binary_to_variant("s")` re-enters `s` without
reading a byte: under a clock that never reaches the deadline it runs out of every fuel,
on every buffer. -/
theorem C19_decoder_recursion_unbounded :
    raised (load (abi_of [] [⟨"s", "", [⟨"a", "t"⟩, ⟨"b", "t"⟩, ⟨"f", "s"⟩]⟩, ⟨"t", "", []⟩])) =
      none ∧
    (∀ (fuel : Nat) (binary : List Byte),
      binary_to_variant
        (loaded (abi_of [] [⟨"s", "", [⟨"a", "t"⟩, ⟨"b", "t"⟩, ⟨"f", "s"⟩]⟩, ⟨"t", "", []⟩]))
        fuel "s" binary 1 still_clock = .error .fuel_exhausted) ∧
    raised (load (abi_of [] [⟨"s", "", [⟨"f", "s$"⟩]⟩])) = none ∧
    (∀ (fuel : Nat) (binary : List Byte),
      binary_to_variant (loaded (abi_of [] [⟨"s", "", [⟨"f", "s$"⟩]⟩])) fuel "s" binary 1
        still_clock = .error .fuel_exhausted) ∧
    raised (load (abi_of [⟨"k[]", "s"⟩, ⟨"k", "uint8"⟩] [⟨"s", "", [⟨"f", "k[]"⟩]⟩])) = none ∧
    (∀ (fuel : Nat) (binary : List Byte),
      binary_to_variant
        (loaded (abi_of [⟨"k[]", "s"⟩, ⟨"k", "uint8"⟩] [⟨"s", "", [⟨"f", "k[]"⟩]⟩])) fuel "s"
        binary 1 still_clock = .error .fuel_exhausted) := by
  refine ⟨by decide, ?_, by decide, ?_, by decide, ?_⟩
  · intro fuel binary
    unfold binary_to_variant
    rw [decode_self_nesting_diverges fuel binary _
      (create_never_expires still_clock 0 1 (fun _ => Nat.zero_lt_one))]
  · intro fuel binary
    unfold binary_to_variant
    rw [decode_self_extension_diverges fuel binary _
      (create_never_expires still_clock 0 1 (fun _ => Nat.zero_lt_one))]
  · intro fuel binary
    unfold binary_to_variant
    rw [decode_typedef_key_diverges fuel binary _
      (create_never_expires still_clock 0 1 (fun _ => Nat.zero_lt_one))]

/-! ## The field loop of the field-graph check -/

/-- The field loop of `check_struct_in_recursion` ends at a field whose resolved type has
been seen: the fields after it are not examined. -/
theorem check_struct_fields_break (self : abi_serializer)
    (step : struct_def → List String → List String → abi_traverse_context →
      Except Err (List String × abi_traverse_context))
    (d : List String) (field : field_def) (rest : List field_def) (fields_seen : List type_name)
    (added : List String) (ctx ctx1 : abi_traverse_context)
    (hc : ctx.check_deadline = .ok ctx1)
    (hseen : resolve_type self (fundamental_type field.type) ∈ fields_seen) :
    check_struct_fields self step d (field :: rest) fields_seen added ctx = .ok (added, ctx1) := by
  unfold check_struct_fields
  rw [hc]
  simp only [hseen, if_true]

/-- C20 (code bug). The field loop of `check_struct_in_recursion` does not skip a repeated
field type, it ends at it (`break`). With the empty structs `t` and `u`: the walk of the
struct `s` of fields `a : t`, `b : t`, `c : u` adds the nodes `s` and `t` only, `u` is not
descended into although it is a distinct struct type among the fields (with the fields in
the order `a : t`, `c : u`, `b : t` it is); and the walk of `s` with the fields `a : t`,
`b : t`, `f : s` returns normally, while with the fields `a : t`, `f : s` it fails with
circular-reference-in-struct. -/
theorem C20_fields_seen_breaks :
    dag_nodes (check_struct_in_recursion
      (loaded (abi_of [] [⟨"s", "", [⟨"a", "t"⟩, ⟨"b", "t"⟩, ⟨"c", "u"⟩]⟩, ⟨"t", "", []⟩,
        ⟨"u", "", []⟩])) 32
      ⟨"s", "", [⟨"a", "t"⟩, ⟨"b", "t"⟩, ⟨"c", "u"⟩]⟩ dag_root [] still_ctx) = some ["t", "s"] ∧
    dag_nodes (check_struct_in_recursion
      (loaded (abi_of [] [⟨"s", "", [⟨"a", "t"⟩, ⟨"c", "u"⟩, ⟨"b", "t"⟩]⟩, ⟨"t", "", []⟩,
        ⟨"u", "", []⟩])) 32
      ⟨"s", "", [⟨"a", "t"⟩, ⟨"c", "u"⟩, ⟨"b", "t"⟩]⟩ dag_root [] still_ctx) =
      some ["u", "t", "s"] ∧
    dag_nodes (check_struct_in_recursion
      (loaded (abi_of [] [⟨"s", "", [⟨"a", "t"⟩, ⟨"b", "t"⟩, ⟨"f", "s"⟩]⟩, ⟨"t", "", []⟩])) 32
      ⟨"s", "", [⟨"a", "t"⟩, ⟨"b", "t"⟩, ⟨"f", "s"⟩]⟩ dag_root [] still_ctx) = some ["t", "s"] ∧
    raised (check_struct_in_recursion
      (loaded (abi_of [] [⟨"s", "", [⟨"a", "t"⟩, ⟨"f", "s"⟩]⟩, ⟨"t", "", []⟩])) 32
      ⟨"s", "", [⟨"a", "t"⟩, ⟨"f", "s"⟩]⟩ dag_root [] still_ctx) =
      some .circular_reference_in_struct := by
  decide

/-! ## The binary-extension suffix -/


theorem map_find_map_values {V W : Type} (g : V → W) (m : List (String × V)) (k : String) :
    map_find (m.map (fun p => (p.1, g p.2))) k = (map_find m k).map g := by
  induction m with
  | nil => rfl
  | cons p rest ih =>
    obtain ⟨k1, v1⟩ := p
    simp only [List.map_cons, map_find]
    split
    · rfl
    · exact ih

theorem map_set_map_values {V W : Type} (g : V → W) (m : List (String × V)) (k : String) (v : V) :
    map_set (m.map (fun p => (p.1, g p.2))) k (g v) =
      (map_set m k v).map (fun p => (p.1, g p.2)) := by
  induction m with
  | nil => rfl
  | cons p rest ih =>
    obtain ⟨k1, v1⟩ := p
    simp only [List.map_cons, map_set]
    split
    · rfl
    · split
      · rfl
      · simp only [List.map_cons, ih]

theorem map_set_mem {V : Type} (m : List (String × V)) (k : String) (v : V) (p : String × V)
    (h : p ∈ map_set m k v) : p = (k, v) ∨ p ∈ m := by
  induction m with
  | nil => simp [map_set] at h; exact Or.inl h
  | cons q rest ih =>
    obtain ⟨k1, v1⟩ := q
    unfold map_set at h
    split at h
    · rcases List.mem_cons.mp h with h | h
      · exact Or.inl h
      · exact Or.inr (List.mem_cons_of_mem _ h)
    · split at h
      · rcases List.mem_cons.mp h with h | h
        · exact Or.inl h
        · exact Or.inr h
      · rcases List.mem_cons.mp h with h | h
        · exact Or.inr (by rw [h]; simp)
        · rcases ih h with h | h
          · exact Or.inl h
          · exact Or.inr (List.mem_cons_of_mem _ h)

theorem foldl_map_set_mem {α V : Type} (key : α → String) (val : α → V) :
    ∀ (l : List α) (m : List (String × V)) (p : String × V),
      p ∈ l.foldl (fun m x => map_set m (key x) (val x)) m →
      p ∈ m ∨ ∃ x ∈ l, p = (key x, val x) := by
  intro l
  induction l with
  | nil => intro m p h; exact Or.inl h
  | cons y rest ih =>
    intro m p h
    simp only [List.foldl_cons] at h
    rcases ih _ p h with h | ⟨x, hx, hp⟩
    · rcases map_set_mem _ _ _ _ h with h | h
      · exact Or.inr ⟨y, by simp, h⟩
      · exact Or.inl h
    · exact Or.inr ⟨x, List.mem_cons_of_mem _ hx, hp⟩

theorem is_type_without_bin_extension (self : abi_serializer) (fuel : Nat) :
    ∀ (t : type_name) (ctx : abi_traverse_context),
      _is_type self.without_bin_extension fuel t ctx = _is_type self fuel t ctx := by
  induction fuel with
  | zero => intro t ctx; rfl
  | succ n ih =>
    intro t ctx
    unfold _is_type
    simp only [abi_serializer.without_bin_extension, map_find_map_values, Option.isSome_map']
    split
    · rfl
    · split
      · rfl
      · split
        · exact ih _ _
        · rfl

theorem unpack_fields_without_bin_extension
    (step : type_name → List Byte → abi_traverse_context →
      Except Err (Value × List Byte × abi_traverse_context)) :
    ∀ (l : List field_def),
      (∀ f ∈ l, _remove_bin_extension (_remove_bin_extension f.type) =
        _remove_bin_extension f.type) →
      ∀ (ds : List Byte) (ctx : abi_traverse_context),
        unpack_fields step
            (l.map (fun f => { f with type := _remove_bin_extension f.type })) ds ctx =
          unpack_fields step l ds ctx := by
  intro l
  induction l with
  | nil => intro _ ds ctx; rfl
  | cons f fs ih =>
    intro hs ds ctx
    simp only [List.map_cons, unpack_fields, hs f (by simp)]
    split
    · rfl
    · rw [ih (fun g hg => hs g (List.mem_cons_of_mem _ hg))]

theorem pack_fields_without_bin_extension
    (step : type_name → Value → datastream → abi_traverse_context →
      Except Err (datastream × abi_traverse_context)) (vo : List (String × Value)) :
    ∀ (l : List field_def),
      (∀ f ∈ l, _remove_bin_extension (_remove_bin_extension f.type) =
        _remove_bin_extension f.type) →
      ∀ (ds : datastream) (ctx : abi_traverse_context),
        pack_fields step vo
            (l.map (fun f => { f with type := _remove_bin_extension f.type })) ds ctx =
          pack_fields step vo l ds ctx := by
  intro l
  induction l with
  | nil => intro _ ds ctx; rfl
  | cons f fs ih =>
    intro hs ds ctx
    simp only [List.map_cons, pack_fields, hs f (by simp)]
    split
    · rfl
    · split
      · rfl
      · rw [ih (fun g hg => hs g (List.mem_cons_of_mem _ hg))]

/-- The decoder does not see whether the field types of the struct map carry their
binary-extension suffix, when none carries more than one. -/
theorem binary_to_variant_without_bin_extension (self : abi_serializer)
    (hs : ∀ p ∈ self.structs, ∀ f ∈ p.2.fields,
      _remove_bin_extension (_remove_bin_extension f.type) = _remove_bin_extension f.type)
    (fuel : Nat) :
    ∀ (type : type_name) (ds : List Byte) (ctx : abi_traverse_context),
      _binary_to_variant self.without_bin_extension fuel type ds ctx =
        _binary_to_variant self fuel type ds ctx := by
  induction fuel with
  | zero => intro type ds ctx; rfl
  | succ n ih =>
    intro type ds ctx
    have hstep : _binary_to_variant self.without_bin_extension n = _binary_to_variant self n := by
      funext t d c; exact ih t d c
    have hres : ∀ t, resolve_type self.without_bin_extension t = resolve_type self t :=
      fun _ => rfl
    have hbi : self.without_bin_extension.built_in_types = self.built_in_types := rfl
    have hst : ∀ k, map_find self.without_bin_extension.structs k =
        (map_find self.structs k).map struct_def.without_bin_extension :=
      fun k => map_find_map_values _ _ k
    unfold _binary_to_variant
    simp only [hstep, hres, hbi, hst]
    cases hc : ctx.check_deadline with
    | error e => rfl
    | ok ctx0 =>
      simp only
      cases hb : map_find self.built_in_types (fundamental_type (resolve_type self type)) with
      | some btype => rfl
      | none =>
        simp only
        split
        · rfl
        · split
          · rfl
          · cases hf : map_find self.structs (resolve_type self type) with
            | none => rfl
            | some st =>
              have hmem := map_find_mem_key _ _ _ hf
              have hu := unpack_fields_without_bin_extension (_binary_to_variant self n) st.fields
                (hs _ hmem)
              simp only [Option.map_some', struct_def.without_bin_extension, hu]

/-- The encoder does not see whether the field types of the struct map carry their
binary-extension suffix, when none carries more than one. -/
theorem variant_to_binary_without_bin_extension (self : abi_serializer)
    (hs : ∀ p ∈ self.structs, ∀ f ∈ p.2.fields,
      _remove_bin_extension (_remove_bin_extension f.type) = _remove_bin_extension f.type)
    (fuel : Nat) :
    ∀ (type : type_name) (var : Value) (ds : datastream) (ctx : abi_traverse_context),
      _variant_to_binary self.without_bin_extension fuel type var ds ctx =
        _variant_to_binary self fuel type var ds ctx := by
  induction fuel with
  | zero => intro type var ds ctx; rfl
  | succ n ih =>
    intro type var ds ctx
    have hstep : _variant_to_binary self.without_bin_extension n = _variant_to_binary self n := by
      funext t v d c; exact ih t v d c
    have hres : ∀ t, resolve_type self.without_bin_extension t = resolve_type self t :=
      fun _ => rfl
    have hbi : self.without_bin_extension.built_in_types = self.built_in_types := rfl
    have hst : ∀ k, map_find self.without_bin_extension.structs k =
        (map_find self.structs k).map struct_def.without_bin_extension :=
      fun k => map_find_map_values _ _ k
    unfold _variant_to_binary
    simp only [hstep, hres, hbi, hst, WASM_CAPTURE_AND_RETHROW]
    cases hc : ctx.check_deadline with
    | error e => rfl
    | ok ctx0 =>
      simp only
      cases hb : map_find self.built_in_types (fundamental_type (resolve_type self type)) with
      | some btype => rfl
      | none =>
        simp only
        split
        · rfl
        · cases hf : map_find self.structs (resolve_type self type) with
          | none => rfl
          | some st =>
            have hmem := map_find_mem_key _ _ _ hf
            have hu := pack_fields_without_bin_extension (_variant_to_binary self n)
            simp only [Option.map_some', struct_def.without_bin_extension]
            cases var with
            | obj vo => simp only [hu vo st.fields (hs _ hmem)]
            | null => rfl
            | bool _ => rfl
            | int _ => rfl
            | str _ => rfl
            | array _ => rfl

/-- The state in which `set_abi` leaves the serializer: unchanged on an unsupported
version; as the typedef loop left it when that loop raises; with all five maps filled
otherwise, whatever the later checks say. -/
theorem set_abi_state (self : abi_serializer) (fuel : Nat) (abi : abi_def)
    (max_serialization_time : Nat) (clock : Nat → Nat) :
    (set_abi self fuel abi max_serialization_time clock).1 =
      if starts_with abi.version "wasm::abi/1." then
        match set_abi_typedefs fuel
            (set_abi_structs { self with typedefs := [], structs := [], actions := [], tables := [] }
              abi.structs)
            abi.types (abi_traverse_context.create clock 0 max_serialization_time) with
        | (self3, .error _) => self3
        | (self3, .ok _) =>
          set_abi_error_messages (set_abi_tables (set_abi_actions self3 abi.actions) abi.tables)
            abi.error_messages
      else self := by
  unfold set_abi
  by_cases hv : starts_with abi.version "wasm::abi/1." = true
  · rw [if_pos hv, if_pos hv]
    simp only
    generalize set_abi_typedefs fuel
      (set_abi_structs { self with typedefs := [], structs := [], actions := [], tables := [] }
        abi.structs) abi.types (abi_traverse_context.create clock 0 max_serialization_time) = res
    obtain ⟨self3, r⟩ := res
    cases r with
    | error e => rfl
    | ok c =>
      simp only
      split
      · rfl
      · split
        · rfl
        · split
          · rfl
          · split
            · rfl
            · split <;> rfl
  · rw [if_neg hv, if_neg hv]

theorem set_abi_structs_without_bin_extension :
    ∀ (l : List struct_def) (self : abi_serializer),
      set_abi_structs self.without_bin_extension (l.map struct_def.without_bin_extension) =
        (set_abi_structs self l).without_bin_extension := by
  intro l
  induction l with
  | nil => intro self; rfl
  | cons st rest ih =>
    intro self
    simp only [List.map_cons, set_abi_structs]
    rw [← ih]
    congr 1
    simp only [abi_serializer.without_bin_extension]
    congr 1
    exact map_set_map_values struct_def.without_bin_extension self.structs st.name st

theorem set_abi_typedefs_without_bin_extension (fuel : Nat) :
    ∀ (l : List type_def) (self : abi_serializer) (ctx : abi_traverse_context),
      set_abi_typedefs fuel self.without_bin_extension l ctx =
        ((set_abi_typedefs fuel self l ctx).1.without_bin_extension,
          (set_abi_typedefs fuel self l ctx).2) := by
  intro l
  induction l with
  | nil => intro self ctx; rfl
  | cons td rest ih =>
    intro self ctx
    unfold set_abi_typedefs
    simp only [is_type_without_bin_extension]
    split
    · rfl
    · split
      · split
        · rfl
        · split
          · rfl
          · exact ih { self with typedefs := map_set self.typedefs td.new_type_name td.type } _
      · rfl

theorem set_abi_actions_without_bin_extension :
    ∀ (l : List action_def) (self : abi_serializer),
      set_abi_actions self.without_bin_extension l =
        (set_abi_actions self l).without_bin_extension := by
  intro l
  induction l with
  | nil => intro self; rfl
  | cons a rest ih =>
    intro self
    exact ih { self with actions := map_set self.actions a.name a.type }

theorem set_abi_tables_without_bin_extension :
    ∀ (l : List table_def) (self : abi_serializer),
      set_abi_tables self.without_bin_extension l =
        (set_abi_tables self l).without_bin_extension := by
  intro l
  induction l with
  | nil => intro self; rfl
  | cons a rest ih =>
    intro self
    exact ih { self with tables := map_set self.tables a.name a.type }

theorem set_abi_error_messages_without_bin_extension :
    ∀ (l : List error_message) (self : abi_serializer),
      set_abi_error_messages self.without_bin_extension l =
        (set_abi_error_messages self l).without_bin_extension := by
  intro l
  induction l with
  | nil => intro self; rfl
  | cons a rest ih =>
    intro self
    exact ih { self with error_messages := map_set self.error_messages a.error_code a.error_msg }

/-- On a document of a supported version, `set_abi` leaves for the document without the
suffixes the state it leaves for the document, with the suffixes deleted from the field
types of the struct map. -/
theorem set_abi_without_bin_extension (self : abi_serializer) (fuel : Nat) (abi : abi_def)
    (max_serialization_time : Nat) (clock : Nat → Nat)
    (hv : starts_with abi.version "wasm::abi/1." = true) :
    (set_abi self fuel (without_bin_extension abi) max_serialization_time clock).1 =
      (set_abi self fuel abi max_serialization_time clock).1.without_bin_extension := by
  have hv1 : starts_with (without_bin_extension abi).version "wasm::abi/1." = true := hv
  rw [set_abi_state, set_abi_state, if_pos hv, if_pos hv1]
  have key : set_abi_typedefs fuel
      (set_abi_structs { self with typedefs := [], structs := [], actions := [], tables := [] }
        (without_bin_extension abi).structs)
      (without_bin_extension abi).types
      (abi_traverse_context.create clock 0 max_serialization_time) =
      ((set_abi_typedefs fuel
          (set_abi_structs { self with typedefs := [], structs := [], actions := [], tables := [] }
            abi.structs)
          abi.types
          (abi_traverse_context.create clock 0 max_serialization_time)).1.without_bin_extension,
        (set_abi_typedefs fuel
          (set_abi_structs { self with typedefs := [], structs := [], actions := [], tables := [] }
            abi.structs)
          abi.types (abi_traverse_context.create clock 0 max_serialization_time)).2) := by
    have h := set_abi_structs_without_bin_extension abi.structs
      { self with typedefs := [], structs := [], actions := [], tables := [] }
    rw [← set_abi_typedefs_without_bin_extension, ← h]
    rfl
  rw [key]
  generalize set_abi_typedefs fuel
    (set_abi_structs { self with typedefs := [], structs := [], actions := [], tables := [] }
      abi.structs) abi.types (abi_traverse_context.create clock 0 max_serialization_time) = res
  obtain ⟨self3, r⟩ := res
  cases r with
  | error e => rfl
  | ok c =>
    simp only
    rw [← set_abi_error_messages_without_bin_extension, ← set_abi_tables_without_bin_extension,
      ← set_abi_actions_without_bin_extension]
    rfl

/-- On a document of a supported version, the struct map that `set_abi` leaves is filled
from the struct sequence of the document. -/
theorem set_abi_structs_of_document (self : abi_serializer) (fuel : Nat) (abi : abi_def)
    (max_serialization_time : Nat) (clock : Nat → Nat)
    (hv : starts_with abi.version "wasm::abi/1." = true) :
    (set_abi self fuel abi max_serialization_time clock).1.structs =
      abi.structs.foldl (fun m st => map_set m st.name st) [] := by
  rw [set_abi_state, if_pos hv]
  obtain ⟨tds, hst, _⟩ := set_abi_typedefs_state fuel abi.types
    (set_abi_structs { self with typedefs := [], structs := [], actions := [], tables := [] }
      abi.structs) (abi_traverse_context.create clock 0 max_serialization_time)
  generalize set_abi_typedefs fuel
    (set_abi_structs { self with typedefs := [], structs := [], actions := [], tables := [] }
      abi.structs) abi.types (abi_traverse_context.create clock 0 max_serialization_time) = res
    at hst ⊢
  obtain ⟨self3, r⟩ := res
  simp only at hst
  subst hst
  cases r with
  | error e => simp only [set_abi_structs_eq]
  | ok c =>
    simp only [set_abi_structs_eq, set_abi_actions_eq, set_abi_tables_eq,
      set_abi_error_messages_eq]

theorem get_struct_without_bin_extension (self : abi_serializer) (t : type_name) :
    get_struct self.without_bin_extension t =
      match get_struct self t with
      | .error e => .error e
      | .ok st => .ok st.without_bin_extension := by
  have hres : resolve_type self.without_bin_extension t = resolve_type self t := rfl
  unfold get_struct
  rw [hres]
  simp only [abi_serializer.without_bin_extension, map_find_map_values]
  cases map_find self.structs (resolve_type self t) <;> rfl

theorem validate_base_walk_without_bin_extension (self : abi_serializer) (fuel : Nat) :
    ∀ (current : struct_def) (seen : List type_name) (ctx : abi_traverse_context),
      validate_base_walk self.without_bin_extension fuel current.without_bin_extension seen ctx =
        validate_base_walk self fuel current seen ctx := by
  induction fuel with
  | zero => intro current seen ctx; rfl
  | succ n ih =>
    intro current seen ctx
    unfold validate_base_walk
    have hb : current.without_bin_extension.base = current.base := rfl
    rw [hb]
    split
    · split
      · rfl
      · rw [get_struct_without_bin_extension]
        cases get_struct self current.base with
        | error e => rfl
        | ok base =>
          simp only
          have hn : base.without_bin_extension.name = base.name := rfl
          rw [hn]
          split
          · rfl
          · exact ih _ _ _
    · rfl

theorem assert_is_type_without_bin_extension (self : abi_serializer) (fuel : Nat) (t : type_name)
    (ctx : abi_traverse_context) :
    assert_is_type self.without_bin_extension fuel t ctx = assert_is_type self fuel t ctx := by
  unfold assert_is_type
  rw [is_type_without_bin_extension]

theorem validate_fields_without_bin_extension (self : abi_serializer) (fuel : Nat) :
    ∀ (l : List field_def),
      (∀ f ∈ l, _remove_bin_extension (_remove_bin_extension f.type) =
        _remove_bin_extension f.type) →
      ∀ (ctx : abi_traverse_context),
        validate_fields self.without_bin_extension fuel
            (l.map (fun f => { f with type := _remove_bin_extension f.type })) ctx =
          validate_fields self fuel l ctx := by
  intro l
  induction l with
  | nil => intro _ ctx; rfl
  | cons f fs ih =>
    intro hs ctx
    simp only [List.map_cons, validate_fields, hs f (by simp),
      assert_is_type_without_bin_extension]
    split
    · rfl
    · exact ih (fun g hg => hs g (List.mem_cons_of_mem _ hg)) _

theorem validate_struct_without_bin_extension (self : abi_serializer) (fuel : Nat)
    (s : struct_def)
    (hs : ∀ f ∈ s.fields, _remove_bin_extension (_remove_bin_extension f.type) =
      _remove_bin_extension f.type) (ctx : abi_traverse_context) :
    validate_struct self.without_bin_extension fuel s.without_bin_extension ctx =
      validate_struct self fuel s ctx := by
  unfold validate_struct
  have hb : s.without_bin_extension.base = s.base := rfl
  have hn : s.without_bin_extension.name = s.name := rfl
  have hf : s.without_bin_extension.fields =
      s.fields.map (fun f => { f with type := _remove_bin_extension f.type }) := rfl
  rw [hb, hn, hf, validate_base_walk_without_bin_extension]
  simp only [WASM_CAPTURE_AND_RETHROW]
  split
  · rfl
  · exact validate_fields_without_bin_extension self fuel s.fields hs _

theorem validate_structs_without_bin_extension (self : abi_serializer) (fuel : Nat) :
    ∀ (l : List (type_name × struct_def)),
      (∀ p ∈ l, ∀ f ∈ p.2.fields, _remove_bin_extension (_remove_bin_extension f.type) =
        _remove_bin_extension f.type) →
      ∀ (ctx : abi_traverse_context),
        validate_structs self.without_bin_extension fuel
            (l.map (fun p => (p.1, p.2.without_bin_extension))) ctx =
          validate_structs self fuel l ctx := by
  intro l
  induction l with
  | nil => intro _ ctx; rfl
  | cons q rest ih =>
    intro hs ctx
    simp only [List.map_cons, validate_structs]
    rw [validate_struct_without_bin_extension self fuel q.2 (hs q (by simp))]
    split
    · rfl
    · exact ih (fun p hp => hs p (List.mem_cons_of_mem _ hp)) _

theorem validate_typedef_chains_without_bin_extension (self : abi_serializer) (fuel : Nat) :
    ∀ (l : List (type_name × type_name)) (ctx : abi_traverse_context),
      validate_typedef_chains self.without_bin_extension fuel l ctx =
        validate_typedef_chains self fuel l ctx := by
  intro l
  induction l with
  | nil => intro ctx; rfl
  | cons q rest ih =>
    intro ctx
    unfold validate_typedef_chains
    have ht : self.without_bin_extension.typedefs = self.typedefs := rfl
    rw [ht]
    split
    · rfl
    · exact ih _

theorem validate_typedef_targets_without_bin_extension (self : abi_serializer) (fuel : Nat) :
    ∀ (l : List (type_name × type_name)) (ctx : abi_traverse_context),
      validate_typedef_targets self.without_bin_extension fuel l ctx =
        validate_typedef_targets self fuel l ctx := by
  intro l
  induction l with
  | nil => intro ctx; rfl
  | cons q rest ih =>
    intro ctx
    unfold validate_typedef_targets
    rw [assert_is_type_without_bin_extension]
    split
    · rfl
    · exact ih _

theorem validate_targets_without_bin_extension (self : abi_serializer) (fuel : Nat) :
    ∀ (l : List (String × type_name)) (ctx : abi_traverse_context),
      validate_targets self.without_bin_extension fuel l ctx =
        validate_targets self fuel l ctx := by
  intro l
  induction l with
  | nil => intro ctx; rfl
  | cons q rest ih =>
    intro ctx
    unfold validate_targets
    simp only [assert_is_type_without_bin_extension]
    split
    · rfl
    · exact ih _

/-- C17 (counterexample). Three documents of a supported version. (1) With the structs
`x$` (field `a : uint8`), `x` (field `b : uint16`) and `s` (field `f : x$$`), the document
and the document with the trailing `$` deleted are both accepted, and the stream `01 02`
decodes as `s` to `{f: {a: 1}}` under the first (one byte read) and to `{f: {b: 513}}`
under the second: `_remove_bin_extension` deletes one `$` only. (2) With the empty struct
`t` and the struct `s` of field `f : t$`, the empty stream decodes as `s` to `{f: {}}`: a
`T$` field of a type without bytes does not fail on an exhausted stream. (3) The struct `s`
of field `f : s$` is accepted, and rejected with circular-reference-in-struct once the
suffix is deleted. -/
theorem C17_counterexample :
    raised (load (abi_of [] [⟨"s", "", [⟨"f", "x$$"⟩]⟩, ⟨"x", "", [⟨"b", "uint16"⟩]⟩,
      ⟨"x$", "", [⟨"a", "uint8"⟩]⟩])) = none ∧
    raised (load (without_bin_extension (abi_of [] [⟨"s", "", [⟨"f", "x$$"⟩]⟩,
      ⟨"x", "", [⟨"b", "uint16"⟩]⟩, ⟨"x$", "", [⟨"a", "uint8"⟩]⟩]))) = none ∧
    decode (abi_of [] [⟨"s", "", [⟨"f", "x$$"⟩]⟩, ⟨"x", "", [⟨"b", "uint16"⟩]⟩,
      ⟨"x$", "", [⟨"a", "uint8"⟩]⟩]) "s" [1, 2] =
      .ok (.obj [("f", .obj [("a", .int 1)])], [2]) ∧
    decode (without_bin_extension (abi_of [] [⟨"s", "", [⟨"f", "x$$"⟩]⟩,
      ⟨"x", "", [⟨"b", "uint16"⟩]⟩, ⟨"x$", "", [⟨"a", "uint8"⟩]⟩])) "s" [1, 2] =
      .ok (.obj [("f", .obj [("b", .int 513)])], []) ∧
    decode (abi_of [] [⟨"s", "", [⟨"f", "t$"⟩]⟩, ⟨"t", "", []⟩]) "s" [] =
      .ok (.obj [("f", .obj [])], []) ∧
    raised (load (abi_of [] [⟨"s", "", [⟨"f", "s$"⟩]⟩])) = none ∧
    raised (load (without_bin_extension (abi_of [] [⟨"s", "", [⟨"f", "s$"⟩]⟩]))) =
      some .circular_reference_in_struct := by
  decide

/-- C17 (amended). The binary-extension suffix in transcoding. Let the document have a
supported version and no field type ending in more than one `$`. In the state that
`set_abi` leaves for the document with the trailing `$` deleted from every field type,
`_binary_to_variant`, `_variant_to_binary` and `_is_type` give, for every type, stream,
value, context and fuel, the result they give in the state left for the document itself:
a field of type `T$` is decoded and encoded as a field of type `T` is. So do the loops of
`validate` over the typedef chains, the typedef targets, the structs (base chain and
field types), the action types and the table types; the field-graph walk is left out. -/
theorem C17_bin_extension_transcoding (self : abi_serializer) (fuel : Nat) (abi : abi_def)
    (max_serialization_time : Nat) (clock : Nat → Nat)
    (hv : starts_with abi.version "wasm::abi/1." = true) (hsingle : single_bin_extension abi) :
    (∀ (n : Nat) (type : type_name) (ds : List Byte) (ctx : abi_traverse_context),
      _binary_to_variant
          (set_abi self fuel (without_bin_extension abi) max_serialization_time clock).1
          n type ds ctx =
        _binary_to_variant (set_abi self fuel abi max_serialization_time clock).1 n type ds ctx) ∧
    (∀ (n : Nat) (type : type_name) (var : Value) (ds : datastream) (ctx : abi_traverse_context),
      _variant_to_binary
          (set_abi self fuel (without_bin_extension abi) max_serialization_time clock).1
          n type var ds ctx =
        _variant_to_binary (set_abi self fuel abi max_serialization_time clock).1
          n type var ds ctx) ∧
    (∀ (n : Nat) (type : type_name) (ctx : abi_traverse_context),
      _is_type (set_abi self fuel (without_bin_extension abi) max_serialization_time clock).1
          n type ctx =
        _is_type (set_abi self fuel abi max_serialization_time clock).1 n type ctx) ∧
    (∀ (n : Nat) (ctx : abi_traverse_context),
      validate_typedef_chains
          (set_abi self fuel (without_bin_extension abi) max_serialization_time clock).1 n
          (set_abi self fuel (without_bin_extension abi) max_serialization_time clock).1.typedefs
          ctx =
        validate_typedef_chains (set_abi self fuel abi max_serialization_time clock).1 n
          (set_abi self fuel abi max_serialization_time clock).1.typedefs ctx ∧
      validate_typedef_targets
          (set_abi self fuel (without_bin_extension abi) max_serialization_time clock).1 n
          (set_abi self fuel (without_bin_extension abi) max_serialization_time clock).1.typedefs
          ctx =
        validate_typedef_targets (set_abi self fuel abi max_serialization_time clock).1 n
          (set_abi self fuel abi max_serialization_time clock).1.typedefs ctx ∧
      validate_structs
          (set_abi self fuel (without_bin_extension abi) max_serialization_time clock).1 n
          (set_abi self fuel (without_bin_extension abi) max_serialization_time clock).1.structs
          ctx =
        validate_structs (set_abi self fuel abi max_serialization_time clock).1 n
          (set_abi self fuel abi max_serialization_time clock).1.structs ctx ∧
      validate_targets
          (set_abi self fuel (without_bin_extension abi) max_serialization_time clock).1 n
          (set_abi self fuel (without_bin_extension abi) max_serialization_time clock).1.actions
          ctx =
        validate_targets (set_abi self fuel abi max_serialization_time clock).1 n
          (set_abi self fuel abi max_serialization_time clock).1.actions ctx ∧
      validate_targets
          (set_abi self fuel (without_bin_extension abi) max_serialization_time clock).1 n
          (set_abi self fuel (without_bin_extension abi) max_serialization_time clock).1.tables
          ctx =
        validate_targets (set_abi self fuel abi max_serialization_time clock).1 n
          (set_abi self fuel abi max_serialization_time clock).1.tables ctx) := by
  have hs : ∀ p ∈ (set_abi self fuel abi max_serialization_time clock).1.structs,
      ∀ f ∈ p.2.fields,
        _remove_bin_extension (_remove_bin_extension f.type) = _remove_bin_extension f.type := by
    intro p hp f hf
    rw [set_abi_structs_of_document self fuel abi max_serialization_time clock hv] at hp
    rcases foldl_map_set_mem struct_def.name id abi.structs [] p hp with h | ⟨st, hst, hpst⟩
    · simp at h
    · subst hpst
      exact hsingle st hst f hf
  rw [set_abi_without_bin_extension self fuel abi max_serialization_time clock hv]
  exact ⟨fun n => binary_to_variant_without_bin_extension _ hs n,
    fun n => variant_to_binary_without_bin_extension _ hs n,
    fun n => is_type_without_bin_extension _ n,
    fun n ctx => ⟨validate_typedef_chains_without_bin_extension _ n _ ctx,
      validate_typedef_targets_without_bin_extension _ n _ ctx,
      validate_structs_without_bin_extension _ n _ hs ctx,
      validate_targets_without_bin_extension _ n _ ctx,
      validate_targets_without_bin_extension _ n _ ctx⟩⟩

/-- C17 (witness). With the struct `s` of field `f : uint8$`: the stream `07` decodes as `s`
under the document without the suffix as it does under the document, to `{f: 7}`; and on
the empty stream both fail with unpack-exception. -/
theorem C17_bin_extension_transcoding_witness :
    _binary_to_variant
        (set_abi fresh_serializer 32 (without_bin_extension
          (abi_of [] [⟨"s", "", [⟨"f", "uint8$"⟩]⟩])) 1 still_clock).1 32 "s" [7] still_ctx =
      _binary_to_variant
        (set_abi fresh_serializer 32 (abi_of [] [⟨"s", "", [⟨"f", "uint8$"⟩]⟩]) 1 still_clock).1
        32 "s" [7] still_ctx ∧
    decode (abi_of [] [⟨"s", "", [⟨"f", "uint8$"⟩]⟩]) "s" [7] =
      .ok (.obj [("f", .int 7)], []) ∧
    decode (abi_of [] [⟨"s", "", [⟨"f", "uint8$"⟩]⟩]) "s" [] = .error .unpack_exception ∧
    decode (without_bin_extension (abi_of [] [⟨"s", "", [⟨"f", "uint8$"⟩]⟩])) "s" [] =
      .error .unpack_exception :=
  ⟨(C17_bin_extension_transcoding fresh_serializer 32 (abi_of [] [⟨"s", "", [⟨"f", "uint8$"⟩]⟩])
      1 still_clock (by decide) (by
        intro st hst f hf
        simp only [abi_of, List.mem_singleton] at hst
        subst hst
        simp only [List.mem_singleton] at hf
        subst hf
        decide)).1 32 "s" [7] still_ctx,
    by decide, by decide, by decide⟩

/-! ## Null elements of a decoded array -/

theorem unpack_array_elems_null (self : abi_serializer) (fuel : Nat) (F : type_name) :
    ∀ (n : Nat) (ds : List Byte) (ctx : abi_traverse_context),
      elems_meet_null self fuel F n ds ctx →
      unpack_array_elems (_binary_to_variant self fuel F) n ds ctx = .error .unpack_exception := by
  intro n ds ctx h
  induction h with
  | here n ds ds1 ctx ctx1 hd =>
    unfold unpack_array_elems
    rw [hd]
    rfl
  | next n v ds ds1 ctx ctx1 hd hv _ ih =>
    unfold unpack_array_elems
    rw [hd]
    simp only [hv, Bool.false_eq_true, if_false, ih]

theorem unpack_array_elems_ok (self : abi_serializer) (fuel : Nat) (F : type_name) :
    ∀ (n : Nat) (ds : List Byte) (ctx : abi_traverse_context) (l : List Value) (ds2 : List Byte)
      (ctx2 : abi_traverse_context),
      unpack_array_elems (_binary_to_variant self fuel F) n ds ctx = .ok (l, ds2, ctx2) →
      l.length = n ∧ (∀ x ∈ l, x.is_null = false) ∧ elem_decodings self fuel F ds l ds2 := by
  intro n
  induction n with
  | zero =>
    intro ds ctx l ds2 ctx2 h
    simp only [unpack_array_elems, Except.ok.injEq, Prod.mk.injEq] at h
    obtain ⟨h1, h2, _⟩ := h
    subst h1 h2
    exact ⟨rfl, by simp, .nil _⟩
  | succ n ih =>
    intro ds ctx l ds2 ctx2 h
    unfold unpack_array_elems at h
    split at h
    · cases h
    · rename_i v ds1 ctx1 hd
      split at h
      · cases h
      · rename_i hv
        split at h
        · cases h
        · rename_i vs ds3 ctx3 hrest
          simp only [Except.ok.injEq, Prod.mk.injEq] at h
          obtain ⟨h1, h2, _⟩ := h
          subst h1 h2
          obtain ⟨hl, hnn, hdec⟩ := ih _ _ _ _ _ hrest
          refine ⟨by simp [hl], ?_, .cons v vs ds ds1 _ ctx ctx1 hd hdec⟩
          intro x hx
          rcases List.mem_cons.mp hx with hx | hx
          · subst hx; simpa using hv
          · exact hnn x hx

/-- C21. Array decoding rejects null elements. Let the resolved name of `type` be an array
name whose element type `F` has no codec in the registry. (1) If the entry deadline check
passes, the size `n` read from the stream is below the cap and one of the `n` elements
decodes as `F` to null (those before it decoding to values that are not null), the
decoder fails with `unpack_exception`. (2) Every value the decoder returns is an array of
exactly `n` elements, `n` the size read from the stream, none of them null, and they
are the decodings as `F` of consecutive parts of the stream, in stream order. -/
theorem C21_array_rejects_null (self : abi_serializer) (fuel : Nat) (type : type_name)
    (hb : map_find self.built_in_types (fundamental_type (resolve_type self type)) = none)
    (ha : is_array (resolve_type self type) = true) :
    (∀ (ds ds1 : List Byte) (ctx ctx0 : abi_traverse_context) (n : Nat),
      ctx.check_deadline = .ok ctx0 → read_varuint32 ds = .ok (n, ds1) →
      n < max_array_size_for_abi →
      elems_meet_null self fuel (fundamental_type (resolve_type self type)) n ds1 ctx0.enter →
      _binary_to_variant self (fuel + 1) type ds ctx = .error .unpack_exception) ∧
    (∀ (ds ds2 : List Byte) (ctx ctx2 : abi_traverse_context) (v : Value),
      _binary_to_variant self (fuel + 1) type ds ctx = .ok (v, ds2, ctx2) →
      ∃ (n : Nat) (ds1 : List Byte) (l : List Value),
        read_varuint32 ds = .ok (n, ds1) ∧ v = Value.array l ∧ l.length = n ∧
        (∀ x ∈ l, x.is_null = false) ∧
        elem_decodings self fuel (fundamental_type (resolve_type self type)) ds1 l ds2) := by
  constructor
  · intro ds ds1 ctx ctx0 n hc hr hn hnull
    unfold _binary_to_variant
    simp only [hc, hb, ha, if_true, hr, WASM_RETHROW_EXCEPTIONS, hn,
      unpack_array_elems_null self fuel _ n ds1 _ hnull]
  · intro ds ds2 ctx ctx2 v h
    unfold _binary_to_variant at h
    split at h
    · cases h
    · rename_i ctx0 hc
      simp only [hb, ha, if_true] at h
      split at h
      · cases h
      · rename_i size ds1 hr
        split at h
        · rename_i hsize
          split at h
          · cases h
          · rename_i vars ds3 ctx3 hloop
            simp only [Except.ok.injEq, Prod.mk.injEq] at h
            obtain ⟨h1, h2, _⟩ := h
            subst h1 h2
            obtain ⟨hl, hnn, hdec⟩ := unpack_array_elems_ok self fuel _ _ _ _ _ _ _ hloop
            have hr2 : read_varuint32 ds = .ok (size, ds1) := by
              unfold WASM_RETHROW_EXCEPTIONS at hr
              split at hr
              · rename_i a ha2
                rw [ha2]
                exact hr
              · split at hr <;> cases hr
            exact ⟨size, ds1, vars, hr2, rfl, hl, hnn, hdec⟩
        · cases h

/-- C21 (witness). The array type `s?[]` over the empty struct `s`: the stream `[2, 1, 0]`
announces two elements, the second of which has the presence flag 0, and is rejected; the
stream `[2, 1, 1]` decodes to an array of two objects. -/
theorem C21_array_rejects_null_witness :
    _binary_to_variant (loaded (abi_of [] [⟨"s", "", []⟩])) 32 "s?[]" [2, 1, 0] still_ctx =
      .error .unpack_exception ∧
    (∃ (n : Nat) (ds1 : List Byte) (l : List Value),
      read_varuint32 [2, 1, 1] = .ok (n, ds1) ∧ Value.array [.obj [], .obj []] = Value.array l ∧
      l.length = n ∧ (∀ x ∈ l, x.is_null = false) ∧
      elem_decodings (loaded (abi_of [] [⟨"s", "", []⟩])) 31 "s?" ds1 l []) :=
  ⟨(C21_array_rejects_null (loaded (abi_of [] [⟨"s", "", []⟩])) 31 "s?[]" rfl
      (by decide)).1 [2, 1, 0] [1, 0] still_ctx
      { still_ctx with reads := 2 } 2 rfl (by decide) (by decide)
      (.next 1 (.obj []) [1, 0] [0] _ _ rfl rfl (.here 0 [0] [] _ _ rfl)),
   (C21_array_rejects_null (loaded (abi_of [] [⟨"s", "", []⟩])) 31 "s?[]" rfl
      (by decide)).2 [2, 1, 1] [] still_ctx _ (.array [.obj [], .obj []]) rfl⟩

/-! ## The state a failed `set_abi` leaves -/

theorem set_abi_typedefs_mem (fuel : Nat) : ∀ (l : List type_def) (self : abi_serializer)
    (ctx : abi_traverse_context) (p : String × type_name),
    p ∈ (set_abi_typedefs fuel self l ctx).1.typedefs →
    p ∈ self.typedefs ∨ ∃ td ∈ l, p = (td.new_type_name, td.type) := by
  intro l
  induction l with
  | nil => intro self ctx p h; exact Or.inl h
  | cons td rest ih =>
    intro self ctx p h
    unfold set_abi_typedefs at h
    split at h
    · exact Or.inl h
    · split at h
      · split at h
        · exact Or.inl h
        · split at h
          · exact Or.inl h
          · rcases ih _ _ p h with h1 | ⟨x, hx, hp⟩
            · rcases map_set_mem _ _ _ _ h1 with h2 | h2
              · exact Or.inr ⟨td, by simp, h2⟩
              · exact Or.inl h2
            · exact Or.inr ⟨x, List.mem_cons_of_mem _ hx, hp⟩
      · exact Or.inl h

/-- The state of `set_abi` when the version is supported: the four maps are cleared and
refilled from the document. Either (the typedef loop raised) the structs are those of the
document, the typedefs a map `tds` of typedefs of the document, the actions and tables are
empty and the error messages untouched; or all five maps have been assigned from the
document, the error messages on top of the old ones. -/
theorem set_abi_state_fields (self : abi_serializer) (fuel : Nat) (abi : abi_def)
    (max_serialization_time : Nat) (clock : Nat → Nat)
    (hv : starts_with abi.version "wasm::abi/1." = true) :
    ∃ tds, (∀ p ∈ tds, ∃ td ∈ abi.types, p = (td.new_type_name, td.type)) ∧
      ((set_abi self fuel abi max_serialization_time clock).1 =
          { self with typedefs := tds, actions := [], tables := []
                      structs := abi.structs.foldl (fun m st => map_set m st.name st) [] } ∨
       (set_abi self fuel abi max_serialization_time clock).1 =
          { self with
            typedefs := abi.types.foldl (fun m td => map_set m td.new_type_name td.type) []
            structs := abi.structs.foldl (fun m st => map_set m st.name st) []
            actions := abi.actions.foldl (fun m a => map_set m a.name a.type) []
            tables := abi.tables.foldl (fun m a => map_set m a.name a.type) []
            error_messages :=
              abi.error_messages.foldl (fun m e => map_set m e.error_code e.error_msg)
                self.error_messages }) := by
  rw [set_abi_state, if_pos hv]
  obtain ⟨tds, hst, hfull⟩ := set_abi_typedefs_state fuel abi.types
    (set_abi_structs { self with typedefs := [], structs := [], actions := [], tables := [] }
      abi.structs) (abi_traverse_context.create clock 0 max_serialization_time)
  have hmem := set_abi_typedefs_mem fuel abi.types
    (set_abi_structs { self with typedefs := [], structs := [], actions := [], tables := [] }
      abi.structs) (abi_traverse_context.create clock 0 max_serialization_time)
  generalize set_abi_typedefs fuel
    (set_abi_structs { self with typedefs := [], structs := [], actions := [], tables := [] }
      abi.structs) abi.types (abi_traverse_context.create clock 0 max_serialization_time) = res
    at hst hfull hmem ⊢
  obtain ⟨self3, r⟩ := res
  simp only at hst hfull hmem
  subst hst
  simp only [set_abi_structs_eq] at hmem hfull
  refine ⟨tds, ?_, ?_⟩
  · intro p hp
    rcases hmem p hp with h | h
    · cases h
    · exact h
  · cases r with
    | error e => left; simp only [set_abi_structs_eq]
    | ok c =>
      right
      rw [hfull c rfl]
      simp only [set_abi_structs_eq, set_abi_actions_eq, set_abi_tables_eq,
        set_abi_error_messages_eq]

/-- C22 (counterexample). A serializer holds the ABI with the struct `pt`, and `set_abi`
is called on it with a document whose struct `s` has a field of unknown type. The call
fails with `invalid_type_inside_abi`, and the struct map no longer holds `pt`: it holds
the struct `s` of the rejected document, so that `pt`, a type before the call, is none
after it. -/
theorem C22_counterexample :
    (set_abi (loaded (abi_of [] [⟨"pt", "", [⟨"x", "uint8"⟩]⟩])) 32
      (abi_of [] [⟨"s", "", [⟨"f", "nosuch"⟩]⟩]) 1 still_clock).2 =
      .error .invalid_type_inside_abi ∧
    (loaded (abi_of [] [⟨"pt", "", [⟨"x", "uint8"⟩]⟩])).structs =
      [("pt", ⟨"pt", "", [⟨"x", "uint8"⟩]⟩)] ∧
    (set_abi (loaded (abi_of [] [⟨"pt", "", [⟨"x", "uint8"⟩]⟩])) 32
      (abi_of [] [⟨"s", "", [⟨"f", "nosuch"⟩]⟩]) 1 still_clock).1.structs =
      [("s", ⟨"s", "", [⟨"f", "nosuch"⟩]⟩)] ∧
    is_type (loaded (abi_of [] [⟨"pt", "", [⟨"x", "uint8"⟩]⟩])) 32 "pt" 1 still_clock =
      .ok true ∧
    is_type (set_abi (loaded (abi_of [] [⟨"pt", "", [⟨"x", "uint8"⟩]⟩])) 32
      (abi_of [] [⟨"s", "", [⟨"f", "nosuch"⟩]⟩]) 1 still_clock).1 32 "pt" 1 still_clock =
      .ok false := by
  decide

/-- C22. The state a failed `set_abi` leaves. If the call fails with
`unsupport_abi_version_exception`, the serializer is as before the call. If it fails with
any other error, the maps have been cleared and refilled from the rejected document: the
struct map holds the structs of the document, and either the typedef map holds typedefs of
the document only, the action and table maps are empty and the error messages are those
of before the call, or the typedef, action and table maps hold the entries of the
document and the error messages are the old ones updated with those of the document. The
registry and the time budget of the serializer are the same as before. -/
theorem C22_failed_load_state (self : abi_serializer) (fuel : Nat) (abi : abi_def)
    (max_serialization_time : Nat) (clock : Nat → Nat) (e : Err)
    (hfail : (set_abi self fuel abi max_serialization_time clock).2 = .error e) :
    (e = .unsupport_abi_version_exception →
      (set_abi self fuel abi max_serialization_time clock).1 = self) ∧
    (e ≠ .unsupport_abi_version_exception →
      ∃ tds, (∀ p ∈ tds, ∃ td ∈ abi.types, p = (td.new_type_name, td.type)) ∧
        ((set_abi self fuel abi max_serialization_time clock).1 =
            { self with typedefs := tds, actions := [], tables := []
                        structs := abi.structs.foldl (fun m st => map_set m st.name st) [] } ∨
         (set_abi self fuel abi max_serialization_time clock).1 =
            { self with
              typedefs := abi.types.foldl (fun m td => map_set m td.new_type_name td.type) []
              structs := abi.structs.foldl (fun m st => map_set m st.name st) []
              actions := abi.actions.foldl (fun m a => map_set m a.name a.type) []
              tables := abi.tables.foldl (fun m a => map_set m a.name a.type) []
              error_messages :=
                abi.error_messages.foldl (fun m e => map_set m e.error_code e.error_msg)
                  self.error_messages })) := by
  by_cases hv : starts_with abi.version "wasm::abi/1." = true
  · refine ⟨fun he => ?_, fun _ => set_abi_state_fields self fuel abi _ clock hv⟩
    subst he
    exact absurd hfail (set_abi_not_version_error self fuel abi _ clock hv)
  · refine ⟨fun _ => ?_, fun hne => ?_⟩
    · rw [set_abi_state, if_neg hv]
    · exfalso
      apply hne
      unfold set_abi at hfail
      rw [if_neg hv] at hfail
      cases hfail
      rfl

/-- C22 (witness). The failed call of the counterexample: the struct map holds the struct
`s` of the rejected document; and a call with the version `eosio::abi/1.0` on the same
serializer, which leaves it as it was. -/
theorem C22_failed_load_state_witness :
    (∃ tds, (∀ p ∈ tds, ∃ td ∈ (abi_of [] [⟨"s", "", [⟨"f", "nosuch"⟩]⟩]).types,
        p = (td.new_type_name, td.type)) ∧
      ((set_abi (loaded (abi_of [] [⟨"pt", "", [⟨"x", "uint8"⟩]⟩])) 32
          (abi_of [] [⟨"s", "", [⟨"f", "nosuch"⟩]⟩]) 1 still_clock).1 =
          { loaded (abi_of [] [⟨"pt", "", [⟨"x", "uint8"⟩]⟩]) with
            typedefs := tds, actions := [], tables := []
            structs := (abi_of [] [⟨"s", "", [⟨"f", "nosuch"⟩]⟩]).structs.foldl
              (fun m st => map_set m st.name st) [] } ∨
       (set_abi (loaded (abi_of [] [⟨"pt", "", [⟨"x", "uint8"⟩]⟩])) 32
          (abi_of [] [⟨"s", "", [⟨"f", "nosuch"⟩]⟩]) 1 still_clock).1 =
          { loaded (abi_of [] [⟨"pt", "", [⟨"x", "uint8"⟩]⟩]) with
            typedefs := (abi_of [] [⟨"s", "", [⟨"f", "nosuch"⟩]⟩]).types.foldl
              (fun m td => map_set m td.new_type_name td.type) []
            structs := (abi_of [] [⟨"s", "", [⟨"f", "nosuch"⟩]⟩]).structs.foldl
              (fun m st => map_set m st.name st) []
            actions := (abi_of [] [⟨"s", "", [⟨"f", "nosuch"⟩]⟩]).actions.foldl
              (fun m a => map_set m a.name a.type) []
            tables := (abi_of [] [⟨"s", "", [⟨"f", "nosuch"⟩]⟩]).tables.foldl
              (fun m a => map_set m a.name a.type) []
            error_messages :=
              (abi_of [] [⟨"s", "", [⟨"f", "nosuch"⟩]⟩]).error_messages.foldl
                (fun m e => map_set m e.error_code e.error_msg)
                (loaded (abi_of [] [⟨"pt", "", [⟨"x", "uint8"⟩]⟩])).error_messages })) ∧
    (set_abi (loaded (abi_of [] [⟨"pt", "", [⟨"x", "uint8"⟩]⟩])) 32
      { abi_of [] [] with version := "eosio::abi/1.0" } 1 still_clock).1 =
      loaded (abi_of [] [⟨"pt", "", [⟨"x", "uint8"⟩]⟩]) :=
  ⟨(C22_failed_load_state (loaded (abi_of [] [⟨"pt", "", [⟨"x", "uint8"⟩]⟩])) 32
      (abi_of [] [⟨"s", "", [⟨"f", "nosuch"⟩]⟩]) 1 still_clock .invalid_type_inside_abi
      (by decide)).2 (by decide),
   (C22_failed_load_state (loaded (abi_of [] [⟨"pt", "", [⟨"x", "uint8"⟩]⟩])) 32
      { abi_of [] [] with version := "eosio::abi/1.0" } 1 still_clock
      .unsupport_abi_version_exception (by decide)).1 rfl⟩

/-! ## The checkpoint store -/

theorem map_find_set_key {K V : Type} [DecidableEq K] [map_key K] (m : List (K × V)) (k : K)
    (v : V) (k2 : K) :
    map_find (map_set m k v) k2 = if k = k2 then some v else map_find m k2 := by
  induction m with
  | nil => simp [map_set, map_find]
  | cons p rest ih =>
    obtain ⟨k1, v1⟩ := p
    unfold map_set
    by_cases h1 : k = k1
    · subst h1
      simp only [if_true, map_find]
      by_cases h3 : k = k2 <;> simp [h3]
    · simp only [h1, if_false]
      cases h2 : map_key.lt k k1
      · simp only [Bool.false_eq_true, if_false, map_find, ih]
        by_cases h3 : k1 = k2
        · subst h3
          simp [h1]
        · simp [h3]
      · simp only [if_true, map_find]

/-- C23. The key of `ExistCheckpoint`. On a store that is not initialised,
`WriteCheckpoint`, `ReadCheckpoint`, `ExistCheckpoint` and `LoadCheckPoint` return false. On
an initialised store `WriteCheckpoint(h, d)` succeeds and `ReadCheckpoint(h)` then yields
`d`: both address the key `('c', h)`. `ExistCheckpoint(h2)` addresses the key `h2`, an
`int` without the `'c'`: after the write it is true exactly when the key `('c', h)` and the
key `h2` have the same serialized form or the store held a record under the serialized
`int` before, for the height written as for any other. With a
one-byte `char` and a four-byte `int`, on a store that was empty, `ExistCheckpoint(7)`
is false after `WriteCheckpoint(7, d)` has succeeded and while `ReadCheckpoint(7)` yields
`d`. -/
theorem C23_exist_checkpoint_key :
    (∀ (D H : Type) (fmt : disk_format D H) (h : Int) (d : D) (values : List (Int × H)),
      (CSyncDataDb.WriteCheckpoint fmt (uninitialised D) h d).2 = false ∧
      (CSyncDataDb.ReadCheckpoint fmt (uninitialised D) h d).1 = false ∧
      CSyncDataDb.ExistCheckpoint fmt (uninitialised D) h = false ∧
      (CSyncDataDb.LoadCheckPoint fmt (uninitialised D) values).2 = false) ∧
    (∀ (D H : Type) (fmt : disk_format D H) (db : CLevelDBWrapper D) (h h2 : Int) (d d0 : D),
      (CSyncDataDb.WriteCheckpoint fmt ⟨some db⟩ h d).2 = true ∧
      CSyncDataDb.ReadCheckpoint fmt (CSyncDataDb.WriteCheckpoint fmt ⟨some db⟩ h d).1 h d0 =
        (true, d) ∧
      CSyncDataDb.ExistCheckpoint fmt (CSyncDataDb.WriteCheckpoint fmt ⟨some db⟩ h d).1 h2 =
        (decide (fmt.pair_key 99 h = fmt.int_key h2) || db.Exists (fmt.int_key h2))) ∧
    ((uninitialised (List Byte)).InitializeSyncDataDb []).2 = true ∧
    (CSyncDataDb.WriteCheckpoint raw_disk_format
      ((uninitialised (List Byte)).InitializeSyncDataDb []).1 7 [1, 2]).2 = true ∧
    CSyncDataDb.ReadCheckpoint raw_disk_format
      (CSyncDataDb.WriteCheckpoint raw_disk_format
        ((uninitialised (List Byte)).InitializeSyncDataDb []).1 7 [1, 2]).1 7 [] =
      (true, [1, 2]) ∧
    CSyncDataDb.ExistCheckpoint raw_disk_format
      (CSyncDataDb.WriteCheckpoint raw_disk_format
        ((uninitialised (List Byte)).InitializeSyncDataDb []).1 7 [1, 2]).1 7 = false := by
  refine ⟨fun D H fmt h d values => ⟨rfl, rfl, rfl, rfl⟩, ?_, by decide, by decide, by decide,
    by decide⟩
  intro D H fmt db h h2 d d0
  refine ⟨rfl, ?_, ?_⟩
  · simp only [CSyncDataDb.WriteCheckpoint, CSyncDataDb.ReadCheckpoint, CLevelDBWrapper.Write,
      CLevelDBWrapper.Read, map_find_set_key, if_true]
  · simp only [CSyncDataDb.WriteCheckpoint, CSyncDataDb.ExistCheckpoint, CLevelDBWrapper.Write,
      CLevelDBWrapper.Exists, map_find_set_key]
    by_cases hk : fmt.pair_key 99 h = fmt.int_key h2
    · simp [hk]
    · simp [hk]

/-! ## The order of the typedefs -/

theorem set_abi_typedefs_ok_in_order (fuel : Nat) : ∀ (l : List type_def)
    (self self3 : abi_serializer) (ctx ctx1 : abi_traverse_context),
    set_abi_typedefs fuel self l ctx = (self3, .ok ctx1) → typedefs_in_order fuel self l := by
  intro l
  induction l with
  | nil => intro self self3 ctx ctx1 _; trivial
  | cons td rest ih =>
    intro self self3 ctx ctx1 h
    unfold set_abi_typedefs at h
    split at h
    · cases h
    · rename_i known c1 h1
      split at h
      · rename_i hk
        split at h
        · cases h
        · rename_i ex c2 h2
          split at h
          · cases h
          · rename_i hex
            subst hk
            have hex2 : ex = false := by simpa using hex
            subst hex2
            exact ⟨is_type_known _ _ _ _ _ _ h1, is_type_known _ _ _ _ _ _ h2, ih _ _ _ _ h⟩
      · cases h

theorem set_abi_typedefs_in_order_ok (fuel : Nat) : ∀ (l : List type_def)
    (self : abi_serializer) (ctx : abi_traverse_context), ctx.never_expires →
    typedefs_in_order fuel self l →
    ∃ ctx1, set_abi_typedefs fuel self l ctx = (typedefs_added self l, .ok ctx1) ∧
      same_clock ctx ctx1 := by
  intro l
  induction l with
  | nil => intro self ctx _ _; exact ⟨ctx, rfl, rfl, rfl⟩
  | cons td rest ih =>
    intro self ctx hn h
    obtain ⟨h1, h2, h3⟩ := h
    obtain ⟨c1, hc1, hs1⟩ := known_is_type self fuel td.type ctx true hn h1
    have hn1 := never_expires_of_same_clock hs1 hn
    obtain ⟨c2, hc2, hs2⟩ := known_is_type self fuel td.new_type_name c1 false hn1 h2
    have hn2 := never_expires_of_same_clock hs2 hn1
    obtain ⟨c3, hc3, hs3⟩ := ih _ c2 hn2 h3
    refine ⟨c3, ?_, ?_⟩
    · unfold set_abi_typedefs
      rw [hc1]
      simp only [if_true]
      rw [hc2]
      simp only [Bool.false_eq_true, if_false]
      rw [hc3]
      rfl
    · exact ⟨hs3.1.trans (hs2.1.trans hs1.1), hs3.2.trans (hs2.2.trans hs1.2)⟩

theorem set_abi_typedefs_append (fuel : Nat) : ∀ (pre : List type_def) (l : List type_def)
    (self : abi_serializer) (ctx : abi_traverse_context), ctx.never_expires →
    typedefs_in_order fuel self pre →
    ∃ ctx1, set_abi_typedefs fuel self (pre ++ l) ctx =
        set_abi_typedefs fuel (typedefs_added self pre) l ctx1 ∧ ctx1.never_expires := by
  intro pre
  induction pre with
  | nil => intro l self ctx hn _; exact ⟨ctx, rfl, hn⟩
  | cons td rest ih =>
    intro l self ctx hn h
    obtain ⟨h1, h2, h3⟩ := h
    obtain ⟨c1, hc1, hs1⟩ := known_is_type self fuel td.type ctx true hn h1
    have hn1 := never_expires_of_same_clock hs1 hn
    obtain ⟨c2, hc2, hs2⟩ := known_is_type self fuel td.new_type_name c1 false hn1 h2
    have hn2 := never_expires_of_same_clock hs2 hn1
    obtain ⟨c3, hc3, hn3⟩ := ih l _ c2 hn2 h3
    refine ⟨c3, ?_, hn3⟩
    rw [List.cons_append]
    conv_lhs => unfold set_abi_typedefs
    rw [hc1]
    simp only [if_true]
    rw [hc2]
    simp only [Bool.false_eq_true, if_false]
    rw [hc3]
    rfl

theorem set_abi_typedefs_raise (self : abi_serializer) (fuel : Nat) (abi : abi_def)
    (max_serialization_time : Nat) (clock : Nat → Nat) (e : Err)
    (hv : starts_with abi.version "wasm::abi/1." = true)
    (h : (set_abi_typedefs fuel
      (set_abi_structs { self with typedefs := [], structs := [], actions := [], tables := [] }
        abi.structs)
      abi.types (abi_traverse_context.create clock 0 max_serialization_time)).2 = .error e) :
    (set_abi self fuel abi max_serialization_time clock).2 = .error e := by
  unfold set_abi
  simp only [hv, if_true]
  generalize set_abi_typedefs fuel
    (set_abi_structs { self with typedefs := [], structs := [], actions := [], tables := [] }
      abi.structs) abi.types (abi_traverse_context.create clock 0 max_serialization_time) = res
    at h ⊢
  obtain ⟨self3, r⟩ := res
  simp only at h
  subst h
  rfl

theorem set_abi_ok_typedefs (self : abi_serializer) (fuel : Nat) (abi : abi_def)
    (max_serialization_time : Nat) (clock : Nat → Nat)
    (h : (set_abi self fuel abi max_serialization_time clock).2 = .ok ()) :
    ∃ self3 ctx1, set_abi_typedefs fuel
      (set_abi_structs { self with typedefs := [], structs := [], actions := [], tables := [] }
        abi.structs)
      abi.types (abi_traverse_context.create clock 0 max_serialization_time) =
      (self3, .ok ctx1) := by
  unfold set_abi at h
  by_cases hv : starts_with abi.version "wasm::abi/1." = true
  · simp only [hv, if_true] at h
    generalize set_abi_typedefs fuel
      (set_abi_structs { self with typedefs := [], structs := [], actions := [], tables := [] }
        abi.structs) abi.types (abi_traverse_context.create clock 0 max_serialization_time) = res
      at h ⊢
    obtain ⟨self3, r⟩ := res
    cases r with
    | error e => simp at h
    | ok c => exact ⟨self3, c, rfl⟩
  · simp [hv] at h

/-- C24 (counterexample). The typedef `uint8 = nosuch`, whose new name is a built-in name,
fails with `invalid_type_inside_abi`: the aliased type is asserted first. The typedef
`t[] = uint8` next to a struct named `t[]` is accepted: the new name is looked up under
its fundamental type `t`, which is no type. -/
theorem C24_counterexample :
    (set_abi fresh_serializer 32 (abi_of [⟨"uint8", "nosuch"⟩] []) 1 still_clock).2 =
      .error .invalid_type_inside_abi ∧
    (set_abi fresh_serializer 32 (abi_of [⟨"t[]", "uint8"⟩] [⟨"t[]", "", []⟩]) 1
      still_clock).2 = .ok () := by
  decide

/-- C24. Typedef acceptance depends on declaration order. Let `self2` be the serializer
after the struct loop of `set_abi`. (1) If `set_abi` accepts the document, every typedef,
in sequence order, has an aliased type that is a type and a new name that is no type with
respect to the registry, the structs and the typedefs before it. (2) When the version is
supported and the deadline is never reached, a typedef sequence in that order passes the
typedef loop, and for a typedef `td` whose predecessors `pre` are in that order: if the
aliased type of `td` is no type, `set_abi` fails with `invalid_type_inside_abi`; if it is a
type and the new name of `td` is a type (its fundamental type is a built-in name, an
earlier typedef or a struct name), `set_abi` fails with `duplicate_abi_def_exception`. -/
theorem C24_typedef_order (self : abi_serializer) (fuel : Nat) (abi : abi_def)
    (max_serialization_time : Nat) (clock : Nat → Nat) :
    ((set_abi self fuel abi max_serialization_time clock).2 = .ok () →
      typedefs_in_order fuel
        (set_abi_structs { self with typedefs := [], structs := [], actions := [], tables := [] }
          abi.structs) abi.types) ∧
    (starts_with abi.version "wasm::abi/1." = true →
      (∀ n, clock n < clock 0 + max_serialization_time) →
      (typedefs_in_order fuel
          (set_abi_structs
            { self with typedefs := [], structs := [], actions := [], tables := [] }
            abi.structs) abi.types →
        ∃ ctx1, (set_abi_typedefs fuel
          (set_abi_structs
            { self with typedefs := [], structs := [], actions := [], tables := [] }
            abi.structs)
          abi.types (abi_traverse_context.create clock 0 max_serialization_time)).2 =
          .ok ctx1) ∧
      (∀ (pre rest : List type_def) (td : type_def), abi.types = pre ++ td :: rest →
        typedefs_in_order fuel
          (set_abi_structs
            { self with typedefs := [], structs := [], actions := [], tables := [] }
            abi.structs) pre →
        (known_type
            (typedefs_added
              (set_abi_structs
                { self with typedefs := [], structs := [], actions := [], tables := [] }
                abi.structs) pre) fuel td.type = some false →
          (set_abi self fuel abi max_serialization_time clock).2 =
            .error .invalid_type_inside_abi) ∧
        (known_type
            (typedefs_added
              (set_abi_structs
                { self with typedefs := [], structs := [], actions := [], tables := [] }
                abi.structs) pre) fuel td.type = some true →
          known_type
            (typedefs_added
              (set_abi_structs
                { self with typedefs := [], structs := [], actions := [], tables := [] }
                abi.structs) pre) fuel td.new_type_name = some true →
          (set_abi self fuel abi max_serialization_time clock).2 =
            .error .duplicate_abi_def_exception))) := by
  refine ⟨fun h => ?_, fun hv hclock => ⟨fun hord => ?_, fun pre rest td hl hpre => ?_⟩⟩
  · obtain ⟨self3, ctx1, h1⟩ := set_abi_ok_typedefs self fuel abi _ clock h
    exact set_abi_typedefs_ok_in_order fuel _ _ _ _ _ h1
  · obtain ⟨c, hc, _⟩ := set_abi_typedefs_in_order_ok fuel abi.types _
      (abi_traverse_context.create clock 0 max_serialization_time)
      (create_never_expires clock 0 max_serialization_time hclock) hord
    exact ⟨c, by rw [hc]⟩
  · obtain ⟨c, hc, hn⟩ := set_abi_typedefs_append fuel pre (td :: rest) _
      (abi_traverse_context.create clock 0 max_serialization_time)
      (create_never_expires clock 0 max_serialization_time hclock) hpre
    constructor
    · intro h1
      apply set_abi_typedefs_raise self fuel abi _ clock _ hv
      rw [hl, hc]
      obtain ⟨c1, hc1, _⟩ := known_is_type _ fuel td.type c false hn h1
      unfold set_abi_typedefs
      rw [hc1]
      rfl
    · intro h1 h2
      apply set_abi_typedefs_raise self fuel abi _ clock _ hv
      rw [hl, hc]
      obtain ⟨c1, hc1, hs1⟩ := known_is_type _ fuel td.type c true hn h1
      obtain ⟨c2, hc2, _⟩ := known_is_type _ fuel td.new_type_name c1 true
        (never_expires_of_same_clock hs1 hn) h2
      unfold set_abi_typedefs
      rw [hc1]
      simp only [if_true]
      rw [hc2]
      rfl

/-- C24 (witness). The sequence `[v = u, u = uint32]` fails with `invalid_type_inside_abi`,
the sequence `[u = uint32, v = u]` is accepted and is in order, and the typedefs
`uint8 = uint32` and, next to a struct `s`, `s = uint32` fail with
`duplicate_abi_def_exception`. -/
theorem C24_typedef_order_witness :
    (set_abi fresh_serializer 32 (abi_of [⟨"v", "u"⟩, ⟨"u", "uint32"⟩] []) 1 still_clock).2 =
      .error .invalid_type_inside_abi ∧
    (set_abi fresh_serializer 32 (abi_of [⟨"u", "uint32"⟩, ⟨"v", "u"⟩] []) 1 still_clock).2 =
      .ok () ∧
    typedefs_in_order 32
      (set_abi_structs
        { fresh_serializer with typedefs := [], structs := [], actions := [], tables := [] }
        (abi_of [⟨"u", "uint32"⟩, ⟨"v", "u"⟩] []).structs)
      (abi_of [⟨"u", "uint32"⟩, ⟨"v", "u"⟩] []).types ∧
    (set_abi fresh_serializer 32 (abi_of [⟨"uint8", "uint32"⟩] []) 1 still_clock).2 =
      .error .duplicate_abi_def_exception ∧
    (set_abi fresh_serializer 32 (abi_of [⟨"s", "uint32"⟩] [⟨"s", "", []⟩]) 1 still_clock).2 =
      .error .duplicate_abi_def_exception :=
  ⟨((C24_typedef_order fresh_serializer 32 (abi_of [⟨"v", "u"⟩, ⟨"u", "uint32"⟩] []) 1
      still_clock).2 (by decide) (fun _ => Nat.zero_lt_one)).2 [] [⟨"u", "uint32"⟩] ⟨"v", "u"⟩
      rfl trivial |>.1 rfl,
   by decide,
   (C24_typedef_order fresh_serializer 32 (abi_of [⟨"u", "uint32"⟩, ⟨"v", "u"⟩] []) 1
      still_clock).1 (by decide),
   ((C24_typedef_order fresh_serializer 32 (abi_of [⟨"uint8", "uint32"⟩] []) 1
      still_clock).2 (by decide) (fun _ => Nat.zero_lt_one)).2 [] [] ⟨"uint8", "uint32"⟩
      rfl trivial |>.2 rfl rfl,
   ((C24_typedef_order fresh_serializer 32 (abi_of [⟨"s", "uint32"⟩] [⟨"s", "", []⟩]) 1
      still_clock).2 (by decide) (fun _ => Nat.zero_lt_one)).2 [] [] ⟨"s", "uint32"⟩
      rfl trivial |>.2 rfl rfl⟩

/-! ## The decoded base of a struct -/

theorem validate_ok_bases (self : abi_serializer) (fuel : Nat) (ctx ctx1 : abi_traverse_context)
    (hok : validate self fuel ctx = .ok ctx1) :
    ∀ p ∈ self.structs, p.2.base ≠ "" → ∃ b, get_struct self p.2.base = .ok b := by
  intro p hp
  unfold validate at hok
  split at hok
  · cases hok
  · split at hok
    · cases hok
    · split at hok
      · cases hok
      · rename_i ctx4 h4
        exact base_chain_ends_base (validate_structs_ok_ends self fuel self.structs _ _ h4 p hp)

/-- C25 (counterexample). The ABI with the struct `uint8` (no fields) and the struct `d` of
base `uint8` and field `c : uint8` is accepted, and `get_struct` finds the base. The
resolved base name is handed to the registry, which decodes the byte 7 to the integer 7,
not to an object, and the decoder of `d` takes the branch that enters the base under the
key `uint8`. Likewise a base struct named `t[]` decodes as an array, here the empty one. -/
theorem C25_counterexample :
    (set_abi fresh_serializer 32
      (abi_of [] [⟨"uint8", "", []⟩, ⟨"d", "uint8", [⟨"c", "uint8"⟩]⟩]) 1 still_clock).2 =
      .ok () ∧
    get_struct (loaded (abi_of [] [⟨"uint8", "", []⟩, ⟨"d", "uint8", [⟨"c", "uint8"⟩]⟩]))
      "uint8" = .ok ⟨"uint8", "", []⟩ ∧
    binary_to_variant (loaded (abi_of [] [⟨"uint8", "", []⟩, ⟨"d", "uint8", [⟨"c", "uint8"⟩]⟩]))
      32 (resolve_type
        (loaded (abi_of [] [⟨"uint8", "", []⟩, ⟨"d", "uint8", [⟨"c", "uint8"⟩]⟩])) "uint8")
      [7, 9] 1 still_clock = .ok (.int 7, [9]) ∧
    binary_to_variant (loaded (abi_of [] [⟨"uint8", "", []⟩, ⟨"d", "uint8", [⟨"c", "uint8"⟩]⟩]))
      32 "d" [7, 9] 1 still_clock = .ok (.obj [("uint8", .int 7), ("c", .int 9)], []) ∧
    (set_abi fresh_serializer 32
      (abi_of [] [⟨"t[]", "", []⟩, ⟨"d", "t[]", [⟨"c", "uint8"⟩]⟩]) 1 still_clock).2 = .ok () ∧
    binary_to_variant (loaded (abi_of [] [⟨"t[]", "", []⟩, ⟨"d", "t[]", [⟨"c", "uint8"⟩]⟩]))
      32 "d" [0, 9] 1 still_clock = .ok (.obj [("t[]", .array []), ("c", .int 9)], []) := by
  decide

/-- C25. The base of a struct of an accepted ABI. For every struct of the map with a
base, the resolved base name is the key of a struct; and when the decoder handles that
name in its struct branch (its fundamental type is not a built-in name and it has no
array and no optional suffix), every value the decoder returns for the resolved base name
is an object, whose pairs the derived struct starts from: the branch that enters the base
under the base name is not taken. -/
theorem C25_base_decodes_to_object (self : abi_serializer) (fuel : Nat) (abi : abi_def)
    (max_serialization_time : Nat) (clock : Nat → Nat)
    (hok : (set_abi self fuel abi max_serialization_time clock).2 = .ok ())
    (p : type_name × struct_def)
    (hp : p ∈ (set_abi self fuel abi max_serialization_time clock).1.structs)
    (hbase : p.2.base ≠ "") :
    (∃ b, map_find (set_abi self fuel abi max_serialization_time clock).1.structs
      (resolve_type (set_abi self fuel abi max_serialization_time clock).1 p.2.base) =
      some b) ∧
    (map_find (set_abi self fuel abi max_serialization_time clock).1.built_in_types
        (fundamental_type
          (resolve_type (set_abi self fuel abi max_serialization_time clock).1 p.2.base)) =
        none →
      is_array (resolve_type (set_abi self fuel abi max_serialization_time clock).1 p.2.base) =
        false →
      is_optional
        (resolve_type (set_abi self fuel abi max_serialization_time clock).1 p.2.base) =
        false →
      ∀ (fuel2 : Nat) (ds ds1 : List Byte) (ctx ctx1 : abi_traverse_context) (v : Value),
        _binary_to_variant (set_abi self fuel abi max_serialization_time clock).1 fuel2
          (resolve_type (set_abi self fuel abi max_serialization_time clock).1 p.2.base)
          ds ctx = .ok (v, ds1, ctx1) →
        ∃ kvs, v = Value.obj kvs ∧ base_pairs p.2.base v = kvs) := by
  obtain ⟨⟨ctx, ctx1, hval⟩, _⟩ := set_abi_ok_state self fuel abi max_serialization_time clock hok
  generalize (set_abi self fuel abi max_serialization_time clock).1 = S at hval hp ⊢
  obtain ⟨b, hb⟩ := validate_ok_bases S fuel ctx ctx1 hval p hp hbase
  have hfind : map_find S.structs (resolve_type S p.2.base) = some b := by
    unfold get_struct at hb
    split at hb
    · cases hb
    · rename_i st hst
      cases hb
      exact hst
  refine ⟨⟨b, hfind⟩, ?_⟩
  intro hbi ha ho fuel2 ds ds1 c c1 v h
  cases fuel2 with
  | zero => simp [_binary_to_variant] at h
  | succ n =>
    cases hc : c.check_deadline with
    | error e =>
      unfold _binary_to_variant at h
      rw [hc] at h
      cases h
    | ok c0 =>
      have hd : struct_dispatch S (resolve_type S (resolve_type S p.2.base)) b := by
        rw [resolve_type_idempotent]
        exact ⟨resolve_type_idempotent S _, hbi, ha, ho, hfind⟩
      rw [binary_to_variant_struct S n _ b hd ds c c0 hc] at h
      split at h
      · split at h
        · cases h
        · split at h
          · cases h
          · simp only [Except.ok.injEq, Prod.mk.injEq] at h
            exact ⟨_, h.1.symm, by rw [← h.1]; rfl⟩
      · split at h
        · cases h
        · simp only [Except.ok.injEq, Prod.mk.injEq] at h
          exact ⟨_, h.1.symm, by rw [← h.1]; rfl⟩

/-- C25 (witness). The accepted ABI with the struct `b` (field `a : uint8`) and the struct
`d` of base `b`: the base name is the key of a struct and the stream `07` decodes as `b`
to an object. -/
theorem C25_base_decodes_to_object_witness :
    (∃ b, map_find
      (loaded (abi_of [] [⟨"b", "", [⟨"a", "uint8"⟩]⟩, ⟨"d", "b", [⟨"c", "uint8"⟩]⟩])).structs
      (resolve_type
        (loaded (abi_of [] [⟨"b", "", [⟨"a", "uint8"⟩]⟩, ⟨"d", "b", [⟨"c", "uint8"⟩]⟩])) "b") =
      some b) ∧
    (∃ kvs, Value.obj [("a", .int 7)] = Value.obj kvs ∧
      base_pairs "b" (Value.obj [("a", .int 7)]) = kvs) :=
  ⟨(C25_base_decodes_to_object fresh_serializer 32
      (abi_of [] [⟨"b", "", [⟨"a", "uint8"⟩]⟩, ⟨"d", "b", [⟨"c", "uint8"⟩]⟩]) 1 still_clock
      (by decide) ("d", ⟨"d", "b", [⟨"c", "uint8"⟩]⟩) (by decide) (by decide)).1,
   (C25_base_decodes_to_object fresh_serializer 32
      (abi_of [] [⟨"b", "", [⟨"a", "uint8"⟩]⟩, ⟨"d", "b", [⟨"c", "uint8"⟩]⟩]) 1 still_clock
      (by decide) ("d", ⟨"d", "b", [⟨"c", "uint8"⟩]⟩) (by decide) (by decide)).2 rfl rfl rfl
      32 [7] [] still_ctx _ (.obj [("a", .int 7)]) rfl⟩

/-! ## Duplicate names -/

/-- With every typedef target known in place and a deadline that is never reached, the
typedef loop of `set_abi` either completes or fails with duplicate-abi-def. -/
theorem set_abi_typedefs_targets_known (fuel : Nat) : ∀ (l : List type_def)
    (self : abi_serializer) (ctx : abi_traverse_context) (e : Err), ctx.never_expires →
    typedef_targets_known fuel self l →
    (set_abi_typedefs fuel self l ctx).2 = .error e → e = .duplicate_abi_def_exception := by
  intro l
  induction l with
  | nil => intro self ctx e _ _ h; simp [set_abi_typedefs] at h
  | cons td rest ih =>
    intro self ctx e hn hk h
    obtain ⟨h1, h2, h3⟩ := hk
    obtain ⟨c1, hc1, hs1⟩ := known_is_type self fuel td.type ctx true hn h1
    have hn1 := never_expires_of_same_clock hs1 hn
    cases hb : known_type self fuel td.new_type_name with
    | none => exact absurd hb h2
    | some b =>
      obtain ⟨c2, hc2, hs2⟩ := known_is_type self fuel td.new_type_name c1 b hn1 hb
      have hn2 := never_expires_of_same_clock hs2 hn1
      unfold set_abi_typedefs at h
      rw [hc1] at h
      simp only [if_true] at h
      rw [hc2] at h
      simp only at h
      cases b with
      | true =>
        simp only [if_true] at h
        cases h
        rfl
      | false =>
        simp only [Bool.false_eq_true, if_false] at h
        exact ih _ c2 e hn2 h3 h

/-- C6. Duplicates are rejected: when the typedef, struct, action or table sequence of the
document holds two entries with the same name, `set_abi` raises, whatever the serializer,
the clock and the fuel. (1) When the version is supported, the kind is duplicate-abi-def
unless something else is wrong: a typedef aliases a type unknown at its place in the
sequence (invalid-type-inside-abi), the deadline expires, or the walk of `_is_type` runs
out of fuel; and when every reading of the clock is before the deadline, the kind is not
abi-serialization-deadline. (2) When nothing else is wrong (the version is supported,
every reading of the clock is before the deadline, and every typedef aliases a type known
at its place in the sequence), the kind is duplicate-abi-def, whatever else `validate`
would have found. -/
theorem C6_duplicates_rejected (self : abi_serializer) (fuel : Nat) (abi : abi_def)
    (max_serialization_time : Nat) (clock : Nat → Nat) (hdup : has_duplicate_names abi) :
    (∃ e, (set_abi self fuel abi max_serialization_time clock).2 = .error e ∧
      (starts_with abi.version "wasm::abi/1." = true →
        (e = .duplicate_abi_def_exception ∨ e = .invalid_type_inside_abi ∨
          e = .abi_serialization_deadline_exception ∨ e = .fuel_exhausted) ∧
        ((∀ n, clock n < clock 0 + max_serialization_time) →
          e ≠ .abi_serialization_deadline_exception))) ∧
    (starts_with abi.version "wasm::abi/1." = true →
      (∀ n, clock n < clock 0 + max_serialization_time) →
      typedef_targets_known fuel
        (set_abi_structs { self with typedefs := [], structs := [], actions := [], tables := [] }
          abi.structs) abi.types →
      (set_abi self fuel abi max_serialization_time clock).2 =
        .error .duplicate_abi_def_exception) := by
  refine ⟨set_abi_duplicates_rejected self fuel abi max_serialization_time clock hdup, ?_⟩
  intro hv hclock hk
  rcases set_abi_duplicates_kind self fuel abi max_serialization_time clock hdup hv with
    h | ⟨e, h1, h2⟩
  · exact h
  · rw [h2, set_abi_typedefs_targets_known fuel abi.types _ _ e
      (create_never_expires clock 0 max_serialization_time hclock) hk h1]

/-- C6 (witness). The claim at the document with the typedef `u = uint32` listed twice and
at the document with the struct `s` listed twice: both fail with duplicate-abi-def. -/
theorem C6_duplicates_rejected_witness :
    (set_abi fresh_serializer 32 (abi_of [⟨"u", "uint32"⟩, ⟨"u", "uint32"⟩] []) 1
      still_clock).2 = .error .duplicate_abi_def_exception ∧
    (set_abi fresh_serializer 32 (abi_of [] [⟨"s", "", []⟩, ⟨"s", "", []⟩]) 1
      still_clock).2 = .error .duplicate_abi_def_exception :=
  ⟨(C6_duplicates_rejected fresh_serializer 32
      (abi_of [⟨"u", "uint32"⟩, ⟨"u", "uint32"⟩] []) 1 still_clock (Or.inl (by decide))).2
      (by decide) (fun _ => Nat.zero_lt_one)
      ⟨rfl, by decide, rfl, by decide, trivial⟩,
   (C6_duplicates_rejected fresh_serializer 32
      (abi_of [] [⟨"s", "", []⟩, ⟨"s", "", []⟩]) 1 still_clock (Or.inr (Or.inl (by decide)))).2
      (by decide) (fun _ => Nat.zero_lt_one) trivial⟩

end wasm
